import Mathlib

/-!
# The safe-browsing chunk store (`safe_browsing_store_file.cc`)

A shallow embedding of `SafeBrowsingStoreFile`: the stdio streams it reads and
writes are byte lists with a position, the records are plain structures with a
fixed byte layout, and every store operation is a function on an explicit
state (the object's fields, the two files on disk, the number of times the
corruption callback ran).

The files hold raw memory (`fwrite` of structs): an `int32` takes four bytes,
least significant first, as on the hosts the store ran on.

Machine integers: an `int32` is an `Int` in `[-2^31, 2^31)`; the conversions the
source performs implicitly (`size_t` to `int32` when a header is filled in,
`int32` to `size_t` when a count is handed to a reader) are written out as
`toInt32` and `toSizeT`.

The environment: the streams are buffered, so the count a write returns says
what the stream took, and what reaches the file is settled when the stream is
flushed. Which opens, seeks, writes, flushes, deletes and moves fail is decided
by the environment and passed to the operations as `Faults`; the operations see
of it what the source looks at, the results it checks.
-/

namespace SafeBrowsing

/-! ## Bytes and fixed-width fields -/

/-- One byte of a file. -/
abbrev Byte := Fin 256

/-- The `n` low bytes of `v`, least significant first. -/
def leBytes : Nat → Nat → List Byte
  | 0, _ => []
  | n + 1, v => ⟨v % 256, Nat.mod_lt v (by decide)⟩ :: leBytes n (v / 256)

/-- The number a little-endian byte string stands for. -/
def leValue : List Byte → Nat
  | [] => 0
  | b :: bs => b.val + 256 * leValue bs

/-- An `int32` value: an integer in `[-2^31, 2^31)`. -/
def isInt32 (x : Int) : Prop := -2147483648 ≤ x ∧ x < 2147483648

instance (x : Int) : Decidable (isInt32 x) := by
  unfold isInt32; exact inferInstance

/-- Conversion of a `size_t` to `int32` (`header.count = vec.size()`): the value
is reduced modulo `2^32` into the signed range. -/
def toInt32 (n : Nat) : Int :=
  let m : Nat := n % 4294967296
  if m < 2147483648 then (m : Int) else (m : Int) - 4294967296

/-- Conversion of an `int32` to `size_t` (a header count passed as `size_t
count`), for a 64-bit `size_t`: negative values become huge. -/
def toSizeT (x : Int) : Nat := (x % 18446744073709551616).toNat

/-- The four bytes of an `int32` in memory. -/
def putInt32 (x : Int) : List Byte := leBytes 4 (x % 4294967296).toNat

/-- The `int32` held in the first four bytes of `bs`. -/
def getInt32 (bs : List Byte) : Int :=
  let n := leValue (bs.take 4)
  if n < 2147483648 then (n : Int) else (n : Int) - 4294967296

/-- A type whose values are written to and read from a file as raw memory
(`fwrite(ptr, sizeof(T), ...)`, `fread(ptr, sizeof(T), ...)`): `size` is
`sizeof(T)`, `put` the bytes of a value, `get` the value held in `size` bytes.
`wf` says that every field of a value fits its machine type. -/
class Pod (T : Type) where
  size : Nat
  put : T → List Byte
  get : List Byte → T
  wf : T → Prop

/-- The raw-memory round trip of a `Pod` type: `sizeof(T)` is positive, a value
occupies exactly `sizeof(T)` bytes, and reading back the bytes of a
well-formed value gives that value. -/
class LawfulPod (T : Type) [Pod T] : Prop where
  size_pos : 0 < Pod.size T
  put_length : ∀ x : T, (Pod.put x).length = Pod.size T
  get_put : ∀ x : T, Pod.wf x → Pod.get (Pod.put x) = x

/-- The bytes of an array of items. -/
def encodeItems {T : Type} [Pod T] : List T → List Byte
  | [] => []
  | x :: xs => Pod.put x ++ encodeItems xs

/-- The first `n` items held in `bs`, each of `sizeof(T)` bytes. -/
def decodeItems {T : Type} [Pod T] : Nat → List Byte → List T
  | 0, _ => []
  | n + 1, bs => Pod.get (bs.take (Pod.size T)) :: decodeItems n (bs.drop (Pod.size T))

/-- Records that carry the id of the chunk that introduced them. -/
class HasChunkId (T : Type) where
  chunk_id : T → Int

instance : Pod Int where
  size := 4
  put := putInt32
  get := getInt32
  wf := isInt32

/-! ## Records and headers -/

/-- Modelled from the spec: the `SBAddPrefix` record, declared in a header that
is not part of the sources: chunk id and fixed-width hash prefix (an
`int32`). -/
structure SBAddPrefix where
  chunk_id : Int
  prefix_ : Int
deriving DecidableEq, Repr

/-- Modelled from the spec: the `SBSubPrefix` record: chunk id of the sub
chunk, the prefix, and the add chunk id it targets. -/
structure SBSubPrefix where
  chunk_id : Int
  prefix_ : Int
  add_chunk_id : Int
deriving DecidableEq, Repr

/-- Modelled from the spec: the `SBAddFullHash` record: chunk id, the full hash
value (32 bytes, held as a number below `2^256`) and extra metadata (an
`int32`). -/
structure SBAddFullHash where
  chunk_id : Int
  full_hash : Nat
  received : Int
deriving DecidableEq, Repr

/-- Modelled from the spec: the `SBSubFullHash` record: chunk id of the sub
chunk, the full hash value and the add chunk id it targets. -/
structure SBSubFullHash where
  chunk_id : Int
  full_hash : Nat
  add_chunk_id : Int
deriving DecidableEq, Repr

instance : Pod SBAddPrefix where
  size := 8
  put r := putInt32 r.chunk_id ++ putInt32 r.prefix_
  get bs := ⟨getInt32 bs, getInt32 (bs.drop 4)⟩
  wf r := isInt32 r.chunk_id ∧ isInt32 r.prefix_

instance : Pod SBSubPrefix where
  size := 12
  put r := putInt32 r.chunk_id ++ putInt32 r.prefix_ ++ putInt32 r.add_chunk_id
  get bs := ⟨getInt32 bs, getInt32 (bs.drop 4), getInt32 (bs.drop 8)⟩
  wf r := isInt32 r.chunk_id ∧ isInt32 r.prefix_ ∧ isInt32 r.add_chunk_id

instance : Pod SBAddFullHash where
  size := 40
  put r := putInt32 r.chunk_id ++ leBytes 32 r.full_hash ++ putInt32 r.received
  get bs := ⟨getInt32 bs, leValue ((bs.drop 4).take 32), getInt32 (bs.drop 36)⟩
  wf r := isInt32 r.chunk_id ∧ r.full_hash < 2 ^ 256 ∧ isInt32 r.received

instance : Pod SBSubFullHash where
  size := 40
  put r := putInt32 r.chunk_id ++ leBytes 32 r.full_hash ++ putInt32 r.add_chunk_id
  get bs := ⟨getInt32 bs, leValue ((bs.drop 4).take 32), getInt32 (bs.drop 36)⟩
  wf r := isInt32 r.chunk_id ∧ r.full_hash < 2 ^ 256 ∧ isInt32 r.add_chunk_id

/-- NOTE(shess): kFileMagic should not be a byte-wise palindrome, so that
byte-order changes force corruption. -/
def kFileMagic : Int := 0x600D71FE

/-- The format version (SQLite storage was 6). -/
def kFileVersion : Int := 7

/-- Header at the front of the main database file. -/
structure FileHeader where
  magic : Int
  version : Int
  add_chunk_count : Int
  sub_chunk_count : Int
  add_prefix_count : Int
  sub_prefix_count : Int
  add_hash_count : Int
  sub_hash_count : Int
deriving DecidableEq, Repr, Inhabited

/-- Header for each chunk in the chunk-accumulation file. -/
structure ChunkHeader where
  add_prefix_count : Int
  sub_prefix_count : Int
  add_hash_count : Int
  sub_hash_count : Int
deriving DecidableEq, Repr, Inhabited

instance : Pod FileHeader where
  size := 32
  put h := putInt32 h.magic ++ putInt32 h.version ++ putInt32 h.add_chunk_count
    ++ putInt32 h.sub_chunk_count ++ putInt32 h.add_prefix_count
    ++ putInt32 h.sub_prefix_count ++ putInt32 h.add_hash_count ++ putInt32 h.sub_hash_count
  get bs := ⟨getInt32 bs, getInt32 (bs.drop 4), getInt32 (bs.drop 8), getInt32 (bs.drop 12),
    getInt32 (bs.drop 16), getInt32 (bs.drop 20), getInt32 (bs.drop 24), getInt32 (bs.drop 28)⟩
  wf h := isInt32 h.magic ∧ isInt32 h.version ∧ isInt32 h.add_chunk_count
    ∧ isInt32 h.sub_chunk_count ∧ isInt32 h.add_prefix_count ∧ isInt32 h.sub_prefix_count
    ∧ isInt32 h.add_hash_count ∧ isInt32 h.sub_hash_count

instance : Pod ChunkHeader where
  size := 16
  put h := putInt32 h.add_prefix_count ++ putInt32 h.sub_prefix_count
    ++ putInt32 h.add_hash_count ++ putInt32 h.sub_hash_count
  get bs := ⟨getInt32 bs, getInt32 (bs.drop 4), getInt32 (bs.drop 8), getInt32 (bs.drop 12)⟩
  wf h := isInt32 h.add_prefix_count ∧ isInt32 h.sub_prefix_count
    ∧ isInt32 h.add_hash_count ∧ isInt32 h.sub_hash_count

instance (r : SBAddPrefix) : Decidable (Pod.wf r) :=
  inferInstanceAs (Decidable (isInt32 r.chunk_id ∧ isInt32 r.prefix_))

instance (r : SBSubPrefix) : Decidable (Pod.wf r) :=
  inferInstanceAs (Decidable (isInt32 r.chunk_id ∧ isInt32 r.prefix_ ∧ isInt32 r.add_chunk_id))

instance (r : SBAddFullHash) : Decidable (Pod.wf r) :=
  inferInstanceAs (Decidable (isInt32 r.chunk_id ∧ r.full_hash < 2 ^ 256 ∧ isInt32 r.received))

instance (r : SBSubFullHash) : Decidable (Pod.wf r) :=
  inferInstanceAs (Decidable (isInt32 r.chunk_id ∧ r.full_hash < 2 ^ 256 ∧ isInt32 r.add_chunk_id))

instance : HasChunkId SBAddPrefix := ⟨SBAddPrefix.chunk_id⟩
instance : HasChunkId SBSubPrefix := ⟨SBSubPrefix.chunk_id⟩
instance : HasChunkId SBAddFullHash := ⟨SBAddFullHash.chunk_id⟩
instance : HasChunkId SBSubFullHash := ⟨SBSubFullHash.chunk_id⟩

/-! ## Streams -/

/-- An open stdio stream: the bytes of the file as the stream sees them, the
position of the next read or write, and `room`, the number of bytes the stream
still takes before a write comes back short. The stream is fully buffered
(`fopen`): a byte it took may still sit in the stdio buffer, so `room` is what
the buffer and the device take together, as the environment decides, and not
the room left on the device; what reaches the file is settled at the flush
(`FileRewind`, `closeNewFile`). -/
structure FILE where
  data : List Byte
  pos : Nat
  room : Nat
deriving DecidableEq, Repr

/-- `fseek(fp, 0, SEEK_SET) == 0`, which flushes the bytes still in the stdio
buffer before it moves; `ok` is whether the flush and the seek succeed. A null
stream makes the call fail. -/
def FileRewind (ok : Bool) (fp : Option FILE) : Bool × Option FILE :=
  match fp with
  | none => (false, none)
  | some f => if ok then (true, some { f with pos := 0 }) else (false, some f)

/-- `fread(ptr, sizeof(T), nmemb, fp)`: the whole items that could be read (at
most `nmemb`) and the stream afterwards. At end of file the stream stays at
the end. -/
def fread {T : Type} [Pod T] (nmemb : Nat) (fp : FILE) : List T × FILE :=
  let avail := (fp.data.length - fp.pos) / Pod.size T
  if nmemb ≤ avail then
    (decodeItems nmemb (fp.data.drop fp.pos), { fp with pos := fp.pos + nmemb * Pod.size T })
  else
    (decodeItems avail (fp.data.drop fp.pos), { fp with pos := fp.data.length })

/-- The bytes `bytes` go into the file at the current position, over what the
file holds there; what lies beyond the written range stays. -/
def FILE.write (fp : FILE) (bytes : List Byte) : FILE :=
  { data := fp.data.take fp.pos ++ bytes ++ fp.data.drop (fp.pos + bytes.length),
    pos := fp.pos + bytes.length,
    room := fp.room - bytes.length }

/-- The bytes from the current position to the end of the file. -/
def FILE.rest (fp : FILE) : List Byte := fp.data.drop fp.pos

/-- `fwrite(ptr, sizeof(T), nmemb, fp)` on the buffered stream: the number of
items the stream took and the stream afterwards: as many whole items as
`room` allows. A full count says the stream took the bytes, not that the
device has them. -/
def fwrite {T : Type} [Pod T] (items : List T) (fp : FILE) : Nat × FILE :=
  let k := min items.length (fp.room / Pod.size T)
  (k, fp.write (encodeItems (items.take k)))

/-- Read an array of `nmemb` items from `fp`. Returns true on success, with
the items read (fewer than `nmemb` on a short read). -/
def ReadArray {T : Type} [Pod T] (nmemb : Nat) (fp : FILE) : Bool × List T × FILE :=
  let r := fread nmemb fp
  if r.1.length ≠ nmemb then (false, r.1, r.2) else (true, r.1, r.2)

/-- Write an array of items to `fp`. Returns true on success. -/
def WriteArray {T : Type} [Pod T] (items : List T) (fp : FILE) : Bool × FILE :=
  let r := fwrite items fp
  if r.1 ≠ items.length then (false, r.2) else (true, r.2)

/-- Expand `values` to fit `count` new items, and read those items from `fp`.
On a short read the vector is resized back to its original size. The resize
itself is taken to succeed: memory is not modelled. -/
def ReadToVector {T : Type} [Pod T] (values : List T) (count : Nat) (fp : FILE) :
    Bool × List T × FILE :=
  if count = 0 then (true, values, fp)
  else
    let original_size := values.length
    match ReadArray count fp with
    | (false, _, fp1) => (false, values.take original_size, fp1)
    | (true, items, fp1) => (true, values ++ items, fp1)

/-- Write all of `values` to `fp`. Returns true on success. -/
def WriteVector {T : Type} [Pod T] (values : List T) (fp : FILE) : Bool × FILE :=
  if values.isEmpty then (true, fp) else WriteArray values fp

/-! ## Deletion sets and chunk-id sets -/

/-- A `base::hash_set<int32>`: only membership is observed. -/
abbrev HashSet := List Int

/-- `del_set.count(x)`: 1 when `x` is a member, else 0. -/
def HashSet.count (s : HashSet) (x : Int) : Nat := if x ∈ s then 1 else 0

/-- The records of `l` whose chunk id is not in `del_set`
(`del_set.count(chunk_id) == 0`), in their order. -/
def keepLive {T : Type} [HasChunkId T] (del_set : HashSet) (l : List T) : List T :=
  l.filter (fun x => decide (del_set.count (HasChunkId.chunk_id x) = 0))

/-- The loop of `RemoveDeleted`: `iter` scans the `n` items from its position
to the end, `add_iter` is where the next kept item is written. -/
def RemoveDeleted.scan {T : Type} [HasChunkId T] (del_set : HashSet) :
    Nat → List T → Nat → Nat → List T × Nat
  | 0, vec, add_iter, _ => (vec, add_iter)
  | n + 1, vec, add_iter, iter =>
    match vec.get? iter with
    | none => (vec, add_iter)
    | some x =>
      if del_set.count (HasChunkId.chunk_id x) = 0 then
        RemoveDeleted.scan del_set n (vec.set add_iter x) (add_iter + 1) (iter + 1)
      else
        RemoveDeleted.scan del_set n vec add_iter (iter + 1)

/-- Remove deleted items (`chunk_id` in `del_set`) from the vector starting at
`offset` running to the end: kept items are copied down in place, then the
tail is erased. -/
def RemoveDeleted {T : Type} [HasChunkId T] (vec : List T) (offset : Nat)
    (del_set : HashSet) : List T :=
  let r := RemoveDeleted.scan del_set (vec.length - offset) vec offset offset
  r.1.take r.2

/-- Combine `ReadToVector` and `RemoveDeleted`. Returns true on success. -/
def ReadToVectorAndDelete {T : Type} [Pod T] [HasChunkId T] (values : List T) (count : Nat)
    (fp : FILE) (del_set : HashSet) : Bool × List T × FILE :=
  let original_size := values.length
  match ReadToVector values count fp with
  | (false, values1, fp1) => (false, values1, fp1)
  | (true, values1, fp1) => (true, RemoveDeleted values1 original_size del_set, fp1)

/-- A `std::set<int32>`: its elements in increasing order, without repeats. -/
abbrev ChunkSet := List Int

/-- `values->insert(x)` on a `std::set<int32>`. -/
def ChunkSet.insert (x : Int) : ChunkSet → ChunkSet
  | [] => [x]
  | y :: ys =>
    if x < y then x :: y :: ys
    else if x = y then y :: ys
    else y :: ChunkSet.insert x ys

/-- `values->insert(first, last)`. -/
def ChunkSet.insertRange (values : ChunkSet) (flat_values : List Int) : ChunkSet :=
  flat_values.foldl (fun s x => ChunkSet.insert x s) values

/-- The representation invariant of a `std::set<int32>`. -/
def ChunkSet.ok (s : ChunkSet) : Prop := s.Pairwise (fun a b => a < b)

instance (s : ChunkSet) : Decidable (ChunkSet.ok s) := by
  unfold ChunkSet.ok; exact inferInstance

/-- Read an array of `count` integers and add them to `values`. Returns true
on success. -/
def ReadToChunkSet (values : ChunkSet) (count : Nat) (fp : FILE) : Bool × ChunkSet × FILE :=
  if count = 0 then (true, values, fp)
  else
    match ReadToVector ([] : List Int) count fp with
    | (false, _, fp1) => (false, values, fp1)
    | (true, flat_values, fp1) => (true, ChunkSet.insertRange values flat_values, fp1)

/-- Write the contents of `values` as an array of integers. Returns true on
success. -/
def WriteChunkSet (values : ChunkSet) (fp : FILE) : Bool × FILE :=
  if values.isEmpty then (true, fp)
  else
    let flat_values : List Int := values
    WriteVector flat_values fp

/-- Delete the chunks in `deleted` from `chunks`. -/
def DeleteChunksFromSet (deleted : HashSet) : ChunkSet → ChunkSet
  | [] => []
  | c :: rest =>
    if deleted.count c > 0 then DeleteChunksFromSet deleted rest
    else c :: DeleteChunksFromSet deleted rest

/-! ## The filesystem -/

/-- The two paths the store owns: `filename_` and
`TemporaryFileForFilename(filename_)`; `none` is an absent file. -/
structure Disk where
  committed : Option (List Byte)
  temporary : Option (List Byte)
deriving DecidableEq, Repr

/-- What the environment decides during one call of a store operation: which
opens, seeks, deletes and moves succeed; `room`, how many bytes the stream of
a temporary file opened in the call takes before a write comes back short;
and `flush_new`, what the flush at the close of the temporary stream lands:
`none` when every byte the stream took reaches the file, `some k` when the
flush fails and the file is left with its first `k` bytes only. -/
structure Faults where
  open_new : Bool
  open_old : Bool
  room : Nat
  seek_old : Bool
  seek_new : Bool
  seek_new_again : Bool
  delete_old : Bool
  delete_new : Bool
  move : Bool
  flush_new : Option Nat
deriving DecidableEq, Repr

/-- Modelled from the spec: `file_util::OpenFile(path, "wb+")` of the filesystem
abstraction: on success the file exists and is empty, and the stream takes
`room` bytes. -/
def file_util.OpenFileWrite (ok : Bool) (room : Nat) (path : Option (List Byte)) :
    Option FILE × Option (List Byte) :=
  if ok then (some { data := [], pos := 0, room := room }, some []) else (none, path)

/-- Modelled from the spec: `file_util::OpenFile(path, "rb")` of the filesystem
abstraction: an absent file cannot be opened, an existing one when `ok`. -/
def file_util.OpenFileRead (ok : Bool) (path : Option (List Byte)) : Option FILE :=
  match path with
  | none => none
  | some bytes => if ok then some { data := bytes, pos := 0, room := 0 } else none

/-- Modelled from the spec: `file_util::PathExists(path)`. -/
def file_util.PathExists (path : Option (List Byte)) : Bool := path.isSome

/-- Modelled from the spec: `file_util::Delete(path, false)` of the filesystem
abstraction: when `ok` the file is gone and the call reports success,
otherwise the path is as before and the call reports failure. -/
def file_util.Delete (ok : Bool) (path : Option (List Byte)) : Bool × Option (List Byte) :=
  if ok then (true, none) else (false, path)

/-- Modelled from the spec: `file_util::Move(new_filename, filename_)` of the
filesystem abstraction: when it succeeds the temporary file takes the place of the
committed one. -/
def file_util.Move (ok : Bool) (d : Disk) : Bool × Disk :=
  match ok, d.temporary with
  | true, some bytes => (true, { committed := some bytes, temporary := none })
  | _, _ => (false, d)

/-- What a file holds after the last flush of a stream that took `data`:
everything when the flush succeeds (`none`), the first `k` bytes when it fails
having landed that much (`some k`). -/
def landed (flush : Option Nat) (data : List Byte) : List Byte :=
  match flush with
  | none => data
  | some k => data.take k

/-- Closing the stream of the temporary file (`fclose`, run by `reset()` or by
the destructor of the `ScopedFILE`): the bytes still in the stdio buffer are
flushed, and the result of the close is dropped, so the caller does not learn
whether they reached the file. The file, if the path still exists, holds
`landed flush` of what the stream took. -/
def closeNewFile (flush : Option Nat) (fp : Option FILE) (d : Disk) : Disk :=
  match fp with
  | none => d
  | some f => { d with temporary := d.temporary.map (fun _ => landed flush f.data) }

/-! ## The store -/

/-- The four record vectors of a chunk or of an update. -/
structure Vectors where
  add_prefixes : List SBAddPrefix
  sub_prefixes : List SBSubPrefix
  add_full_hashes : List SBAddFullHash
  sub_full_hashes : List SBSubFullHash
deriving DecidableEq, Repr

/-- The fields of a `SafeBrowsingStoreFile`; `corruption_callback_` is whether
a callback is registered. -/
structure SafeBrowsingStoreFile where
  add_chunks_cache_ : ChunkSet
  sub_chunks_cache_ : ChunkSet
  add_del_cache_ : HashSet
  sub_del_cache_ : HashSet
  add_prefixes_ : List SBAddPrefix
  sub_prefixes_ : List SBSubPrefix
  add_hashes_ : List SBAddFullHash
  sub_hashes_ : List SBSubFullHash
  chunks_written_ : Nat
  file_ : Option FILE
  new_file_ : Option FILE
  empty_ : Bool
  corruption_callback_ : Bool
deriving DecidableEq, Repr

/-- The store object, the disk, and the number of runs of the corruption
callback so far. -/
structure World where
  store : SafeBrowsingStoreFile
  disk : Disk
  callback_runs : Nat
deriving DecidableEq, Repr

/-- The constructor: nothing written, no file open, followed by `Init`, which
registers the corruption callback (or none). -/
def SafeBrowsingStoreFile.Init (corruption_callback : Bool) : SafeBrowsingStoreFile :=
  { add_chunks_cache_ := [], sub_chunks_cache_ := [], add_del_cache_ := [], sub_del_cache_ := [],
    add_prefixes_ := [], sub_prefixes_ := [], add_hashes_ := [], sub_hashes_ := [],
    chunks_written_ := 0, file_ := none, new_file_ := none, empty_ := false,
    corruption_callback_ := corruption_callback }

/-- Run the corruption callback if there is one. Returns false as a
convenience to callers. -/
def OnCorruptDatabase (w : World) : Bool × World :=
  if w.store.corruption_callback_ then (false, { w with callback_runs := w.callback_runs + 1 })
  else (false, w)

/-- Modelled from the spec: `ClearChunkBuffers`, defined in the class header
that is not part of the sources: clears the four pending buffers. -/
def ClearChunkBuffers (s : SafeBrowsingStoreFile) : Bool × SafeBrowsingStoreFile :=
  (true, { s with add_prefixes_ := [], sub_prefixes_ := [], add_hashes_ := [], sub_hashes_ := [] })

/-- Modelled from the spec: `ClearUpdateBuffers`, defined in the class header
that is not part of the sources: releases all buffers of the session (pending
buffers, chunk counter, known-chunk-id sets, deletion sets). -/
def ClearUpdateBuffers (s : SafeBrowsingStoreFile) : SafeBrowsingStoreFile :=
  { (ClearChunkBuffers s).2 with
    chunks_written_ := 0, add_chunks_cache_ := [], sub_chunks_cache_ := [],
    add_del_cache_ := [], sub_del_cache_ := [] }

/-- Clear the update buffers and make sure the files are closed. -/
def Close (env : Faults) (w : World) : Bool × World :=
  let s := ClearUpdateBuffers w.store
  (true, { w with store := { s with file_ := none, new_file_ := none },
                  disk := closeNewFile env.flush_new w.store.new_file_ w.disk })

/-- `SafeBrowsingStoreFile::Delete`: close everything, then remove the
committed file and the temporary file. -/
def Delete (env : Faults) (w : World) : Bool × World :=
  let c := Close env w
  if !c.1 then (false, c.2)
  else
    let w1 := c.2
    let d1 := file_util.Delete env.delete_old w1.disk.committed
    let w2 := { w1 with disk := { w1.disk with committed := d1.2 } }
    if !d1.1 && file_util.PathExists w2.disk.committed then (false, w2)
    else
      let d2 := file_util.Delete env.delete_new w2.disk.temporary
      let w3 := { w2 with disk := { w2.disk with temporary := d2.2 } }
      if !d2.1 && file_util.PathExists w3.disk.temporary then (false, w3)
      else (true, w3)

/-- `SafeBrowsingStoreFile::BeginUpdate`. The local `new_file` and `file`
streams are closed when the function returns without handing them to the
object. -/
def BeginUpdate (env : Faults) (w : World) : Bool × World :=
  let o := file_util.OpenFileWrite env.open_new env.room w.disk.temporary
  let w0 := { w with disk := { w.disk with temporary := o.2 } }
  match o.1 with
  | none => (false, w0)
  | some new_file =>
    let file := file_util.OpenFileRead env.open_old w0.disk.committed
    let w1 := { w0 with store := { w0.store with empty_ := file.isNone } }
    match file with
    | none =>
      if file_util.PathExists w1.disk.committed then
        OnCorruptDatabase { w1 with disk := closeNewFile env.flush_new (some new_file) w1.disk }
      else
        (true, { w1 with store := { w1.store with new_file_ := some new_file } })
    | some file0 =>
      match ReadArray (T := FileHeader) 1 file0 with
      | (false, _, _) => OnCorruptDatabase { w1 with disk := closeNewFile env.flush_new (some new_file) w1.disk }
      | (true, hs, file1) =>
        let header := hs.headD default
        if header.magic ≠ kFileMagic ∨ header.version ≠ kFileVersion then
          OnCorruptDatabase { w1 with disk := closeNewFile env.flush_new (some new_file) w1.disk }
        else
          match ReadToChunkSet w1.store.add_chunks_cache_ (toSizeT header.add_chunk_count) file1 with
          | (false, adds, _) =>
            OnCorruptDatabase { w1 with store := { w1.store with add_chunks_cache_ := adds },
                                        disk := closeNewFile env.flush_new (some new_file) w1.disk }
          | (true, adds, file2) =>
            let w2 := { w1 with store := { w1.store with add_chunks_cache_ := adds } }
            match ReadToChunkSet w2.store.sub_chunks_cache_ (toSizeT header.sub_chunk_count) file2 with
            | (false, subs, _) =>
              OnCorruptDatabase { w2 with store := { w2.store with sub_chunks_cache_ := subs },
                                          disk := closeNewFile env.flush_new (some new_file) w2.disk }
            | (true, subs, file3) =>
              (true, { w2 with store := { w2.store with sub_chunks_cache_ := subs,
                                                        file_ := some file3,
                                                        new_file_ := some new_file } })

/-- `SafeBrowsingStoreFile::FinishChunk`: append the pending buffers to the
temporary file as one chunk record. A null stream makes the write fail. -/
def FinishChunk (w : World) : Bool × World :=
  let s := w.store
  if s.add_prefixes_.length = 0 ∧ s.sub_prefixes_.length = 0 ∧
      s.add_hashes_.length = 0 ∧ s.sub_hashes_.length = 0 then (true, w)
  else
    let header : ChunkHeader :=
      { add_prefix_count := toInt32 s.add_prefixes_.length,
        sub_prefix_count := toInt32 s.sub_prefixes_.length,
        add_hash_count := toInt32 s.add_hashes_.length,
        sub_hash_count := toInt32 s.sub_hashes_.length }
    match s.new_file_ with
    | none => (false, w)
    | some fp0 =>
      match WriteArray [header] fp0 with
      | (false, fp1) => (false, { w with store := { s with new_file_ := some fp1 } })
      | (true, fp1) =>
        match WriteVector s.add_prefixes_ fp1 with
        | (false, fp2) => (false, { w with store := { s with new_file_ := some fp2 } })
        | (true, fp2) =>
          match WriteVector s.sub_prefixes_ fp2 with
          | (false, fp3) => (false, { w with store := { s with new_file_ := some fp3 } })
          | (true, fp3) =>
            match WriteVector s.add_hashes_ fp3 with
            | (false, fp4) => (false, { w with store := { s with new_file_ := some fp4 } })
            | (true, fp4) =>
              match WriteVector s.sub_hashes_ fp4 with
              | (false, fp5) => (false, { w with store := { s with new_file_ := some fp5 } })
              | (true, fp5) =>
                let s1 := { s with new_file_ := some fp5, chunks_written_ := s.chunks_written_ + 1 }
                let c := ClearChunkBuffers s1
                (c.1, { w with store := c.2 })

/-- The four `ReadToVectorAndDelete` calls that `DoUpdate` joins with `||`,
for the committed file and for each chunk record: add records are filtered by
`add_del`, sub records by `sub_del`; the first failure stops the chain. -/
def readVectors (v : Vectors) (add_prefix_count sub_prefix_count add_hash_count
    sub_hash_count : Int) (fp : FILE) (add_del sub_del : HashSet) : Bool × Vectors × FILE :=
  match ReadToVectorAndDelete v.add_prefixes (toSizeT add_prefix_count) fp add_del with
  | (false, l1, fp1) => (false, { v with add_prefixes := l1 }, fp1)
  | (true, l1, fp1) =>
    let v1 := { v with add_prefixes := l1 }
    match ReadToVectorAndDelete v1.sub_prefixes (toSizeT sub_prefix_count) fp1 sub_del with
    | (false, l2, fp2) => (false, { v1 with sub_prefixes := l2 }, fp2)
    | (true, l2, fp2) =>
      let v2 := { v1 with sub_prefixes := l2 }
      match ReadToVectorAndDelete v2.add_full_hashes (toSizeT add_hash_count) fp2 add_del with
      | (false, l3, fp3) => (false, { v2 with add_full_hashes := l3 }, fp3)
      | (true, l3, fp3) =>
        let v3 := { v2 with add_full_hashes := l3 }
        match ReadToVectorAndDelete v3.sub_full_hashes (toSizeT sub_hash_count) fp3 sub_del with
        | (false, l4, fp4) => (false, { v3 with sub_full_hashes := l4 }, fp4)
        | (true, l4, fp4) => (true, { v3 with sub_full_hashes := l4 }, fp4)

/-- `DoUpdate`, "Read |file_| into the vectors": rewind, check the header,
re-read the chunks-seen data, read the four arrays dropping deleted records,
close the file. Every failure goes through `OnCorruptDatabase`. -/
def DoUpdate.readFile (env : Faults) (w : World) : Bool × Vectors × World :=
  let v0 : Vectors := { add_prefixes := [], sub_prefixes := [], add_full_hashes := [],
                        sub_full_hashes := [] }
  if w.store.empty_ then (true, v0, w)
  else
    let r := FileRewind env.seek_old w.store.file_
    let w0 := { w with store := { w.store with file_ := r.2 } }
    match r.1, r.2 with
    | true, some fp0 =>
      match ReadArray (T := FileHeader) 1 fp0 with
      | (false, _, fp1) =>
        (false, v0, (OnCorruptDatabase { w0 with store := { w0.store with file_ := some fp1 } }).2)
      | (true, hs, fp1) =>
        let header := hs.headD default
        let w1 := { w0 with store := { w0.store with file_ := some fp1 } }
        if header.magic ≠ kFileMagic ∨ header.version ≠ kFileVersion then
          (false, v0, (OnCorruptDatabase w1).2)
        else
          match ReadToChunkSet w1.store.add_chunks_cache_ (toSizeT header.add_chunk_count) fp1 with
          | (false, adds, fp2) =>
            (false, v0, (OnCorruptDatabase { w1 with store :=
              { w1.store with add_chunks_cache_ := adds, file_ := some fp2 } }).2)
          | (true, adds, fp2) =>
            let w2 := { w1 with store :=
              { w1.store with add_chunks_cache_ := adds, file_ := some fp2 } }
            match ReadToChunkSet w2.store.sub_chunks_cache_ (toSizeT header.sub_chunk_count) fp2 with
            | (false, subs, fp3) =>
              (false, v0, (OnCorruptDatabase { w2 with store :=
                { w2.store with sub_chunks_cache_ := subs, file_ := some fp3 } }).2)
            | (true, subs, fp3) =>
              let w3 := { w2 with store :=
                { w2.store with sub_chunks_cache_ := subs, file_ := some fp3 } }
              match readVectors v0 header.add_prefix_count header.sub_prefix_count
                  header.add_hash_count header.sub_hash_count fp3
                  w3.store.add_del_cache_ w3.store.sub_del_cache_ with
              | (false, v, fp4) =>
                (false, v, (OnCorruptDatabase { w3 with store :=
                  { w3.store with file_ := some fp4 } }).2)
              | (true, v, _) =>
                (true, v, { w3 with store := { w3.store with file_ := none } })
    | _, _ => (false, v0, (OnCorruptDatabase w0).2)

/-- `DoUpdate`, "Append the accumulated chunks onto the vectors from file_":
the loop over the `chunks_written_` chunk records of the temporary file. -/
def DoUpdate.readChunks (add_del sub_del : HashSet) : Nat → Vectors → FILE → Bool × Vectors × FILE
  | 0, v, fp => (true, v, fp)
  | n + 1, v, fp =>
    match ReadArray (T := ChunkHeader) 1 fp with
    | (false, _, fp1) => (false, v, fp1)
    | (true, hs, fp1) =>
      let header := hs.headD default
      match readVectors v header.add_prefix_count header.sub_prefix_count
          header.add_hash_count header.sub_hash_count fp1 add_del sub_del with
      | (false, v1, fp2) => (false, v1, fp2)
      | (true, v1, fp2) => DoUpdate.readChunks add_del sub_del n v1 fp2

/-- `DoUpdate`, "Append items from |pending_adds| which haven't been
deleted". -/
def DoUpdate.appendPending (add_del : HashSet) (add_full_hashes pending_adds : List SBAddFullHash) :
    List SBAddFullHash :=
  pending_adds.foldl
    (fun acc x => if add_del.count x.chunk_id = 0 then acc ++ [x] else acc) add_full_hashes

/-- The header `DoUpdate` fills in before writing: the magic, the version and
the six counts, each a `size()` stored into an `int32`. -/
def committedHeader (add_chunks sub_chunks : ChunkSet) (v : Vectors) : FileHeader :=
  { magic := kFileMagic, version := kFileVersion,
    add_chunk_count := toInt32 add_chunks.length,
    sub_chunk_count := toInt32 sub_chunks.length,
    add_prefix_count := toInt32 v.add_prefixes.length,
    sub_prefix_count := toInt32 v.sub_prefixes.length,
    add_hash_count := toInt32 v.add_full_hashes.length,
    sub_hash_count := toInt32 v.sub_full_hashes.length }

/-- The bytes of a committed file: header, two chunk-id arrays, four record
arrays. -/
def committedBytes (add_chunks sub_chunks : ChunkSet) (v : Vectors) : List Byte :=
  encodeItems [committedHeader add_chunks sub_chunks v]
    ++ (encodeItems (T := Int) add_chunks
    ++ (encodeItems (T := Int) sub_chunks
    ++ (encodeItems v.add_prefixes
    ++ (encodeItems v.sub_prefixes
    ++ (encodeItems v.add_full_hashes
    ++ encodeItems v.sub_full_hashes)))))

/-- `DoUpdate`, "Write the new data to new_file_", after the rewind: the
header, the two chunk-id sets, the four vectors. -/
def DoUpdate.writeFile (add_chunks sub_chunks : ChunkSet) (v : Vectors) (fp : FILE) : Bool × FILE :=
  let header : FileHeader := committedHeader add_chunks sub_chunks v
  match WriteArray [header] fp with
  | (false, fp1) => (false, fp1)
  | (true, fp1) =>
    match WriteChunkSet add_chunks fp1 with
    | (false, fp2) => (false, fp2)
    | (true, fp2) =>
      match WriteChunkSet sub_chunks fp2 with
      | (false, fp3) => (false, fp3)
      | (true, fp3) =>
        match WriteVector v.add_prefixes fp3 with
        | (false, fp4) => (false, fp4)
        | (true, fp4) =>
          match WriteVector v.sub_prefixes fp4 with
          | (false, fp5) => (false, fp5)
          | (true, fp5) =>
            match WriteVector v.add_full_hashes fp5 with
            | (false, fp6) => (false, fp6)
            | (true, fp6) => WriteVector v.sub_full_hashes fp6

/-- `DoUpdate` up to the call of `SBProcessSubs`: the committed file is read
into the four working vectors, the temporary file is rewound, the accumulated
chunks are appended, then the pending adds that have not been deleted. The
result is the working vectors handed to sub-cancellation. -/
def DoUpdate.merge (env : Faults) (pending_adds : List SBAddFullHash) (w : World) :
    Bool × Vectors × World :=
  match DoUpdate.readFile env w with
  | (false, v1, w1) => (false, v1, w1)
  | (true, v1, w1) =>
    -- Rewind the temporary storage.
    let r := FileRewind env.seek_new w1.store.new_file_
    let w2 := { w1 with store := { w1.store with new_file_ := r.2 } }
    match r.1, r.2 with
    | true, some nf0 =>
      match DoUpdate.readChunks w2.store.add_del_cache_ w2.store.sub_del_cache_
          w2.store.chunks_written_ v1 nf0 with
      | (false, v2, nf1) =>
        (false, v2, { w2 with store := { w2.store with new_file_ := some nf1 } })
      | (true, v2, nf1) =>
        (true,
          { v2 with add_full_hashes :=
              DoUpdate.appendPending w2.store.add_del_cache_ v2.add_full_hashes pending_adds },
          { w2 with store := { w2.store with new_file_ := some nf1 } })
    | _, _ => (false, v1, w2)

/-- `SafeBrowsingStoreFile::DoUpdate`. `SBProcessSubs` is the sub-cancellation
primitive, defined outside the sources; the caller's two result vectors are
passed in and handed back (swapped with the merged vectors on success only). -/
def DoUpdate (SBProcessSubs : Vectors → Vectors) (env : Faults)
    (pending_adds : List SBAddFullHash)
    (add_prefixes_result : List SBAddPrefix) (add_full_hashes_result : List SBAddFullHash)
    (w : World) : Bool × List SBAddPrefix × List SBAddFullHash × World :=
  match DoUpdate.merge env pending_adds w with
  | (false, _, w2) => (false, add_prefixes_result, add_full_hashes_result, w2)
  | (true, v3, w2) =>
    -- Knock the subs from the adds.
    let v4 := SBProcessSubs v3
    -- We no longer need to track deleted chunks.
    let w3 := { w2 with store := { w2.store with
      add_chunks_cache_ := DeleteChunksFromSet w2.store.add_del_cache_ w2.store.add_chunks_cache_,
      sub_chunks_cache_ := DeleteChunksFromSet w2.store.sub_del_cache_ w2.store.sub_chunks_cache_ } }
    -- Write the new data to new_file_.
    let r2 := FileRewind env.seek_new_again w3.store.new_file_
    let w4 := { w3 with store := { w3.store with new_file_ := r2.2 } }
    match r2.1, r2.2 with
    | true, some nf2 =>
      match DoUpdate.writeFile w4.store.add_chunks_cache_ w4.store.sub_chunks_cache_ v4 nf2 with
      | (false, nf3) =>
        (false, add_prefixes_result, add_full_hashes_result,
          { w4 with store := { w4.store with new_file_ := some nf3 } })
      | (true, nf3) =>
        -- Close the file handle and swizzle the file into place.
        let w5 := { w4 with store := { w4.store with new_file_ := none },
                            disk := closeNewFile env.flush_new (some nf3) w4.disk }
        let d := file_util.Delete env.delete_old w5.disk.committed
        let w6 := { w5 with disk := { w5.disk with committed := d.2 } }
        if !d.1 && file_util.PathExists w6.disk.committed then
          (false, add_prefixes_result, add_full_hashes_result, w6)
        else
          let m := file_util.Move env.move w6.disk
          let w7 := { w6 with disk := m.2 }
          if !m.1 then (false, add_prefixes_result, add_full_hashes_result, w7)
          else
            -- Pass the resulting data off to the caller.
            (true, v4.add_prefixes, v4.add_full_hashes, w7)
    | _, _ => (false, add_prefixes_result, add_full_hashes_result, w4)

/-- `SafeBrowsingStoreFile::CancelUpdate`. -/
def CancelUpdate (env : Faults) (w : World) : Bool × World := Close env w

/-- `SafeBrowsingStoreFile::FinishUpdate`. -/
def FinishUpdate (SBProcessSubs : Vectors → Vectors) (env : Faults)
    (pending_adds : List SBAddFullHash)
    (add_prefixes_result : List SBAddPrefix) (add_full_hashes_result : List SBAddFullHash)
    (w : World) : Bool × List SBAddPrefix × List SBAddFullHash × World :=
  let ret := DoUpdate SBProcessSubs env pending_adds add_prefixes_result add_full_hashes_result w
  if !ret.1 then
    (false, ret.2.1, ret.2.2.1, (CancelUpdate env ret.2.2.2).2)
  else
    let c := Close env ret.2.2.2
    (c.1, ret.2.1, ret.2.2.1, c.2)

/-- Modelled from the spec: the cancellation pass of the sub-cancellation
primitive for one kind of record. The subs are taken in order; a sub that
matches an add (`hit`) removes that add, the first one that matches, and is
itself consumed; a sub that matches no add is retained. Each sub cancels at
most one add. -/
def cancelSubs {A S : Type} (hit : S → A → Bool) : List A → List S → List A × List S
  | adds, [] => (adds, [])
  | adds, s :: rest =>
    if adds.any (hit s) then cancelSubs hit (adds.eraseP (hit s)) rest
    else ((cancelSubs hit adds rest).1, s :: (cancelSubs hit adds rest).2)

/-- Modelled from the spec: `SBProcessSubs`, the sub-cancellation primitive,
defined in a file that is not part of the sources: a sub record cancels an add
record of its target add chunk with the same prefix (or the same full hash). -/
def SBProcessSubs (v : Vectors) : Vectors :=
  let p := cancelSubs
    (fun (s : SBSubPrefix) (a : SBAddPrefix) =>
      decide (a.chunk_id = s.add_chunk_id ∧ a.prefix_ = s.prefix_))
    v.add_prefixes v.sub_prefixes
  let h := cancelSubs
    (fun (s : SBSubFullHash) (a : SBAddFullHash) =>
      decide (a.chunk_id = s.add_chunk_id ∧ a.full_hash = s.full_hash))
    v.add_full_hashes v.sub_full_hashes
  { add_prefixes := p.1, sub_prefixes := p.2, add_full_hashes := h.1, sub_full_hashes := h.2 }

/-- No record of `v` belongs to a deleted chunk: no add record has its chunk id
in `add_del`, no sub record has its chunk id in `sub_del`. -/
def Vectors.Live (add_del sub_del : HashSet) (v : Vectors) : Prop :=
  (∀ r ∈ v.add_prefixes, r.chunk_id ∉ add_del) ∧ (∀ r ∈ v.sub_prefixes, r.chunk_id ∉ sub_del)
    ∧ (∀ r ∈ v.add_full_hashes, r.chunk_id ∉ add_del)
    ∧ (∀ r ∈ v.sub_full_hashes, r.chunk_id ∉ sub_del)

/-- A sub-cancellation primitive that only removes records: every record of
its result is a record of its argument. -/
def OnlyRemoves (P : Vectors → Vectors) : Prop :=
  ∀ v, (∀ r ∈ (P v).add_prefixes, r ∈ v.add_prefixes)
    ∧ (∀ r ∈ (P v).sub_prefixes, r ∈ v.sub_prefixes)
    ∧ (∀ r ∈ (P v).add_full_hashes, r ∈ v.add_full_hashes)
    ∧ (∀ r ∈ (P v).sub_full_hashes, r ∈ v.sub_full_hashes)

/-- The header `FinishChunk` writes for a chunk holding the vectors `c`. -/
def chunkHeaderOf (c : Vectors) : ChunkHeader :=
  { add_prefix_count := toInt32 c.add_prefixes.length,
    sub_prefix_count := toInt32 c.sub_prefixes.length,
    add_hash_count := toInt32 c.add_full_hashes.length,
    sub_hash_count := toInt32 c.sub_full_hashes.length }

/-- The bytes of one chunk record of the temporary file: the chunk header,
then the four arrays. -/
def chunkBytes (c : Vectors) : List Byte :=
  encodeItems [chunkHeaderOf c]
    ++ (encodeItems c.add_prefixes
    ++ (encodeItems c.sub_prefixes
    ++ (encodeItems c.add_full_hashes
    ++ encodeItems c.sub_full_hashes)))

/-- The bytes of a sequence of chunk records, in append order. -/
def chunksBytes : List Vectors → List Byte
  | [] => []
  | c :: cs => chunkBytes c ++ chunksBytes cs

/-- No records. -/
def Vectors.nil : Vectors :=
  { add_prefixes := [], sub_prefixes := [], add_full_hashes := [], sub_full_hashes := [] }

/-- The records of `a` followed by those of `b`, kind by kind. -/
def Vectors.append (a b : Vectors) : Vectors :=
  { add_prefixes := a.add_prefixes ++ b.add_prefixes,
    sub_prefixes := a.sub_prefixes ++ b.sub_prefixes,
    add_full_hashes := a.add_full_hashes ++ b.add_full_hashes,
    sub_full_hashes := a.sub_full_hashes ++ b.sub_full_hashes }

/-- The records of a sequence of chunks, kind by kind, in the order of the
chunks. -/
def Vectors.concat : List Vectors → Vectors
  | [] => Vectors.nil
  | c :: cs => Vectors.append c (Vectors.concat cs)

/-- The records of `v` that survive the deletion sets: add records whose chunk
id is not in `add_del`, sub records whose chunk id is not in `sub_del`, in
their order. -/
def Vectors.survivors (add_del sub_del : HashSet) (v : Vectors) : Vectors :=
  { add_prefixes := SafeBrowsing.keepLive add_del v.add_prefixes,
    sub_prefixes := SafeBrowsing.keepLive sub_del v.sub_prefixes,
    add_full_hashes := SafeBrowsing.keepLive add_del v.add_full_hashes,
    sub_full_hashes := SafeBrowsing.keepLive sub_del v.sub_full_hashes }

/-- Every record of `v` fits its machine types and each of the four vectors is
shorter than `2^31`. -/
def Vectors.WF (v : Vectors) : Prop :=
  (∀ r ∈ v.add_prefixes, Pod.wf r) ∧ (∀ r ∈ v.sub_prefixes, Pod.wf r)
    ∧ (∀ r ∈ v.add_full_hashes, Pod.wf r) ∧ (∀ r ∈ v.sub_full_hashes, Pod.wf r)
    ∧ v.add_prefixes.length < 2147483648 ∧ v.sub_prefixes.length < 2147483648
    ∧ v.add_full_hashes.length < 2147483648 ∧ v.sub_full_hashes.length < 2147483648

instance (v : Vectors) : Decidable (Vectors.WF v) := by
  unfold Vectors.WF; exact inferInstance

/-- Every record of `v` fits its machine types: the chunk ids, prefixes and
extra fields are `int32` values, the full hashes are 32 bytes. -/
def Vectors.Typed (v : Vectors) : Prop :=
  (∀ r ∈ v.add_prefixes, Pod.wf r) ∧ (∀ r ∈ v.sub_prefixes, Pod.wf r)
    ∧ (∀ r ∈ v.add_full_hashes, Pod.wf r) ∧ (∀ r ∈ v.sub_full_hashes, Pod.wf r)

instance (v : Vectors) : Decidable (Vectors.Typed v) := by
  unfold Vectors.Typed; exact inferInstance

/-- The committed file the session reads holds the chunk-id arrays `A`, `S` and
the records `items` (followed by any bytes); a session that started from an
empty store has no committed records. -/
def FileHolds (w : World) (A S : ChunkSet) (items : Vectors) : Prop :=
  (w.store.empty_ = true ∧ items = Vectors.nil)
    ∨ (w.store.empty_ = false
        ∧ ∃ f tail, w.store.file_ = some f ∧ f.data = committedBytes A S items ++ tail)

/-- The temporary file of the session holds the chunk records `chunks`, in
append order (followed by any bytes), and `chunks_written_` counts them. -/
def TempHolds (w : World) (chunks : List Vectors) : Prop :=
  ∃ nf tail, w.store.new_file_ = some nf ∧ nf.data = chunksBytes chunks ++ tail
    ∧ w.store.chunks_written_ = chunks.length

/-- The file header held in the first 32 bytes of a committed file. -/
def headerOf (bytes : List Byte) : FileHeader := Pod.get (bytes.take 32)

/-- The four pending buffers of the store, as the vectors of one chunk. -/
def pendingBuffers (s : SafeBrowsingStoreFile) : Vectors :=
  { add_prefixes := s.add_prefixes_, sub_prefixes := s.sub_prefixes_,
    add_full_hashes := s.add_hashes_, sub_full_hashes := s.sub_hashes_ }

/-- At least one of the four vectors holds a record. -/
def Vectors.nonEmpty (c : Vectors) : Bool :=
  decide (¬ (c.add_prefixes.length = 0 ∧ c.sub_prefixes.length = 0
    ∧ c.add_full_hashes.length = 0 ∧ c.sub_full_hashes.length = 0))

/-- Modelled from the spec: the caller's `WriteAddPrefix`, `WriteSubPrefix`,
`WriteAddHash` and `WriteSubHash`, defined in the class header that is not
part of the sources: the records of one chunk are accumulated in the four
pending buffers. -/
def fillBuffers (c : Vectors) (s : SafeBrowsingStoreFile) : SafeBrowsingStoreFile :=
  { s with add_prefixes_ := s.add_prefixes_ ++ c.add_prefixes,
           sub_prefixes_ := s.sub_prefixes_ ++ c.sub_prefixes,
           add_hashes_ := s.add_hashes_ ++ c.add_full_hashes,
           sub_hashes_ := s.sub_hashes_ ++ c.sub_full_hashes }

/-- A sequence of `FinishChunk` calls: for each chunk in turn the caller fills
the pending buffers and calls `FinishChunk`; the sequence stops at the first
call that fails. -/
def finishChunks : List Vectors → World → Bool × World
  | [], w => (true, w)
  | c :: cs, w =>
    match FinishChunk { w with store := fillBuffers c w.store } with
    | (false, w1) => (false, w1)
    | (true, w1) => finishChunks cs w1

/-- The temporary file of the session holds exactly the chunk records `chunks`,
the stream stands at its end, `chunks_written_` counts the records and the
pending buffers are empty: the state of an open session between two chunks. -/
def TempAtEnd (w : World) (chunks : List Vectors) : Prop :=
  (∃ nf, w.store.new_file_ = some nf ∧ nf.data = chunksBytes chunks ∧ nf.pos = nf.data.length)
    ∧ w.store.chunks_written_ = chunks.length
    ∧ pendingBuffers w.store = Vectors.nil

/-- The stable filter of a suffix, as a list function: the first `offset`
elements of `v`, then the elements of the rest whose chunk id is not in
`del_set`, in their order. -/
def stableFilterFrom {T : Type} [HasChunkId T] (v : List T) (offset : Nat) (del_set : HashSet) :
    List T :=
  v.take offset ++ (v.drop offset).filter (fun x => decide (HasChunkId.chunk_id x ∉ del_set))

/-- The state `BeginUpdate` requires on entry (its `DCHECK`s): no file handle
is held, the two known-chunk-id sets, the two deletion sets and the four
pending buffers are empty, and no chunk has been written. -/
def SessionClosed (s : SafeBrowsingStoreFile) : Prop :=
  s.file_ = none ∧ s.new_file_ = none
    ∧ s.add_chunks_cache_ = [] ∧ s.sub_chunks_cache_ = []
    ∧ s.add_del_cache_ = [] ∧ s.sub_del_cache_ = []
    ∧ s.add_prefixes_ = [] ∧ s.sub_prefixes_ = []
    ∧ s.add_hashes_ = [] ∧ s.sub_hashes_ = []
    ∧ s.chunks_written_ = 0

instance (s : SafeBrowsingStoreFile) : Decidable (SessionClosed s) := by
  unfold SessionClosed; exact inferInstance

/-- Modelled from the spec: the session after the caller has asked, through
`DeleteAddChunk` and `DeleteSubChunk` of the class header that is not part of
the sources, for the deletion of the add chunks `add_del` and of the sub chunks
`sub_del`: the two deletion sets hold these ids. -/
def requestDeletions (add_del sub_del : HashSet) (w : World) : World :=
  { w with store := { w.store with add_del_cache_ := add_del, sub_del_cache_ := sub_del } }

/-- The `fwrite` calls `FinishChunk` makes for a chunk that holds the vectors
`c`, on the stream `fp`, in order: the header, then the four vectors, each call
on the stream the call before left. Each entry is the number of items the
stream took and the number of items asked for; a write is short when the
first is below the second. An empty vector is not written (`WriteVector`) and
counts as 0 items of 0; a chunk without any record is not written at all; the
entries after a short write stand for calls the code no longer makes. -/
def chunkWrites (c : Vectors) (fp : FILE) : List (Nat × Nat) :=
  if c.nonEmpty then
    [((fwrite [chunkHeaderOf c] fp).1, 1),
     ((fwrite c.add_prefixes (fwrite [chunkHeaderOf c] fp).2).1, c.add_prefixes.length),
     ((fwrite c.sub_prefixes
        (fwrite c.add_prefixes (fwrite [chunkHeaderOf c] fp).2).2).1, c.sub_prefixes.length),
     ((fwrite c.add_full_hashes
        (fwrite c.sub_prefixes
          (fwrite c.add_prefixes (fwrite [chunkHeaderOf c] fp).2).2).2).1,
       c.add_full_hashes.length),
     ((fwrite c.sub_full_hashes
        (fwrite c.add_full_hashes
          (fwrite c.sub_prefixes
            (fwrite c.add_prefixes (fwrite [chunkHeaderOf c] fp).2).2).2).2).1,
       c.sub_full_hashes.length)]
  else []

/-! ## Sample inputs -/

/-- An environment in which nothing fails. -/
def sampleEnv : Faults :=
  { open_new := true, open_old := true, room := 4096, seek_old := true, seek_new := true,
    seek_new_again := true, delete_old := true, delete_new := true, move := true,
    flush_new := none }

/-- Sample record vectors, one record of each kind. -/
def sampleVectors : Vectors :=
  { add_prefixes := [⟨1, 0xAAAA⟩], sub_prefixes := [⟨2, 0xBBBB, 1⟩],
    add_full_hashes := [⟨1, 123456789, 0⟩], sub_full_hashes := [⟨2, 987654321, 3⟩] }

/-- A rewound temporary stream that still holds 200 bytes of chunk data. -/
def sampleTemp : FILE := { data := List.replicate 200 9, pos := 0, room := 4096 }

/-- A session whose committed-file stream holds what `DoUpdate.writeFile` wrote
for the sample sets and vectors over `sampleTemp`. -/
def sampleReader : World :=
  { store := { SafeBrowsingStoreFile.Init true with
      file_ := some { data := (DoUpdate.writeFile [-5, 7] [3] sampleVectors sampleTemp).2.data,
                      pos := 40, room := 0 } },
    disk := { committed := none, temporary := none },
    callback_runs := 0 }

/-- A committed file: add chunks 1 and 2, sub chunk 3, two add prefixes, one
sub prefix, one add full hash. -/
def sampleCommitted : List Byte :=
  committedBytes [1, 2] [3]
    { add_prefixes := [⟨1, 0xAAAA⟩, ⟨2, 0xBBBB⟩], sub_prefixes := [⟨3, 0xCCCC, 9⟩],
      add_full_hashes := [⟨1, 5, 0⟩], sub_full_hashes := [] }

/-- A closed store with a corruption callback, over `sampleCommitted`. -/
def sampleClosed : World :=
  { store := SafeBrowsingStoreFile.Init true,
    disk := { committed := some sampleCommitted, temporary := none },
    callback_runs := 0 }

/-- The session `BeginUpdate` opens on `sampleClosed`. -/
def sampleOpen : World := (BeginUpdate sampleEnv sampleClosed).2

/-- The open session after the caller has asked for the deletion of add chunk
1 and sub chunk 3, has recorded add chunk 4 and sub chunk 5, and has finished
one chunk: two add prefixes, and a sub prefix that targets the add prefix
`0xBBBB` of chunk 2. -/
def sampleSession : World :=
  (FinishChunk { sampleOpen with store := { sampleOpen.store with
      add_del_cache_ := [1], sub_del_cache_ := [3],
      add_chunks_cache_ := [1, 2, 4], sub_chunks_cache_ := [3, 5],
      add_prefixes_ := [⟨1, 7⟩, ⟨4, 8⟩], sub_prefixes_ := [⟨5, 0xBBBB, 2⟩] } }).2

/-- The records of `sampleCommitted`. -/
def sampleItems : Vectors :=
  { add_prefixes := [⟨1, 0xAAAA⟩, ⟨2, 0xBBBB⟩], sub_prefixes := [⟨3, 0xCCCC, 9⟩],
    add_full_hashes := [⟨1, 5, 0⟩], sub_full_hashes := [] }

/-- The records of the chunk finished in `sampleSession`. -/
def sampleChunk : Vectors :=
  { add_prefixes := [⟨1, 7⟩, ⟨4, 8⟩], sub_prefixes := [⟨5, 0xBBBB, 2⟩],
    add_full_hashes := [], sub_full_hashes := [] }

/-- Pending adds for `sampleSession`: one of the deleted chunk 1, one of chunk 4. -/
def samplePending : List SBAddFullHash := [⟨1, 77, 0⟩, ⟨4, 78, 0⟩]

/-- A closed store with a corruption callback and no committed file. -/
def sampleFresh : World :=
  { store := SafeBrowsingStoreFile.Init true,
    disk := { committed := none, temporary := none },
    callback_runs := 0 }

/-- A session on an empty store in which one chunk has been finished: the add
prefix `0xAAAA` of chunk 1 twice, and one sub prefix of chunk 2 that targets
it. -/
def sampleDuplicate : World :=
  (FinishChunk { (BeginUpdate sampleEnv sampleFresh).2 with store :=
    { (BeginUpdate sampleEnv sampleFresh).2.store with
      add_prefixes_ := [⟨1, 0xAAAA⟩, ⟨1, 0xAAAA⟩], sub_prefixes_ := [⟨2, 0xAAAA, 1⟩] } }).2

/-- An environment in which only the final move of the new file fails. -/
def sampleEnvMoveFails : Faults := { sampleEnv with move := false }

/-- The bytes of `sampleCommitted` with the first byte of the magic changed. -/
def sampleFlippedBytes : List Byte := 0xFF :: sampleCommitted.drop 1

/-- A closed store over a committed file whose magic has one byte changed. -/
def sampleFlipped : World :=
  { sampleClosed with disk := { committed := some sampleFlippedBytes, temporary := none } }

/-- A committed file that is only a header: valid magic and version, no chunk
ids, and an add-prefix count of 5 although no record follows. -/
def sampleOverclaimBytes : List Byte :=
  encodeItems [({ magic := kFileMagic, version := kFileVersion, add_chunk_count := 0,
                  sub_chunk_count := 0, add_prefix_count := 5, sub_prefix_count := 0,
                  add_hash_count := 0, sub_hash_count := 0 } : FileHeader)]

/-- A closed store over `sampleOverclaimBytes`. -/
def sampleOverclaim : World :=
  { sampleClosed with disk := { committed := some sampleOverclaimBytes, temporary := none } }

/-- A committed file that is only a header: valid magic and version, and an
add-chunk count of 3 although no chunk id follows. -/
def sampleShortChunksBytes : List Byte :=
  encodeItems [({ magic := kFileMagic, version := kFileVersion, add_chunk_count := 3,
                  sub_chunk_count := 0, add_prefix_count := 0, sub_prefix_count := 0,
                  add_hash_count := 0, sub_hash_count := 0 } : FileHeader)]

/-- A closed store over `sampleShortChunksBytes`. -/
def sampleShortChunks : World :=
  { sampleClosed with disk := { committed := some sampleShortChunksBytes, temporary := none } }

/-- The session `sampleSession` after its temporary file has lost all its
bytes: `chunks_written_` still counts one chunk record. -/
def sampleTruncated : World :=
  { sampleSession with store := { sampleSession.store with
      new_file_ := some { data := [], pos := 0, room := 4096 } } }

/-- The session `sampleSession` over a committed file whose magic has one byte
changed since `BeginUpdate`. -/
def sampleCorrupted : World :=
  { sampleSession with store := { sampleSession.store with
      file_ := some { data := sampleFlippedBytes, pos := 44, room := 0 } } }

/-- An environment in which the committed file cannot be opened. -/
def sampleEnvNoOpen : Faults := { sampleEnv with open_old := false }

/-- The session `BeginUpdate` opened on `sampleClosed`, with 4096 add full
hashes pending, 163840 bytes, far more than a stdio buffer holds, on a full
device: the temporary stream takes 4096 bytes, what fits its buffer, and the
write that has to push the buffer out comes back short. -/
def sampleFullDevice : World :=
  { sampleOpen with store := { sampleOpen.store with
      add_hashes_ := List.replicate 4096 ⟨4, 8, 0⟩,
      new_file_ := some { data := [], pos := 0, room := 4096 } } }

/-- Four chunks fed to `FinishChunk` in turn; the second holds no record. -/
def sampleCalls : List Vectors :=
  [sampleChunk, Vectors.nil, sampleVectors,
   { add_prefixes := [], sub_prefixes := [], add_full_hashes := [⟨9, 42, 0⟩],
     sub_full_hashes := [] }]

/-- A committed file cut in the chunk-id arrays: the header announces one add
chunk id and one sub chunk id, the add chunk id 7 follows, and the file ends
there. -/
def sampleCutBytes : List Byte :=
  encodeItems [({ magic := kFileMagic, version := kFileVersion, add_chunk_count := 1,
                  sub_chunk_count := 1, add_prefix_count := 0, sub_prefix_count := 0,
                  add_hash_count := 0, sub_hash_count := 0 } : FileHeader)]
    ++ encodeItems (T := Int) [7]

/-- A closed store over `sampleCutBytes`. -/
def sampleCut : World :=
  { sampleClosed with disk := { committed := some sampleCutBytes, temporary := none } }

/-- The records of a committed file in which the sub prefix of chunk 2 targets
the add prefix `0xAAAA` of chunk 1. -/
def sampleCancellableItems : Vectors :=
  { add_prefixes := [⟨1, 0xAAAA⟩], sub_prefixes := [⟨2, 0xAAAA, 1⟩],
    add_full_hashes := [], sub_full_hashes := [] }

/-- A closed store over the committed file that holds `sampleCancellableItems`
with the known-chunk-id sets `[1]` and `[2]`. -/
def sampleCancellable : World :=
  { sampleClosed with
    disk := { committed := some (committedBytes [1] [2] sampleCancellableItems),
              temporary := none } }

/-- The outcome of `FinishUpdate` on `sampleSession` when nothing fails, called
with result vectors that already hold one record each. -/
def sampleFinished : Bool × List SBAddPrefix × List SBAddFullHash × World :=
  FinishUpdate SBProcessSubs sampleEnv samplePending [⟨9, 99⟩] [⟨9, 999, 0⟩] sampleSession

/-- The bytes of `sampleCommitted` with the four bytes of the magic in the
opposite order. -/
def sampleSwappedBytes : List Byte := (putInt32 kFileMagic).reverse ++ sampleCommitted.drop 4

/-- A closed store over `sampleSwappedBytes`. -/
def sampleSwapped : World :=
  { sampleClosed with disk := { committed := some sampleSwappedBytes, temporary := none } }

/-- The session `sampleSession` over a committed file whose magic has its
bytes in the opposite order. -/
def sampleSwappedSession : World :=
  { sampleSession with store := { sampleSession.store with
      file_ := some { data := sampleSwappedBytes, pos := 44, room := 0 } } }

/-- A chunk of sub records that target add chunk 1: one sub prefix and one sub
full hash, both of sub chunk 5. -/
def sampleSubChunk : Vectors :=
  { add_prefixes := [], sub_prefixes := [⟨5, 0xAAAA, 1⟩],
    add_full_hashes := [], sub_full_hashes := [⟨5, 5, 1⟩] }

/-- The session opened on `sampleClosed` after the caller has asked for the
deletion of add chunk 1 (and of no sub chunk) and has finished the chunk
`sampleSubChunk`, whose records target the deleted add chunk. -/
def sampleTargetDeleted : World :=
  (finishChunks [sampleSubChunk] (requestDeletions [1] [] sampleOpen)).2

/-- The records of `sampleCalls` handed to `FinishChunk` as one chunk. -/
def sampleOneCall : List Vectors := [Vectors.concat sampleCalls]

/-- The session opened on `sampleClosed` after the four chunks of
`sampleCalls`. -/
def sampleSplit : World := (finishChunks sampleCalls sampleOpen).2

/-- The session opened on `sampleClosed` after the single chunk of
`sampleOneCall`. -/
def sampleJoined : World := (finishChunks sampleOneCall sampleOpen).2

/-- A session on an empty store in which the caller has recorded add chunk 1
and finished one chunk that holds the add prefix 7 of that chunk. Its new
committed file is 44 bytes: the header, the add chunk id and the add prefix. -/
def sampleOneRecord : World :=
  (FinishChunk { (BeginUpdate sampleEnv sampleFresh).2 with store :=
    { (BeginUpdate sampleEnv sampleFresh).2.store with
      add_chunks_cache_ := [1], add_prefixes_ := [⟨1, 7⟩] } }).2

/-- An environment in which nothing is reported to fail, and the flush at the
close of the temporary stream lands the first 40 bytes only. -/
def sampleEnvFlush40 : Faults := { sampleEnv with flush_new := some 40 }

/-- An environment in which nothing is reported to fail, and the flush at the
close of the temporary stream lands the first 34 bytes only. -/
def sampleEnvFlush34 : Faults := { sampleEnv with flush_new := some 34 }

/-- The session a later `BeginUpdate` opens on what `FinishUpdate` left of
`sampleSession`: its committed-file stream is over the new committed file. -/
def sampleReread : World :=
  (BeginUpdate sampleEnv
    (FinishUpdate SBProcessSubs sampleEnv samplePending [] [] sampleSession).2.2.2).2

/-! ## The byte layout round trip -/

theorem leBytes_length (n v : Nat) : (leBytes n v).length = n := by
  induction n generalizing v with
  | zero => rfl
  | succ n ih => simp [leBytes, ih]

theorem leValue_leBytes (n v : Nat) : leValue (leBytes n v) = v % 256 ^ n := by
  induction n generalizing v with
  | zero => simp [leBytes, leValue, Nat.mod_one]
  | succ n ih =>
    simp only [leBytes, leValue, ih]
    rw [pow_succ, Nat.mul_comm (256 ^ n) 256, Nat.mod_mul]

theorem putInt32_length (x : Int) : (putInt32 x).length = 4 := leBytes_length 4 _

theorem getInt32_putInt32_append (x : Int) (rest : List Byte) (h : isInt32 x) :
    getInt32 (putInt32 x ++ rest) = x := by
  unfold getInt32
  have h4 : (putInt32 x ++ rest).take 4 = putInt32 x := by
    rw [List.take_append_of_le_length (by rw [putInt32_length])]
    exact List.take_of_length_le (by rw [putInt32_length])
  rw [h4]
  unfold putInt32
  rw [leValue_leBytes]
  unfold isInt32 at h
  simp only
  split <;> omega

theorem drop_putInt32_append (x : Int) (rest : List Byte) :
    (putInt32 x ++ rest).drop 4 = rest := by
  have := putInt32_length x
  rw [List.drop_append_of_le_length (by omega), List.drop_of_length_le (by omega)]
  rfl

theorem leValue_leBytes_append (n v : Nat) (rest : List Byte) (h : v < 256 ^ n) :
    leValue ((leBytes n v ++ rest).take n) = v := by
  have hl := leBytes_length n v
  rw [List.take_append_of_le_length (by omega), List.take_of_length_le (by omega),
    leValue_leBytes, Nat.mod_eq_of_lt h]

theorem drop_leBytes_append (n v : Nat) (rest : List Byte) :
    (leBytes n v ++ rest).drop n = rest := by
  have := leBytes_length n v
  rw [List.drop_append_of_le_length (by omega), List.drop_of_length_le (by omega)]
  rfl

instance : LawfulPod Int where
  size_pos := by decide
  put_length := putInt32_length
  get_put x h := by
    have := getInt32_putInt32_append x [] h
    simpa using this

instance : LawfulPod SBAddPrefix where
  size_pos := by decide
  put_length r := by simp [Pod.put, Pod.size, putInt32_length]
  get_put r h := by
    obtain ⟨h1, h2⟩ := h
    cases r
    simp only [Pod.get, Pod.put] at *
    rw [getInt32_putInt32_append _ _ h1, drop_putInt32_append]
    have := getInt32_putInt32_append _ [] h2
    simp only [List.append_nil] at this
    rw [this]

instance : LawfulPod SBSubPrefix where
  size_pos := by decide
  put_length r := by simp [Pod.put, Pod.size, putInt32_length]
  get_put r h := by
    obtain ⟨h1, h2, h3⟩ := h
    cases r
    simp only [Pod.get, Pod.put, List.append_assoc] at *
    have e8 : ∀ l : List Byte, l.drop 8 = (l.drop 4).drop 4 := fun l => by simp [List.drop_drop]
    rw [e8, getInt32_putInt32_append _ _ h1, drop_putInt32_append,
      getInt32_putInt32_append _ _ h2, drop_putInt32_append]
    have := getInt32_putInt32_append _ [] h3
    simp only [List.append_nil] at this
    rw [this]

instance : LawfulPod SBAddFullHash where
  size_pos := by decide
  put_length r := by simp [Pod.put, Pod.size, putInt32_length, leBytes_length]
  get_put r h := by
    obtain ⟨h1, h2, h3⟩ := h
    cases r
    simp only [Pod.get, Pod.put, List.append_assoc] at *
    have e36 : ∀ l : List Byte, l.drop 36 = ((l.drop 4).drop 32) := fun l => by simp [List.drop_drop]
    rw [e36, getInt32_putInt32_append _ _ h1, drop_putInt32_append,
      leValue_leBytes_append _ _ _ (by simpa using h2), drop_leBytes_append]
    have := getInt32_putInt32_append _ [] h3
    simp only [List.append_nil] at this
    rw [this]

instance : LawfulPod SBSubFullHash where
  size_pos := by decide
  put_length r := by simp [Pod.put, Pod.size, putInt32_length, leBytes_length]
  get_put r h := by
    obtain ⟨h1, h2, h3⟩ := h
    cases r
    simp only [Pod.get, Pod.put, List.append_assoc] at *
    have e36 : ∀ l : List Byte, l.drop 36 = ((l.drop 4).drop 32) := fun l => by simp [List.drop_drop]
    rw [e36, getInt32_putInt32_append _ _ h1, drop_putInt32_append,
      leValue_leBytes_append _ _ _ (by simpa using h2), drop_leBytes_append]
    have := getInt32_putInt32_append _ [] h3
    simp only [List.append_nil] at this
    rw [this]

instance : LawfulPod ChunkHeader where
  size_pos := by decide
  put_length r := by simp [Pod.put, Pod.size, putInt32_length]
  get_put r h := by
    obtain ⟨h1, h2, h3, h4⟩ := h
    cases r
    simp only [Pod.get, Pod.put, List.append_assoc] at *
    have e8 : ∀ l : List Byte, l.drop 8 = (l.drop 4).drop 4 := fun l => by simp [List.drop_drop]
    have e12 : ∀ l : List Byte, l.drop 12 = ((l.drop 4).drop 4).drop 4 := fun l => by
      simp [List.drop_drop]
    rw [e12, e8, getInt32_putInt32_append _ _ h1, drop_putInt32_append,
      getInt32_putInt32_append _ _ h2, drop_putInt32_append,
      getInt32_putInt32_append _ _ h3, drop_putInt32_append]
    have := getInt32_putInt32_append _ [] h4
    simp only [List.append_nil] at this
    rw [this]

instance : LawfulPod FileHeader where
  size_pos := by decide
  put_length r := by simp [Pod.put, Pod.size, putInt32_length]
  get_put r h := by
    obtain ⟨h1, h2, h3, h4, h5, h6, h7, h8⟩ := h
    cases r
    simp only [Pod.get, Pod.put, List.append_assoc] at *
    have e8 : ∀ l : List Byte, l.drop 8 = (l.drop 4).drop 4 := fun l => by simp [List.drop_drop]
    have e12 : ∀ l : List Byte, l.drop 12 = (l.drop 8).drop 4 := fun l => by simp [List.drop_drop]
    have e16 : ∀ l : List Byte, l.drop 16 = (l.drop 12).drop 4 := fun l => by simp [List.drop_drop]
    have e20 : ∀ l : List Byte, l.drop 20 = (l.drop 16).drop 4 := fun l => by simp [List.drop_drop]
    have e24 : ∀ l : List Byte, l.drop 24 = (l.drop 20).drop 4 := fun l => by simp [List.drop_drop]
    have e28 : ∀ l : List Byte, l.drop 28 = (l.drop 24).drop 4 := fun l => by simp [List.drop_drop]
    rw [e28, e24, e20, e16, e12, e8, getInt32_putInt32_append _ _ h1, drop_putInt32_append,
      getInt32_putInt32_append _ _ h2, drop_putInt32_append,
      getInt32_putInt32_append _ _ h3, drop_putInt32_append,
      getInt32_putInt32_append _ _ h4, drop_putInt32_append,
      getInt32_putInt32_append _ _ h5, drop_putInt32_append,
      getInt32_putInt32_append _ _ h6, drop_putInt32_append,
      getInt32_putInt32_append _ _ h7, drop_putInt32_append]
    have := getInt32_putInt32_append _ [] h8
    simp only [List.append_nil] at this
    rw [this]

theorem encodeItems_length {T : Type} [Pod T] [LawfulPod T] (l : List T) :
    (encodeItems l).length = l.length * Pod.size T := by
  induction l with
  | nil => simp [encodeItems]
  | cons x xs ih =>
    simp only [encodeItems, List.length_append, ih, LawfulPod.put_length, List.length_cons]
    ring

theorem decodeItems_length {T : Type} [Pod T] (n : Nat) (bs : List Byte) :
    (decodeItems n bs : List T).length = n := by
  induction n generalizing bs with
  | zero => rfl
  | succ n ih => simp [decodeItems, ih]

theorem decodeItems_encodeItems {T : Type} [Pod T] [LawfulPod T] (l : List T) (rest : List Byte)
    (h : ∀ x ∈ l, Pod.wf x) : decodeItems l.length (encodeItems l ++ rest) = l := by
  induction l with
  | nil => rfl
  | cons x xs ih =>
    have hl := LawfulPod.put_length x
    simp only [encodeItems, List.length_cons, decodeItems, List.append_assoc]
    rw [List.take_append_of_le_length (by omega), List.take_of_length_le (by omega),
      List.drop_append_of_le_length (by omega), List.drop_of_length_le (by omega),
      LawfulPod.get_put x (h x (List.mem_cons_self _ _)), List.nil_append,
      ih (fun y hy => h y (List.mem_cons_of_mem _ hy))]

/-! ## Streams: what a write leaves and what a read returns -/

theorem FILE.write_split (fp : FILE) (pre rest bytes : List Byte)
    (hd : fp.data = pre ++ rest) (hp : fp.pos = pre.length) :
    fp.write bytes = { data := pre ++ bytes ++ rest.drop bytes.length,
                       pos := pre.length + bytes.length,
                       room := fp.room - bytes.length } := by
  simp only [FILE.write, hd, hp, FILE.mk.injEq, and_true]
  rw [List.take_left' rfl, List.drop_append]

theorem FILE.write_write (fp : FILE) (a b : List Byte) (h : fp.pos ≤ fp.data.length) :
    (fp.write a).write b = fp.write (a ++ b) := by
  have hd : fp.data = fp.data.take fp.pos ++ fp.data.drop fp.pos := (List.take_append_drop _ _).symm
  have hp : fp.pos = (fp.data.take fp.pos).length := by simp [h]
  rw [FILE.write_split fp _ _ a hd hp, FILE.write_split fp _ _ (a ++ b) hd hp]
  rw [FILE.write_split _ (fp.data.take fp.pos ++ a) ((fp.data.drop fp.pos).drop a.length) b
    (by simp) (by simp)]
  simp only [List.length_append, List.append_assoc, List.drop_drop, FILE.mk.injEq]
  refine ⟨?_, by omega, by omega⟩
  rw [Nat.add_assoc]

theorem FILE.write_pos_le (fp : FILE) (a : List Byte) (h : fp.pos ≤ fp.data.length) :
    (fp.write a).pos ≤ (fp.write a).data.length := by
  simp only [FILE.write, List.length_append, List.length_take, List.length_drop]
  omega

theorem FILE.write_nil (fp : FILE) (h : fp.pos ≤ fp.data.length) : fp.write [] = fp := by
  cases fp
  simp only [FILE.write, List.length_nil, Nat.add_zero, Nat.sub_zero, List.append_nil,
    List.take_append_drop]

theorem WriteArray_ok {T : Type} [Pod T] [LawfulPod T] (items : List T) (fp : FILE)
    (hr : items.length * Pod.size T ≤ fp.room) :
    WriteArray items fp = (true, fp.write (encodeItems items)) := by
  have hk : min items.length (fp.room / Pod.size T) = items.length := by
    apply Nat.min_eq_left
    exact (Nat.le_div_iff_mul_le LawfulPod.size_pos).2 hr
  simp [WriteArray, fwrite, hk]

theorem WriteVector_ok {T : Type} [Pod T] [LawfulPod T] (items : List T) (fp : FILE)
    (hp : fp.pos ≤ fp.data.length) (hr : items.length * Pod.size T ≤ fp.room) :
    WriteVector items fp = (true, fp.write (encodeItems items)) := by
  unfold WriteVector
  cases items with
  | nil => simp [encodeItems, FILE.write_nil fp hp]
  | cons x xs => simpa using WriteArray_ok (x :: xs) fp hr

theorem WriteChunkSet_ok (values : ChunkSet) (fp : FILE)
    (hp : fp.pos ≤ fp.data.length) (hr : values.length * 4 ≤ fp.room) :
    WriteChunkSet values fp = (true, fp.write (encodeItems (T := Int) values)) := by
  unfold WriteChunkSet
  cases values with
  | nil => simp [encodeItems, FILE.write_nil fp hp]
  | cons x xs => simpa using WriteVector_ok (T := Int) (x :: xs) fp hp hr

theorem ReadArray_ok {T : Type} [Pod T] [LawfulPod T] (items : List T) (post : List Byte)
    (fp : FILE) (hrest : fp.rest = encodeItems items ++ post) (hwf : ∀ x ∈ items, Pod.wf x) :
    ReadArray items.length fp
      = (true, items, { fp with pos := fp.pos + items.length * Pod.size T }) := by
  have hlen : fp.data.length - fp.pos = items.length * Pod.size T + post.length := by
    have := congrArg List.length hrest
    simpa [FILE.rest, encodeItems_length] using this
  have hav : items.length ≤ (fp.data.length - fp.pos) / Pod.size T := by
    rw [Nat.le_div_iff_mul_le LawfulPod.size_pos]; omega
  have hdec : (decodeItems items.length (fp.data.drop fp.pos) : List T) = items := by
    have := decodeItems_encodeItems items post hwf
    rwa [← hrest] at this
  simp [ReadArray, fread, hav, hdec]

theorem ReadToVector_ok {T : Type} [Pod T] [LawfulPod T] (values items : List T)
    (post : List Byte) (fp : FILE) (hrest : fp.rest = encodeItems items ++ post)
    (hwf : ∀ x ∈ items, Pod.wf x) :
    ReadToVector values items.length fp
      = (true, values ++ items, { fp with pos := fp.pos + items.length * Pod.size T }) := by
  unfold ReadToVector
  cases items with
  | nil => simp
  | cons x xs =>
    rw [ReadArray_ok (x :: xs) post fp hrest hwf]
    simp

theorem FILE.rest_advance {T : Type} [Pod T] [LawfulPod T] (items : List T) (post : List Byte)
    (fp : FILE) (hrest : fp.rest = encodeItems items ++ post) :
    FILE.rest { fp with pos := fp.pos + items.length * Pod.size T } = post := by
  have h : (encodeItems items).length = items.length * Pod.size T := encodeItems_length items
  simp only [FILE.rest] at *
  rw [← List.drop_drop, hrest, ← h, List.drop_left]

/-! ## RemoveDeleted is a stable filter of the suffix -/

theorem RemoveDeleted.scan_spec {T : Type} [HasChunkId T] (del_set : HashSet) (rest : List T) :
    ∀ (pre mid : List T),
      ((RemoveDeleted.scan del_set rest.length (pre ++ mid ++ rest) pre.length
          (pre.length + mid.length)).1.take
        (RemoveDeleted.scan del_set rest.length (pre ++ mid ++ rest) pre.length
          (pre.length + mid.length)).2)
        = pre ++ rest.filter (fun x => decide (del_set.count (HasChunkId.chunk_id x) = 0)) := by
  induction rest with
  | nil =>
    intro pre mid
    simp [RemoveDeleted.scan, List.take_left']
  | cons x rest ih =>
    intro pre mid
    have hget : (pre ++ mid ++ x :: rest).get? (pre.length + mid.length) = some x := by
      rw [List.get?_eq_getElem?, List.getElem?_append_right (by simp)]
      simp
    simp only [List.length_cons, RemoveDeleted.scan, hget]
    by_cases hk : del_set.count (HasChunkId.chunk_id x) = 0
    · simp only [hk, if_true, List.filter_cons, decide_True]
      cases mid with
      | nil =>
        have hset : (pre ++ [] ++ x :: rest).set pre.length x = (pre ++ [x]) ++ [] ++ rest := by
          simp [List.set_append_right]
        have := ih (pre ++ [x]) []
        simp only [List.length_append, List.length_cons, List.length_nil, Nat.add_zero,
          List.append_assoc] at this hset ⊢
        simp only [List.nil_append] at hset this ⊢
        rw [hset]
        simpa using this
      | cons m mid =>
        have hset : (pre ++ m :: mid ++ x :: rest).set pre.length x
            = (pre ++ [x]) ++ (mid ++ [x]) ++ rest := by
          simp [List.set_append_right]
        have := ih (pre ++ [x]) (mid ++ [x])
        rw [hset]
        simp only [List.length_append, List.length_cons, List.length_nil, Nat.add_zero,
          List.append_assoc] at this ⊢
        have e : pre.length + (mid.length + 1) + 1 = pre.length + 1 + (mid.length + 1) := by omega
        rw [e]
        simpa using this
    · simp only [hk, if_false, List.filter_cons, decide_False]
      have := ih pre (mid ++ [x])
      simp only [List.length_append, List.length_cons, List.length_nil, Nat.add_zero,
        List.append_assoc] at this ⊢
      have e : pre.length + mid.length + 1 = pre.length + (mid.length + 1) := by omega
      rw [e]
      simpa using this

theorem RemoveDeleted_eq {T : Type} [HasChunkId T] (vec : List T) (offset : Nat)
    (del_set : HashSet) (h : offset ≤ vec.length) :
    RemoveDeleted vec offset del_set
      = vec.take offset
        ++ (vec.drop offset).filter (fun x => decide (del_set.count (HasChunkId.chunk_id x) = 0)) := by
  have h1 := RemoveDeleted.scan_spec del_set (vec.drop offset) (vec.take offset) []
  simp only [List.append_nil, List.take_append_drop, List.length_take, List.length_nil,
    Nat.add_zero, List.length_drop, Nat.min_eq_left h] at h1
  exact h1

/-! ## Counts, filtered reads and chunk-id sets -/

theorem toInt32_isInt32 (n : Nat) : isInt32 (toInt32 n) := by
  unfold toInt32 isInt32
  simp only
  split <;> omega

theorem toSizeT_toInt32 (n : Nat) (h : n < 2147483648) : toSizeT (toInt32 n) = n := by
  unfold toSizeT toInt32
  simp only
  have : n % 4294967296 = n := Nat.mod_eq_of_lt (by omega)
  rw [this, if_pos h]
  omega

theorem ReadToVectorAndDelete_ok {T : Type} [Pod T] [LawfulPod T] [HasChunkId T]
    (values items : List T) (post : List Byte) (fp : FILE) (del_set : HashSet)
    (hrest : fp.rest = encodeItems items ++ post) (hwf : ∀ x ∈ items, Pod.wf x) :
    ReadToVectorAndDelete values items.length fp del_set
      = (true, values
          ++ items.filter (fun x => decide (del_set.count (HasChunkId.chunk_id x) = 0)),
         { fp with pos := fp.pos + items.length * Pod.size T }) := by
  unfold ReadToVectorAndDelete
  rw [ReadToVector_ok values items post fp hrest hwf]
  simp only
  rw [RemoveDeleted_eq _ _ _ (by simp), List.take_left' rfl, List.drop_left' rfl]

theorem ChunkSet.insert_last (x : Int) (l : ChunkSet) (h : ∀ y ∈ l, y < x) :
    ChunkSet.insert x l = l ++ [x] := by
  induction l with
  | nil => rfl
  | cons y ys ih =>
    have hy : y < x := h y (List.mem_cons_self _ _)
    have h1 : ¬ x < y := by omega
    have h2 : ¬ x = y := by omega
    simp only [ChunkSet.insert, h1, h2, if_false, List.cons_append]
    rw [ih (fun z hz => h z (List.mem_cons_of_mem _ hz))]

theorem ChunkSet.insertRange_sorted (l : List Int) :
    ∀ pre : ChunkSet, ChunkSet.ok (pre ++ l) → ChunkSet.insertRange pre l = pre ++ l := by
  induction l with
  | nil => intro pre _; simp [ChunkSet.insertRange]
  | cons x xs ih =>
    intro pre hok
    have hlt : ∀ y ∈ pre, y < x := by
      intro y hy
      unfold ChunkSet.ok at hok
      rw [List.pairwise_append] at hok
      exact hok.2.2 y hy x (List.mem_cons_self _ _)
    have hstep : ChunkSet.insertRange pre (x :: xs) = ChunkSet.insertRange (pre ++ [x]) xs := by
      simp only [ChunkSet.insertRange, List.foldl_cons]
      rw [ChunkSet.insert_last x pre hlt]
    rw [hstep, ih (pre ++ [x]) (by simpa using hok)]
    simp

/-! ## What DoUpdate writes -/

theorem FILE.write_room (fp : FILE) (a : List Byte) : (fp.write a).room = fp.room - a.length := rfl

theorem committedBytes_length (add_chunks sub_chunks : ChunkSet) (v : Vectors) :
    (committedBytes add_chunks sub_chunks v).length
      = 32 + 4 * add_chunks.length + 4 * sub_chunks.length + 8 * v.add_prefixes.length
        + 12 * v.sub_prefixes.length + 40 * v.add_full_hashes.length
        + 40 * v.sub_full_hashes.length := by
  simp only [committedBytes, List.length_append, encodeItems_length, Pod.size, List.length_cons,
    List.length_nil]
  omega

theorem DoUpdate.writeFile_ok (add_chunks sub_chunks : ChunkSet) (v : Vectors) (fp : FILE)
    (hp : fp.pos ≤ fp.data.length)
    (hroom : (committedBytes add_chunks sub_chunks v).length ≤ fp.room) :
    DoUpdate.writeFile add_chunks sub_chunks v fp
      = (true, fp.write (committedBytes add_chunks sub_chunks v)) := by
  rw [committedBytes_length] at hroom
  unfold DoUpdate.writeFile
  simp only
  rw [WriteArray_ok [committedHeader add_chunks sub_chunks v] fp (by simp [Pod.size]; omega)]
  simp only
  have p1 := FILE.write_pos_le fp (encodeItems [committedHeader add_chunks sub_chunks v]) hp
  rw [WriteChunkSet_ok add_chunks _ p1
    (by simp only [FILE.write_room, encodeItems_length, Pod.size, List.length_cons,
          List.length_nil]; omega)]
  simp only [FILE.write_write _ _ _ hp]
  have p2 := FILE.write_pos_le fp (encodeItems [committedHeader add_chunks sub_chunks v]
    ++ encodeItems (T := Int) add_chunks) hp
  rw [WriteChunkSet_ok sub_chunks _ p2
    (by simp only [FILE.write_room, encodeItems_length, Pod.size, List.length_cons,
          List.length_nil, List.length_append]; omega)]
  simp only [FILE.write_write _ _ _ hp]
  have p3 := FILE.write_pos_le fp ((encodeItems [committedHeader add_chunks sub_chunks v]
    ++ encodeItems (T := Int) add_chunks) ++ encodeItems (T := Int) sub_chunks) hp
  rw [WriteVector_ok v.add_prefixes _ p3
    (by simp only [FILE.write_room, encodeItems_length, Pod.size, List.length_cons,
          List.length_nil, List.length_append]; omega)]
  simp only [FILE.write_write _ _ _ hp]
  have p4 := FILE.write_pos_le fp (((encodeItems [committedHeader add_chunks sub_chunks v]
    ++ encodeItems (T := Int) add_chunks) ++ encodeItems (T := Int) sub_chunks)
    ++ encodeItems v.add_prefixes) hp
  rw [WriteVector_ok v.sub_prefixes _ p4
    (by simp only [FILE.write_room, encodeItems_length, Pod.size, List.length_cons,
          List.length_nil, List.length_append]; omega)]
  simp only [FILE.write_write _ _ _ hp]
  have p5 := FILE.write_pos_le fp ((((encodeItems [committedHeader add_chunks sub_chunks v]
    ++ encodeItems (T := Int) add_chunks) ++ encodeItems (T := Int) sub_chunks)
    ++ encodeItems v.add_prefixes) ++ encodeItems v.sub_prefixes) hp
  rw [WriteVector_ok v.add_full_hashes _ p5
    (by simp only [FILE.write_room, encodeItems_length, Pod.size, List.length_cons,
          List.length_nil, List.length_append]; omega)]
  simp only [FILE.write_write _ _ _ hp]
  have p6 := FILE.write_pos_le fp (((((encodeItems [committedHeader add_chunks sub_chunks v]
    ++ encodeItems (T := Int) add_chunks) ++ encodeItems (T := Int) sub_chunks)
    ++ encodeItems v.add_prefixes) ++ encodeItems v.sub_prefixes)
    ++ encodeItems v.add_full_hashes) hp
  rw [WriteVector_ok v.sub_full_hashes _ p6
    (by simp only [FILE.write_room, encodeItems_length, Pod.size, List.length_cons,
          List.length_nil, List.length_append]; omega)]
  simp only [FILE.write_write _ _ _ hp, committedBytes, List.append_assoc]

theorem ReadToChunkSet_read (values : ChunkSet) (items : List Int) (post : List Byte) (fp : FILE)
    (hrest : fp.rest = encodeItems (T := Int) items ++ post) (hwf : ∀ x ∈ items, isInt32 x) :
    ReadToChunkSet values items.length fp
      = (true, ChunkSet.insertRange values items, { fp with pos := fp.pos + items.length * 4 }) := by
  unfold ReadToChunkSet
  cases items with
  | nil => simp [ChunkSet.insertRange]
  | cons x xs =>
    have := ReadToVector_ok (T := Int) [] (x :: xs) post fp hrest hwf
    simp only [List.nil_append] at this
    rw [this]
    simp [Pod.size]

theorem readVectors_ok (v items : Vectors) (c1 c2 c3 c4 : Int) (post : List Byte) (fp : FILE)
    (add_del sub_del : HashSet)
    (hrest : fp.rest = encodeItems items.add_prefixes ++ (encodeItems items.sub_prefixes
      ++ (encodeItems items.add_full_hashes ++ (encodeItems items.sub_full_hashes ++ post))))
    (h1 : toSizeT c1 = items.add_prefixes.length) (h2 : toSizeT c2 = items.sub_prefixes.length)
    (h3 : toSizeT c3 = items.add_full_hashes.length)
    (h4 : toSizeT c4 = items.sub_full_hashes.length)
    (w1 : ∀ r ∈ items.add_prefixes, Pod.wf r) (w2 : ∀ r ∈ items.sub_prefixes, Pod.wf r)
    (w3 : ∀ r ∈ items.add_full_hashes, Pod.wf r) (w4 : ∀ r ∈ items.sub_full_hashes, Pod.wf r) :
    readVectors v c1 c2 c3 c4 fp add_del sub_del
      = (true,
         { add_prefixes := v.add_prefixes ++ keepLive add_del items.add_prefixes,
           sub_prefixes := v.sub_prefixes ++ keepLive sub_del items.sub_prefixes,
           add_full_hashes := v.add_full_hashes ++ keepLive add_del items.add_full_hashes,
           sub_full_hashes := v.sub_full_hashes ++ keepLive sub_del items.sub_full_hashes },
         { fp with pos := fp.pos + (8 * items.add_prefixes.length
             + 12 * items.sub_prefixes.length + 40 * items.add_full_hashes.length
             + 40 * items.sub_full_hashes.length) }) := by
  unfold readVectors
  rw [h1, h2, h3, h4]
  have r1 := FILE.rest_advance _ _ fp hrest
  rw [ReadToVectorAndDelete_ok _ _ _ fp add_del hrest w1]
  simp only
  have r2 := FILE.rest_advance _ _ _ r1
  rw [ReadToVectorAndDelete_ok _ _ _ _ sub_del r1 w2]
  simp only
  have r3 := FILE.rest_advance _ _ _ r2
  rw [ReadToVectorAndDelete_ok _ _ _ _ add_del r2 w3]
  simp only
  rw [ReadToVectorAndDelete_ok _ _ _ _ sub_del r3 w4]
  simp only [keepLive, Pod.size, Prod.mk.injEq, true_and, FILE.mk.injEq, and_true]
  omega

/-! ## What DoUpdate reads from a committed file -/

theorem committedHeader_wf (A S : ChunkSet) (v : Vectors) :
    Pod.wf (committedHeader A S v) := by
  refine ⟨?_, ?_, toInt32_isInt32 _, toInt32_isInt32 _, toInt32_isInt32 _, toInt32_isInt32 _,
    toInt32_isInt32 _, toInt32_isInt32 _⟩
  · simp only [committedHeader, kFileMagic]; decide
  · simp only [committedHeader, kFileVersion]; decide

theorem DoUpdate.readFile_ok (env : Faults) (w : World) (f : FILE) (A S : ChunkSet)
    (items : Vectors) (tail : List Byte)
    (hempty : w.store.empty_ = false) (hfile : w.store.file_ = some f)
    (hseek : env.seek_old = true)
    (hdata : f.data = committedBytes A S items ++ tail)
    (wA : ∀ x ∈ A, isInt32 x) (wS : ∀ x ∈ S, isInt32 x)
    (w1 : ∀ r ∈ items.add_prefixes, Pod.wf r) (w2 : ∀ r ∈ items.sub_prefixes, Pod.wf r)
    (w3 : ∀ r ∈ items.add_full_hashes, Pod.wf r) (w4 : ∀ r ∈ items.sub_full_hashes, Pod.wf r)
    (lA : A.length < 2147483648) (lS : S.length < 2147483648)
    (l1 : items.add_prefixes.length < 2147483648) (l2 : items.sub_prefixes.length < 2147483648)
    (l3 : items.add_full_hashes.length < 2147483648)
    (l4 : items.sub_full_hashes.length < 2147483648) :
    DoUpdate.readFile env w
      = (true,
         { add_prefixes := keepLive w.store.add_del_cache_ items.add_prefixes,
           sub_prefixes := keepLive w.store.sub_del_cache_ items.sub_prefixes,
           add_full_hashes := keepLive w.store.add_del_cache_ items.add_full_hashes,
           sub_full_hashes := keepLive w.store.sub_del_cache_ items.sub_full_hashes },
         { w with store := { w.store with
             add_chunks_cache_ := ChunkSet.insertRange w.store.add_chunks_cache_ A,
             sub_chunks_cache_ := ChunkSet.insertRange w.store.sub_chunks_cache_ S,
             file_ := none } }) := by
  unfold DoUpdate.readFile
  simp only [hempty, hfile, FileRewind, hseek, if_true, Bool.false_eq_true, if_false]
  have r0 : FILE.rest { f with pos := 0 }
      = encodeItems [committedHeader A S items] ++ (encodeItems (T := Int) A
        ++ (encodeItems (T := Int) S ++ (encodeItems items.add_prefixes
        ++ (encodeItems items.sub_prefixes ++ (encodeItems items.add_full_hashes
        ++ (encodeItems items.sub_full_hashes ++ tail)))))) := by
    simp [FILE.rest, hdata, committedBytes]
  have hh : ReadArray (T := FileHeader) 1 { f with pos := 0 }
      = (true, [committedHeader A S items], { f with pos := 0 + 1 * 32 }) :=
    ReadArray_ok [committedHeader A S items] _ _ r0
      (by intro x hx; simp only [List.mem_singleton] at hx; subst hx; exact committedHeader_wf A S items)
  have r1 := FILE.rest_advance _ _ _ r0
  simp only [hh, List.headD_cons]
  have hm : ¬ ((committedHeader A S items).magic ≠ kFileMagic
      ∨ (committedHeader A S items).version ≠ kFileVersion) := by
    simp [committedHeader]
  simp only [hm, if_false]
  have cA : toSizeT (committedHeader A S items).add_chunk_count = A.length :=
    toSizeT_toInt32 _ lA
  have cS : toSizeT (committedHeader A S items).sub_chunk_count = S.length :=
    toSizeT_toInt32 _ lS
  simp only [List.length_cons, List.length_nil, Pod.size] at r1
  rw [cA, ReadToChunkSet_read _ A _ _ r1 wA]
  have r2 := FILE.rest_advance (T := Int) _ _ _ r1
  simp only [Pod.size] at r2
  simp only
  rw [cS, ReadToChunkSet_read _ S _ _ r2 wS]
  have r3 := FILE.rest_advance (T := Int) _ _ _ r2
  simp only [Pod.size] at r3
  simp only
  rw [readVectors_ok _ items (committedHeader A S items).add_prefix_count
    (committedHeader A S items).sub_prefix_count (committedHeader A S items).add_hash_count
    (committedHeader A S items).sub_hash_count tail _ _ _ r3 (toSizeT_toInt32 _ l1)
    (toSizeT_toInt32 _ l2) (toSizeT_toInt32 _ l3) (toSizeT_toInt32 _ l4) w1 w2 w3 w4]
  simp

/-! ## The committed file: round trip -/

/-- C1. Round trip of the committed file. For chunk-id sets `A`, `S` and
record vectors `v` (all fields fitting their machine types, each of the six
arrays shorter than `2^31`, any of them possibly empty), `DoUpdate.writeFile`
on the rewound temporary stream `fp`, whatever bytes `fp` already holds (the
leftover chunk data), succeeds when the device has room; and the committed-file
read path `DoUpdate.readFile`, run with empty deletion sets and empty caches on
a stream `f` over the bytes just written, succeeds and returns exactly `v`, in
order, and leaves the two known-chunk-id sets equal to `A` and `S`. -/
theorem committed_file_round_trip (A S : ChunkSet) (v : Vectors) (fp f : FILE) (env : Faults)
    (w : World)
    (okA : ChunkSet.ok A) (okS : ChunkSet.ok S)
    (wA : ∀ x ∈ A, isInt32 x) (wS : ∀ x ∈ S, isInt32 x)
    (w1 : ∀ r ∈ v.add_prefixes, Pod.wf r) (w2 : ∀ r ∈ v.sub_prefixes, Pod.wf r)
    (w3 : ∀ r ∈ v.add_full_hashes, Pod.wf r) (w4 : ∀ r ∈ v.sub_full_hashes, Pod.wf r)
    (lA : A.length < 2147483648) (lS : S.length < 2147483648)
    (l1 : v.add_prefixes.length < 2147483648) (l2 : v.sub_prefixes.length < 2147483648)
    (l3 : v.add_full_hashes.length < 2147483648) (l4 : v.sub_full_hashes.length < 2147483648)
    (hpos : fp.pos = 0)
    (hroom : 32 + 4 * A.length + 4 * S.length + 8 * v.add_prefixes.length
      + 12 * v.sub_prefixes.length + 40 * v.add_full_hashes.length
      + 40 * v.sub_full_hashes.length ≤ fp.room)
    (hempty : w.store.empty_ = false) (hfile : w.store.file_ = some f)
    (hdata : f.data = (DoUpdate.writeFile A S v fp).2.data)
    (hseek : env.seek_old = true)
    (hcA : w.store.add_chunks_cache_ = []) (hcS : w.store.sub_chunks_cache_ = [])
    (hdA : w.store.add_del_cache_ = []) (hdS : w.store.sub_del_cache_ = []) :
    (DoUpdate.writeFile A S v fp).1 = true
      ∧ (DoUpdate.readFile env w).1 = true
      ∧ (DoUpdate.readFile env w).2.1 = v
      ∧ (DoUpdate.readFile env w).2.2.store.add_chunks_cache_ = A
      ∧ (DoUpdate.readFile env w).2.2.store.sub_chunks_cache_ = S := by
  have hw := DoUpdate.writeFile_ok A S v fp (by omega) (by rw [committedBytes_length]; exact hroom)
  rw [hw] at hdata ⊢
  have hd : f.data = committedBytes A S v ++ fp.data.drop (committedBytes A S v).length := by
    rw [hdata]
    simp [FILE.write, hpos]
  rw [DoUpdate.readFile_ok env w f A S v _ hempty hfile hseek hd wA wS w1 w2 w3 w4 lA lS l1 l2 l3 l4]
  have eA := ChunkSet.insertRange_sorted A [] (by simpa using okA)
  have eS := ChunkSet.insertRange_sorted S [] (by simpa using okS)
  simp only [List.nil_append] at eA eS
  cases v
  simp [hcA, hcS, hdA, hdS, keepLive, HashSet.count, eA, eS]

/-- The round trip of C1 on sample sets and vectors, written over a temporary
file that still holds 200 bytes of chunk data. -/
theorem committed_file_round_trip_witness :
    (DoUpdate.writeFile [-5, 7] [3] sampleVectors sampleTemp).1 = true
      ∧ (DoUpdate.readFile sampleEnv sampleReader).1 = true
      ∧ (DoUpdate.readFile sampleEnv sampleReader).2.1 = sampleVectors
      ∧ (DoUpdate.readFile sampleEnv sampleReader).2.2.store.add_chunks_cache_ = [-5, 7]
      ∧ (DoUpdate.readFile sampleEnv sampleReader).2.2.store.sub_chunks_cache_ = [3] :=
  committed_file_round_trip [-5, 7] [3] sampleVectors sampleTemp
    { data := (DoUpdate.writeFile [-5, 7] [3] sampleVectors sampleTemp).2.data, pos := 40, room := 0 }
    sampleEnv sampleReader
    (by decide) (by decide) (by decide) (by decide)
    (by decide) (by decide) (by decide) (by decide)
    (by decide) (by decide) (by decide) (by decide) (by decide) (by decide)
    rfl (by decide) rfl rfl rfl rfl rfl rfl rfl rfl

/-! ## What a successful write has written -/

theorem WriteArray_true {T : Type} [Pod T] (items : List T) (fp fp1 : FILE)
    (h : WriteArray items fp = (true, fp1)) : fp1 = fp.write (encodeItems items) := by
  unfold WriteArray fwrite at h
  simp only at h
  split at h
  · simp at h
  · rename_i hk
    simp only [ne_eq, Decidable.not_not] at hk
    simp only [Prod.mk.injEq, true_and] at h
    rw [← h, hk, List.take_length]

theorem WriteVector_true {T : Type} [Pod T] (items : List T) (fp fp1 : FILE)
    (hp : fp.pos ≤ fp.data.length)
    (h : WriteVector items fp = (true, fp1)) : fp1 = fp.write (encodeItems items) := by
  unfold WriteVector at h
  cases items with
  | nil =>
    simp only [List.isEmpty_nil, if_true, Prod.mk.injEq, true_and] at h
    rw [← h]; simp [encodeItems, FILE.write_nil fp hp]
  | cons x xs =>
    simp only [List.isEmpty_cons, Bool.false_eq_true, if_false] at h
    exact WriteArray_true _ _ _ h

theorem WriteChunkSet_true (values : ChunkSet) (fp fp1 : FILE) (hp : fp.pos ≤ fp.data.length)
    (h : WriteChunkSet values fp = (true, fp1)) :
    fp1 = fp.write (encodeItems (T := Int) values) := by
  unfold WriteChunkSet at h
  cases values with
  | nil =>
    simp only [List.isEmpty_nil, if_true, Prod.mk.injEq, true_and] at h
    rw [← h]; simp [encodeItems, FILE.write_nil fp hp]
  | cons x xs =>
    simp only [List.isEmpty_cons, Bool.false_eq_true, if_false] at h
    exact WriteVector_true (T := Int) _ _ _ hp h

theorem DoUpdate.writeFile_true (A S : ChunkSet) (v : Vectors) (fp fp1 : FILE)
    (hp : fp.pos ≤ fp.data.length) (h : DoUpdate.writeFile A S v fp = (true, fp1)) :
    fp1 = fp.write (committedBytes A S v) := by
  unfold DoUpdate.writeFile at h
  simp only at h
  split at h
  · simp at h
  · rename_i f1 h1
    have e1 := WriteArray_true _ _ _ h1
    have p1 : f1.pos ≤ f1.data.length := e1 ▸ FILE.write_pos_le fp _ hp
    split at h
    · simp at h
    · rename_i f2 h2
      have e2 := WriteChunkSet_true _ _ _ p1 h2
      have p2 : f2.pos ≤ f2.data.length := e2 ▸ FILE.write_pos_le f1 _ p1
      split at h
      · simp at h
      · rename_i f3 h3
        have e3 := WriteChunkSet_true _ _ _ p2 h3
        have p3 : f3.pos ≤ f3.data.length := e3 ▸ FILE.write_pos_le f2 _ p2
        split at h
        · simp at h
        · rename_i f4 h4
          have e4 := WriteVector_true _ _ _ p3 h4
          have p4 : f4.pos ≤ f4.data.length := e4 ▸ FILE.write_pos_le f3 _ p3
          split at h
          · simp at h
          · rename_i f5 h5
            have e5 := WriteVector_true _ _ _ p4 h5
            have p5 : f5.pos ≤ f5.data.length := e5 ▸ FILE.write_pos_le f4 _ p4
            split at h
            · simp at h
            · rename_i f6 h6
              have e6 := WriteVector_true _ _ _ p5 h6
              have p6 : f6.pos ≤ f6.data.length := e6 ▸ FILE.write_pos_le f5 _ p5
              have e7 := WriteVector_true _ _ _ p6 h
              rw [e7, e6, e5, e4, e3, e2, e1]
              simp only [FILE.write_write _ _ _ hp, committedBytes, List.append_assoc]

/-! ## What a successful read has read -/

theorem ReadToVector_true {T : Type} [Pod T] (values : List T) (count : Nat) (fp : FILE)
    (r : List T) (fp1 : FILE) (h : ReadToVector values count fp = (true, r, fp1)) :
    ∃ items : List T, r = values ++ items := by
  unfold ReadToVector at h
  split at h
  · simp only [Prod.mk.injEq, true_and] at h
    exact ⟨[], by simp [h.1]⟩
  · split at h
    · simp at h
    · rename_i items f1 _
      simp only [Prod.mk.injEq, true_and] at h
      exact ⟨items, h.1.symm⟩

theorem ReadToVectorAndDelete_true {T : Type} [Pod T] [HasChunkId T] (values : List T)
    (count : Nat) (fp : FILE) (del_set : HashSet) (r : List T) (fp1 : FILE)
    (h : ReadToVectorAndDelete values count fp del_set = (true, r, fp1)) :
    ∃ items : List T, r = values ++ keepLive del_set items := by
  unfold ReadToVectorAndDelete at h
  simp only at h
  split at h
  · simp at h
  · rename_i values1 f1 h1
    obtain ⟨items, hi⟩ := ReadToVector_true _ _ _ _ _ h1
    simp only [Prod.mk.injEq, true_and] at h
    refine ⟨items, ?_⟩
    rw [← h.1, hi, RemoveDeleted_eq _ _ _ (by simp), List.take_left' rfl, List.drop_left' rfl]
    rfl

theorem readVectors_true (v : Vectors) (c1 c2 c3 c4 : Int) (fp : FILE) (add_del sub_del : HashSet)
    (v1 : Vectors) (fp1 : FILE)
    (h : readVectors v c1 c2 c3 c4 fp add_del sub_del = (true, v1, fp1)) :
    ∃ items : Vectors,
      v1 = { add_prefixes := v.add_prefixes ++ keepLive add_del items.add_prefixes,
             sub_prefixes := v.sub_prefixes ++ keepLive sub_del items.sub_prefixes,
             add_full_hashes := v.add_full_hashes ++ keepLive add_del items.add_full_hashes,
             sub_full_hashes := v.sub_full_hashes ++ keepLive sub_del items.sub_full_hashes } := by
  unfold readVectors at h
  split at h
  · simp at h
  · rename_i l1 f1 h1
    obtain ⟨i1, e1⟩ := ReadToVectorAndDelete_true _ _ _ _ _ _ h1
    simp only at h
    split at h
    · simp at h
    · rename_i l2 f2 h2
      obtain ⟨i2, e2⟩ := ReadToVectorAndDelete_true _ _ _ _ _ _ h2
      split at h
      · simp at h
      · rename_i l3 f3 h3
        obtain ⟨i3, e3⟩ := ReadToVectorAndDelete_true _ _ _ _ _ _ h3
        split at h
        · simp at h
        · rename_i l4 f4 h4
          obtain ⟨i4, e4⟩ := ReadToVectorAndDelete_true _ _ _ _ _ _ h4
          simp only [Prod.mk.injEq, true_and] at h
          refine ⟨⟨i1, i2, i3, i4⟩, ?_⟩
          rw [← h.1, e1, e2, e3, e4]

/-! ## Deleted records never enter the working vectors -/

theorem keepLive_live {T : Type} [HasChunkId T] (D : HashSet) (l : List T) :
    ∀ r ∈ keepLive D l, HasChunkId.chunk_id r ∉ D := by
  intro r hr
  simp only [keepLive, List.mem_filter, decide_eq_true_eq, HashSet.count] at hr
  intro hmem
  simp [hmem] at hr

theorem Vectors.Live_nil (D E : HashSet) :
    Vectors.Live D E { add_prefixes := [], sub_prefixes := [], add_full_hashes := [],
                       sub_full_hashes := [] } := by
  simp [Vectors.Live]

theorem Vectors.Live_append (D E : HashSet) (v items : Vectors) (h : Vectors.Live D E v) :
    Vectors.Live D E
      { add_prefixes := v.add_prefixes ++ keepLive D items.add_prefixes,
        sub_prefixes := v.sub_prefixes ++ keepLive E items.sub_prefixes,
        add_full_hashes := v.add_full_hashes ++ keepLive D items.add_full_hashes,
        sub_full_hashes := v.sub_full_hashes ++ keepLive E items.sub_full_hashes } := by
  obtain ⟨h1, h2, h3, h4⟩ := h
  refine ⟨?_, ?_, ?_, ?_⟩ <;> intro r hr <;> simp only [List.mem_append] at hr
  · exact hr.elim (h1 r) (keepLive_live D _ r)
  · exact hr.elim (h2 r) (keepLive_live E _ r)
  · exact hr.elim (h3 r) (keepLive_live D _ r)
  · exact hr.elim (h4 r) (keepLive_live E _ r)

theorem DoUpdate.appendPending_eq (D : HashSet) (pending l : List SBAddFullHash) :
    DoUpdate.appendPending D l pending = l ++ keepLive D pending := by
  unfold DoUpdate.appendPending
  induction pending generalizing l with
  | nil => simp [keepLive]
  | cons x xs ih =>
    simp only [List.foldl_cons]
    rw [ih]
    by_cases hx : HashSet.count D x.chunk_id = 0
    · simp [keepLive, List.filter_cons, hx, HasChunkId.chunk_id]
    · simp [keepLive, List.filter_cons, hx, HasChunkId.chunk_id]

theorem DoUpdate.readChunks_live (D E : HashSet) (n : Nat) :
    ∀ (v : Vectors) (fp : FILE) (v1 : Vectors) (fp1 : FILE),
      Vectors.Live D E v → DoUpdate.readChunks D E n v fp = (true, v1, fp1) →
      Vectors.Live D E v1 := by
  induction n with
  | zero =>
    intro v fp v1 fp1 hl h
    simp only [DoUpdate.readChunks, Prod.mk.injEq, true_and] at h
    rw [← h.1]; exact hl
  | succ n ih =>
    intro v fp v1 fp1 hl h
    simp only [DoUpdate.readChunks] at h
    split at h
    · simp at h
    · split at h
      · simp at h
      · rename_i v2 f2 h2
        obtain ⟨items, e⟩ := readVectors_true _ _ _ _ _ _ _ _ _ _ h2
        exact ih v2 f2 v1 fp1 (e ▸ Vectors.Live_append D E v items hl) h

theorem DoUpdate.readFile_true (env : Faults) (w : World) (v : Vectors) (w1 : World)
    (h : DoUpdate.readFile env w = (true, v, w1)) :
    Vectors.Live w.store.add_del_cache_ w.store.sub_del_cache_ v
      ∧ w1.store.add_del_cache_ = w.store.add_del_cache_
      ∧ w1.store.sub_del_cache_ = w.store.sub_del_cache_
      ∧ w1.store.new_file_ = w.store.new_file_
      ∧ w1.store.chunks_written_ = w.store.chunks_written_
      ∧ w1.disk = w.disk ∧ w1.callback_runs = w.callback_runs := by
  unfold DoUpdate.readFile at h
  simp only at h
  split at h
  · simp only [Prod.mk.injEq, true_and] at h
    obtain ⟨hv, hw⟩ := h
    subst hv hw
    exact ⟨Vectors.Live_nil _ _, rfl, rfl, rfl, rfl, rfl, rfl⟩
  · split at h
    · split at h
      · simp at h
      · split at h
        · simp at h
        · split at h
          · simp at h
          · split at h
            · simp at h
            · split at h
              · simp at h
              · rename_i hv
                obtain ⟨items, e⟩ := readVectors_true _ _ _ _ _ _ _ _ _ _ hv
                simp only [Prod.mk.injEq, true_and] at h
                obtain ⟨hv1, hw⟩ := h
                subst hv1 hw
                refine ⟨?_, rfl, rfl, rfl, rfl, rfl, rfl⟩
                rw [e]
                exact Vectors.Live_append _ _ _ items (Vectors.Live_nil _ _)
    · simp at h

theorem DoUpdate.merge_true (env : Faults) (pending : List SBAddFullHash) (w : World)
    (v : Vectors) (wm : World) (h : DoUpdate.merge env pending w = (true, v, wm)) :
    Vectors.Live w.store.add_del_cache_ w.store.sub_del_cache_ v
      ∧ wm.store.add_del_cache_ = w.store.add_del_cache_
      ∧ wm.store.sub_del_cache_ = w.store.sub_del_cache_
      ∧ wm.disk = w.disk ∧ wm.callback_runs = w.callback_runs
      ∧ ∃ nf, wm.store.new_file_ = some nf := by
  unfold DoUpdate.merge at h
  split at h
  · simp at h
  · rename_i v1 w1 h1
    obtain ⟨hl, hd, he, hn, hc, hdisk, hcb⟩ := DoUpdate.readFile_true _ _ _ _ h1
    simp only at h
    split at h
    · split at h
      · simp at h
      · rename_i v2 nf1 h2
        simp only [Prod.mk.injEq, true_and] at h
        obtain ⟨hv, hw⟩ := h
        subst hv hw
        simp only [hd, he] at h2
        have hl2 := DoUpdate.readChunks_live _ _ _ _ _ _ _ hl h2
        refine ⟨?_, hd, he, hdisk, hcb, ⟨nf1, rfl⟩⟩
        obtain ⟨a1, a2, a3, a4⟩ := hl2
        refine ⟨a1, a2, ?_, a4⟩
        intro r hr
        simp only [DoUpdate.appendPending_eq, List.mem_append, hd] at hr
        exact hr.elim (a3 r) (keepLive_live _ _ r)
    · simp at h

/-! ## What a successful update leaves -/

theorem landed_none (data : List Byte) : landed none data = data := rfl

theorem landed_nil (flush : Option Nat) : landed flush [] = [] := by
  cases flush <;> simp [landed]

theorem landed_take_left (flush : Option Nat) (N t1 t2 : List Byte) :
    (landed flush (N ++ t1)).take N.length = (landed flush (N ++ t2)).take N.length := by
  cases flush with
  | none => simp [landed]
  | some k =>
    simp only [landed, List.take_take]
    by_cases h : k ≤ N.length
    · rw [Nat.min_eq_right h, List.take_append_of_le_length h, List.take_append_of_le_length h]
    · rw [Nat.min_eq_left (by omega)]
      simp

theorem DoUpdate_true (P : Vectors → Vectors) (env : Faults) (pending : List SBAddFullHash)
    (r1 : List SBAddPrefix) (r2 : List SBAddFullHash) (w : World)
    (ap : List SBAddPrefix) (ah : List SBAddFullHash) (w1 : World)
    (h : DoUpdate P env pending r1 r2 w = (true, ap, ah, w1)) :
    ∃ v3 wm nf, DoUpdate.merge env pending w = (true, v3, wm)
      ∧ wm.store.new_file_ = some nf
      ∧ ap = (P v3).add_prefixes ∧ ah = (P v3).add_full_hashes
      ∧ w1.store.add_chunks_cache_
          = DeleteChunksFromSet wm.store.add_del_cache_ wm.store.add_chunks_cache_
      ∧ w1.store.sub_chunks_cache_
          = DeleteChunksFromSet wm.store.sub_del_cache_ wm.store.sub_chunks_cache_
      ∧ w1.store.new_file_ = none
      ∧ w1.callback_runs = wm.callback_runs
      ∧ w1.disk =
          { committed := some (landed env.flush_new
              (committedBytes
                  (DeleteChunksFromSet wm.store.add_del_cache_ wm.store.add_chunks_cache_)
                  (DeleteChunksFromSet wm.store.sub_del_cache_ wm.store.sub_chunks_cache_) (P v3)
                ++ nf.data.drop (committedBytes
                  (DeleteChunksFromSet wm.store.add_del_cache_ wm.store.add_chunks_cache_)
                  (DeleteChunksFromSet wm.store.sub_del_cache_ wm.store.sub_chunks_cache_)
                  (P v3)).length)),
            temporary := none } := by
  unfold DoUpdate at h
  split at h
  · simp at h
  · rename_i v3 wm hm
    refine ⟨v3, wm, ?_⟩
    simp only at h
    split at h
    · rename_i nf2 hr1 hr2
      split at h
      · simp at h
      · rename_i nf3 hw
        split at h
        · simp at h
        · split at h
          · simp at h
          · rename_i hdel hmove
            cases hnf : wm.store.new_file_ with
            | none => simp [FileRewind, hnf] at hr2
            | some nf =>
              refine ⟨nf, hm, rfl, ?_⟩
              simp only [FileRewind, hnf] at hr1 hr2
              have hok : env.seek_new_again = true := by
                by_contra hc; simp [hc] at hr1
              simp only [hok, if_true, Option.some.injEq] at hr2
              subst hr2
              have e3 := DoUpdate.writeFile_true _ _ _ _ _ (Nat.zero_le _) hw
              simp only [Prod.mk.injEq, true_and] at h
              obtain ⟨h1, h2, h3⟩ := h
              subst h3
              refine ⟨h1.symm, h2.symm, rfl, rfl, rfl, rfl, ?_⟩
              simp only [file_util.Move, closeNewFile] at hmove ⊢
              cases htmp : wm.disk.temporary with
              | none => simp [htmp] at hmove
              | some t =>
                cases hmv : env.move with
                | false => simp [hmv] at hmove
                | true =>
                  simp only [htmp, Option.map_some', e3, FILE.write, List.take_zero,
                    List.nil_append, Nat.zero_add]
    · simp at h


theorem FinishUpdate_true (P : Vectors → Vectors) (env : Faults) (pending : List SBAddFullHash)
    (r1 : List SBAddPrefix) (r2 : List SBAddFullHash) (w : World)
    (ap : List SBAddPrefix) (ah : List SBAddFullHash) (w1 : World)
    (h : FinishUpdate P env pending r1 r2 w = (true, ap, ah, w1)) :
    ∃ wd, DoUpdate P env pending r1 r2 w = (true, ap, ah, wd) ∧ w1 = (Close env wd).2 := by
  unfold FinishUpdate at h
  simp only at h
  split at h
  · simp at h
  · rename_i hret
    simp only [Bool.not_eq_true, Bool.not_eq_false] at hret
    simp only [Prod.mk.injEq] at h
    obtain ⟨_, h1, h2, h3⟩ := h
    refine ⟨(DoUpdate P env pending r1 r2 w).2.2.2, ?_, h3.symm⟩
    rw [← h1, ← h2]
    have hb : (DoUpdate P env pending r1 r2 w).1 = true := by simpa using hret
    rw [← hb]

theorem cancelSubs_adds_subset {A S : Type} (hit : S → A → Bool) (subs : List S) :
    ∀ (adds : List A), ∀ a ∈ (cancelSubs hit adds subs).1, a ∈ adds := by
  induction subs with
  | nil => intro adds a ha; simpa [cancelSubs] using ha
  | cons s rest ih =>
    intro adds a ha
    simp only [cancelSubs] at ha
    split at ha
    · exact List.mem_of_mem_eraseP (ih _ a ha)
    · exact ih adds a ha

theorem cancelSubs_subs_subset {A S : Type} (hit : S → A → Bool) (subs : List S) :
    ∀ (adds : List A), ∀ s ∈ (cancelSubs hit adds subs).2, s ∈ subs := by
  induction subs with
  | nil => intro adds s hs; simp [cancelSubs] at hs
  | cons s0 rest ih =>
    intro adds s hs
    simp only [cancelSubs] at hs
    split at hs
    · exact List.mem_cons_of_mem _ (ih _ s hs)
    · simp only [List.mem_cons] at hs ⊢
      exact hs.imp id (ih adds s)

theorem SBProcessSubs_onlyRemoves : OnlyRemoves SBProcessSubs := by
  intro v
  refine ⟨?_, ?_, ?_, ?_⟩
  · exact cancelSubs_adds_subset _ _ _
  · exact cancelSubs_subs_subset _ _ _
  · exact cancelSubs_adds_subset _ _ _
  · exact cancelSubs_subs_subset _ _ _

theorem DeleteChunksFromSet_eq_filter (D : HashSet) (l : ChunkSet) :
    DeleteChunksFromSet D l = l.filter (fun c => decide (c ∉ D)) := by
  induction l with
  | nil => rfl
  | cons c rest ih =>
    simp only [DeleteChunksFromSet, ih, List.filter_cons, HashSet.count]
    by_cases hc : c ∈ D <;> simp [hc]

/-- The known-chunk-id sets `DoUpdate` writes. Whenever `FinishUpdate`
succeeds, whatever the sub-cancellation primitive does, the merge stage of
`DoUpdate` has succeeded, and what the temporary stream took, of which the
new committed file holds what the flush at the close landed, is the layout of
the two known-chunk-id sets held after the merge (just before the deleted
chunks are dropped from them) with exactly the members of the matching
deletion set removed: an id is in the written set if and only if it was in
the set and is not in the deletion set. -/
theorem known_chunk_sets_after_compaction (P : Vectors → Vectors) (env : Faults)
    (pending : List SBAddFullHash) (r1 : List SBAddPrefix) (r2 : List SBAddFullHash) (w : World)
    (ap : List SBAddPrefix) (ah : List SBAddFullHash) (w1 : World)
    (h : FinishUpdate P env pending r1 r2 w = (true, ap, ah, w1)) :
    ∃ v3 wm A S tail, DoUpdate.merge env pending w = (true, v3, wm)
      ∧ w1.disk.committed = some (landed env.flush_new (committedBytes A S (P v3) ++ tail))
      ∧ A = wm.store.add_chunks_cache_.filter (fun c => decide (c ∉ w.store.add_del_cache_))
      ∧ S = wm.store.sub_chunks_cache_.filter (fun c => decide (c ∉ w.store.sub_del_cache_))
      ∧ (∀ c, c ∈ A ↔ c ∈ wm.store.add_chunks_cache_ ∧ c ∉ w.store.add_del_cache_)
      ∧ (∀ c, c ∈ S ↔ c ∈ wm.store.sub_chunks_cache_ ∧ c ∉ w.store.sub_del_cache_) := by
  obtain ⟨wd, hd, hc⟩ := FinishUpdate_true _ _ _ _ _ _ _ _ _ h
  obtain ⟨v3, wm, nf, hm, hnf, hap, hah, _, _, hnone, _, hdisk⟩ := DoUpdate_true _ _ _ _ _ _ _ _ _ hd
  obtain ⟨_, hda, hds, _, _, _⟩ := DoUpdate.merge_true _ _ _ _ _ hm
  have hfile : w1.disk.committed = some (landed env.flush_new
      (committedBytes
          (wm.store.add_chunks_cache_.filter (fun c => decide (c ∉ w.store.add_del_cache_)))
          (wm.store.sub_chunks_cache_.filter (fun c => decide (c ∉ w.store.sub_del_cache_)))
          (P v3)
        ++ nf.data.drop (committedBytes
          (wm.store.add_chunks_cache_.filter (fun c => decide (c ∉ w.store.add_del_cache_)))
          (wm.store.sub_chunks_cache_.filter (fun c => decide (c ∉ w.store.sub_del_cache_)))
          (P v3)).length)) := by
    rw [hc]
    simp only [Close, closeNewFile, hnone, hdisk, DeleteChunksFromSet_eq_filter, hda, hds]
  refine ⟨v3, wm, _, _, _, hm, hfile, rfl, rfl, ?_, ?_⟩
  · intro c; simp [List.mem_filter]
  · intro c; simp [List.mem_filter]

/-- The known-chunk-id sets written by the successful `FinishUpdate` of
`sampleSession`. -/
theorem known_chunk_sets_after_compaction_witness :
    ∃ v3 wm A S tail, DoUpdate.merge sampleEnv samplePending sampleSession = (true, v3, wm)
      ∧ (FinishUpdate SBProcessSubs sampleEnv samplePending [] [] sampleSession).2.2.2.disk.committed
          = some (landed sampleEnv.flush_new (committedBytes A S (SBProcessSubs v3) ++ tail))
      ∧ A = wm.store.add_chunks_cache_.filter
          (fun c => decide (c ∉ sampleSession.store.add_del_cache_))
      ∧ S = wm.store.sub_chunks_cache_.filter
          (fun c => decide (c ∉ sampleSession.store.sub_del_cache_))
      ∧ (∀ c, c ∈ A ↔ c ∈ wm.store.add_chunks_cache_ ∧ c ∉ sampleSession.store.add_del_cache_)
      ∧ (∀ c, c ∈ S ↔ c ∈ wm.store.sub_chunks_cache_ ∧ c ∉ sampleSession.store.sub_del_cache_) :=
  known_chunk_sets_after_compaction SBProcessSubs sampleEnv samplePending [] [] sampleSession
    (FinishUpdate SBProcessSubs sampleEnv samplePending [] [] sampleSession).2.1
    (FinishUpdate SBProcessSubs sampleEnv samplePending [] [] sampleSession).2.2.1
    (FinishUpdate SBProcessSubs sampleEnv samplePending [] [] sampleSession).2.2.2
    (by decide!)

/-! ## What the chunk loop reads -/

theorem chunkHeaderOf_wf (c : Vectors) : Pod.wf (chunkHeaderOf c) :=
  ⟨toInt32_isInt32 _, toInt32_isInt32 _, toInt32_isInt32 _, toInt32_isInt32 _⟩

theorem keepLive_append {T : Type} [HasChunkId T] (D : HashSet) (a b : List T) :
    keepLive D (a ++ b) = keepLive D a ++ keepLive D b := by
  simp [keepLive, List.filter_append]

theorem DoUpdate.readChunks_ok (D E : HashSet) (chunks : List Vectors) :
    ∀ (v : Vectors) (fp : FILE) (post : List Byte),
      fp.rest = chunksBytes chunks ++ post → (∀ c ∈ chunks, Vectors.WF c) →
      ∃ fp1, DoUpdate.readChunks D E chunks.length v fp
        = (true, Vectors.append v (Vectors.survivors D E (Vectors.concat chunks)), fp1) := by
  induction chunks with
  | nil =>
    intro v fp post _ _
    refine ⟨fp, ?_⟩
    cases v
    simp [DoUpdate.readChunks, Vectors.concat, Vectors.nil, Vectors.survivors, Vectors.append,
      keepLive]
  | cons c cs ih =>
    intro v fp post hrest hwf
    obtain ⟨w1, w2, w3, w4, l1, l2, l3, l4⟩ := hwf c (List.mem_cons_self _ _)
    have r0 : fp.rest = encodeItems [chunkHeaderOf c] ++ (encodeItems c.add_prefixes
        ++ (encodeItems c.sub_prefixes ++ (encodeItems c.add_full_hashes
        ++ (encodeItems c.sub_full_hashes ++ (chunksBytes cs ++ post))))) := by
      simp [hrest, chunksBytes, chunkBytes]
    have hh : ReadArray (T := ChunkHeader) 1 fp
        = (true, [chunkHeaderOf c], { fp with pos := fp.pos + 1 * 16 }) :=
      ReadArray_ok [chunkHeaderOf c] _ _ r0
        (by intro x hx; simp only [List.mem_singleton] at hx; subst hx; exact chunkHeaderOf_wf c)
    have r1 := FILE.rest_advance _ _ _ r0
    simp only [List.length_cons, List.length_nil, Pod.size] at r1
    have hv := readVectors_ok v c (chunkHeaderOf c).add_prefix_count
      (chunkHeaderOf c).sub_prefix_count (chunkHeaderOf c).add_hash_count
      (chunkHeaderOf c).sub_hash_count (chunksBytes cs ++ post) _ D E r1
      (toSizeT_toInt32 _ l1) (toSizeT_toInt32 _ l2) (toSizeT_toInt32 _ l3) (toSizeT_toInt32 _ l4)
      w1 w2 w3 w4
    have r2 : FILE.rest { fp with pos := fp.pos + (0 + 1) * 16 + (8 * c.add_prefixes.length
        + 12 * c.sub_prefixes.length + 40 * c.add_full_hashes.length
        + 40 * c.sub_full_hashes.length) } = chunksBytes cs ++ post := by
      have a1 := FILE.rest_advance _ _ _ r1
      have a2 := FILE.rest_advance _ _ _ a1
      have a3 := FILE.rest_advance _ _ _ a2
      have a4 := FILE.rest_advance _ _ _ a3
      simp only [Pod.size] at a4
      rw [← a4]
      simp only [FILE.rest]
      congr 1
      omega
    obtain ⟨fp1, h1⟩ := ih _ _ post r2 (fun c' hc' => hwf c' (List.mem_cons_of_mem _ hc'))
    refine ⟨fp1, ?_⟩
    simp only [List.length_cons, DoUpdate.readChunks, hh, List.headD_cons]
    simp only [Nat.zero_add, Nat.one_mul] at hv h1 ⊢
    rw [hv]
    simp only
    rw [h1]
    simp [Vectors.append, Vectors.survivors, Vectors.concat, keepLive_append]

/-- C4. Merge content and order. In a session whose committed file holds the
records `items` (none when the session started from an empty store) and whose
temporary file holds the chunk records `chunks` in append order, when both
rewinds succeed the merge stage of `DoUpdate` succeeds and the four working
vectors it hands to sub-cancellation are, kind by kind, the committed file's
records, then the records of each chunk in append order, then (add full
hashes only) the pending adds, filtered by the matching deletion set: exactly
the records whose chunk id is in that set are gone and the others keep their
relative order. -/
theorem merge_content_and_order (env : Faults) (pending : List SBAddFullHash) (w : World)
    (A S : ChunkSet) (items : Vectors) (chunks : List Vectors)
    (hso : env.seek_old = true) (hsn : env.seek_new = true)
    (hfile : FileHolds w A S items) (htemp : TempHolds w chunks)
    (wA : ∀ x ∈ A, isInt32 x) (wS : ∀ x ∈ S, isInt32 x)
    (lA : A.length < 2147483648) (lS : S.length < 2147483648)
    (hitems : Vectors.WF items) (hchunks : ∀ c ∈ chunks, Vectors.WF c) :
    (DoUpdate.merge env pending w).1 = true
      ∧ (DoUpdate.merge env pending w).2.1
          = Vectors.survivors w.store.add_del_cache_ w.store.sub_del_cache_
              (Vectors.append (Vectors.append items (Vectors.concat chunks))
                { add_prefixes := [], sub_prefixes := [], add_full_hashes := pending,
                  sub_full_hashes := [] }) := by
  obtain ⟨nf, tail, hnf, hdata, hn⟩ := htemp
  obtain ⟨w1, w2, w3, w4, l1, l2, l3, l4⟩ := hitems
  have hread : ∃ w1 : World, DoUpdate.readFile env w
      = (true, Vectors.survivors w.store.add_del_cache_ w.store.sub_del_cache_ items, w1)
      ∧ w1.store.new_file_ = some nf ∧ w1.store.add_del_cache_ = w.store.add_del_cache_
      ∧ w1.store.sub_del_cache_ = w.store.sub_del_cache_
      ∧ w1.store.chunks_written_ = chunks.length := by
    rcases hfile with ⟨he, hi⟩ | ⟨he, f, tl, hf, hd⟩
    · refine ⟨w, ?_, hnf, rfl, rfl, hn⟩
      simp [DoUpdate.readFile, he, hi, Vectors.survivors, Vectors.nil, keepLive]
    · refine ⟨_, DoUpdate.readFile_ok env w f A S items tl he hf hso hd wA wS w1 w2 w3 w4 lA lS
        l1 l2 l3 l4, hnf, rfl, rfl, hn⟩
  obtain ⟨wr, hr, hnf1, hd1, he1, hn1⟩ := hread
  have hrest : FILE.rest { nf with pos := 0 } = chunksBytes chunks ++ tail := by
    simp [FILE.rest, hdata]
  obtain ⟨fp1, hc⟩ := DoUpdate.readChunks_ok w.store.add_del_cache_ w.store.sub_del_cache_ chunks
    (Vectors.survivors w.store.add_del_cache_ w.store.sub_del_cache_ items) _ tail hrest hchunks
  unfold DoUpdate.merge
  simp only [hr, hnf1, FileRewind, hsn, if_true, hd1, he1, hn1, hc, DoUpdate.appendPending_eq]
  simp [Vectors.survivors, Vectors.append, keepLive_append, keepLive]

set_option maxRecDepth 8000 in
/-- Merge content and order (C4) on `sampleSession`: a committed file, one
chunk record and two pending adds. -/
theorem merge_content_and_order_witness :
    (DoUpdate.merge sampleEnv samplePending sampleSession).1 = true
      ∧ (DoUpdate.merge sampleEnv samplePending sampleSession).2.1
          = Vectors.survivors sampleSession.store.add_del_cache_
              sampleSession.store.sub_del_cache_
              (Vectors.append (Vectors.append sampleItems (Vectors.concat [sampleChunk]))
                { add_prefixes := [], sub_prefixes := [], add_full_hashes := samplePending,
                  sub_full_hashes := [] }) :=
  merge_content_and_order sampleEnv samplePending sampleSession [1, 2] [3] sampleItems
    [sampleChunk] rfl rfl
    (Or.inr ⟨by decide!, { data := sampleCommitted, pos := 44, room := 0 }, [],
      by decide!, by decide!⟩)
    ⟨{ data := chunksBytes [sampleChunk], pos := 44, room := 4052 }, [],
      by decide!, by decide!, by decide!⟩
    (by decide) (by decide) (by decide) (by decide) (by decide) (by decide)

/-! ## Sub-cancellation counts -/

theorem countP_eraseP_self {A : Type} (p : A → Bool) (l : List A) :
    (l.eraseP p).countP p = l.countP p - 1 := by
  induction l with
  | nil => rfl
  | cons a l ih =>
    by_cases ha : p a = true
    · simp [List.eraseP_cons, ha, List.countP_cons]
    · simp only [List.eraseP_cons, ha, List.countP_cons, Bool.false_eq_true, if_false, ih,
        cond_false, Nat.add_zero]

theorem countP_eraseP_other {A : Type} (p q : A → Bool) (l : List A)
    (h : ∀ a, q a = true → p a = false) : (l.eraseP q).countP p = l.countP p := by
  induction l with
  | nil => rfl
  | cons a l ih =>
    by_cases ha : q a = true
    · simp [List.eraseP_cons, ha, List.countP_cons, h a ha]
    · simp [List.eraseP_cons, ha, List.countP_cons, ih]

theorem countP_pos_of_any {A : Type} (p : A → Bool) (l : List A) (h : l.any p = true) :
    0 < l.countP p := by
  rw [List.countP_pos_iff]
  simpa [List.any_eq_true] using h

theorem countP_eq_zero_of_not_any {A : Type} (p : A → Bool) (l : List A)
    (h : ¬ l.any p = true) : l.countP p = 0 := by
  rw [List.countP_eq_zero]
  intro a ha hp
  exact h (List.any_eq_true.2 ⟨a, ha, hp⟩)

theorem cancelSubs_count {A S K : Type} [DecidableEq K] (keyA : A → K) (keyS : S → K)
    (hit : S → A → Bool) (hhit : ∀ s a, hit s a = decide (keyA a = keyS s)) (k : K)
    (subs : List S) :
    ∀ adds : List A,
      (cancelSubs hit adds subs).1.countP (fun a => decide (keyA a = k))
          = adds.countP (fun a => decide (keyA a = k))
            - subs.countP (fun s => decide (keyS s = k))
        ∧ (cancelSubs hit adds subs).2.countP (fun s => decide (keyS s = k))
          = subs.countP (fun s => decide (keyS s = k))
            - adds.countP (fun a => decide (keyA a = k)) := by
  induction subs with
  | nil => intro adds; simp [cancelSubs]
  | cons s rest ih =>
    intro adds
    have hfun : hit s = fun a => decide (keyA a = keyS s) := funext (hhit s)
    simp only [cancelSubs]
    by_cases hany : adds.any (hit s) = true
    · simp only [hany, if_true]
      obtain ⟨i1, i2⟩ := ih (adds.eraseP (hit s))
      rw [i1, i2]
      by_cases hk : keyS s = k
      · have he : (adds.eraseP (hit s)).countP (fun a => decide (keyA a = k))
            = adds.countP (fun a => decide (keyA a = k)) - 1 := by
          rw [hfun, hk]; exact countP_eraseP_self _ _
        have hpos : 0 < adds.countP (fun a => decide (keyA a = k)) := by
          have := countP_pos_of_any _ _ hany
          rwa [hfun, hk] at this
        simp only [he, List.countP_cons, hk, decide_True, if_true]
        omega
      · have he : (adds.eraseP (hit s)).countP (fun a => decide (keyA a = k))
            = adds.countP (fun a => decide (keyA a = k)) := by
          apply countP_eraseP_other
          intro a ha
          rw [hhit] at ha
          simp only [decide_eq_true_eq] at ha
          simp only [decide_eq_false_iff_not]
          intro h2; exact hk (ha ▸ h2)
        simp only [he, List.countP_cons, hk, decide_False, Bool.false_eq_true, if_false]
        omega
    · simp only [hany, Bool.false_eq_true, if_false]
      obtain ⟨i1, i2⟩ := ih adds
      rw [i1]
      simp only [List.countP_cons, i2]
      by_cases hk : keyS s = k
      · have hz : adds.countP (fun a => decide (keyA a = k)) = 0 := by
          have := countP_eq_zero_of_not_any _ _ hany
          rwa [hfun, hk] at this
        simp only [hk, decide_True, if_true, hz]
        omega
      · simp only [hk, decide_False, Bool.false_eq_true, if_false]
        omega

theorem SBProcessSubs_prefix_count (v : Vectors) (A V : Int) :
    (SBProcessSubs v).add_prefixes.countP (fun a => decide ((a.chunk_id, a.prefix_) = (A, V)))
        = v.add_prefixes.countP (fun a => decide ((a.chunk_id, a.prefix_) = (A, V)))
          - v.sub_prefixes.countP (fun s => decide ((s.add_chunk_id, s.prefix_) = (A, V)))
      ∧ (SBProcessSubs v).sub_prefixes.countP
          (fun s => decide ((s.add_chunk_id, s.prefix_) = (A, V)))
        = v.sub_prefixes.countP (fun s => decide ((s.add_chunk_id, s.prefix_) = (A, V)))
          - v.add_prefixes.countP (fun a => decide ((a.chunk_id, a.prefix_) = (A, V))) := by
  unfold SBProcessSubs
  simp only
  exact cancelSubs_count (fun a : SBAddPrefix => (a.chunk_id, a.prefix_))
    (fun s : SBSubPrefix => (s.add_chunk_id, s.prefix_)) _
    (by intro s a; simp [Prod.mk.injEq]) (A, V) v.sub_prefixes v.add_prefixes

theorem OnCorruptDatabase_frame (w : World) :
    (OnCorruptDatabase w).1 = false ∧ (OnCorruptDatabase w).2.store = w.store
      ∧ (OnCorruptDatabase w).2.disk = w.disk
      ∧ (OnCorruptDatabase w).2.callback_runs
          = w.callback_runs + (if w.store.corruption_callback_ then 1 else 0) := by
  unfold OnCorruptDatabase
  split <;> simp [*]

theorem DoUpdate.readFile_frame (env : Faults) (w : World) (b : Bool) (v : Vectors) (w1 : World)
    (h : DoUpdate.readFile env w = (b, v, w1)) :
    w1.disk = w.disk
      ∧ w1.store.corruption_callback_ = w.store.corruption_callback_
      ∧ w1.store.new_file_ = w.store.new_file_
      ∧ w1.callback_runs
          = w.callback_runs + (if b = false ∧ w.store.corruption_callback_ = true then 1 else 0) := by
  unfold DoUpdate.readFile at h
  simp only at h
  split at h
  · simp only [Prod.mk.injEq] at h
    obtain ⟨h1, h2, h3⟩ := h
    subst h1 h2 h3
    simp
  · split at h
    · split at h
      · simp only [Prod.mk.injEq] at h
        obtain ⟨h1, h2, h3⟩ := h
        subst h1 h2 h3
        simp [OnCorruptDatabase_frame]
      · split at h
        · simp only [Prod.mk.injEq] at h
          obtain ⟨h1, h2, h3⟩ := h
          subst h1 h2 h3
          simp [OnCorruptDatabase_frame]
        · split at h
          · simp only [Prod.mk.injEq] at h
            obtain ⟨h1, h2, h3⟩ := h
            subst h1 h2 h3
            simp [OnCorruptDatabase_frame]
          · split at h
            · simp only [Prod.mk.injEq] at h
              obtain ⟨h1, h2, h3⟩ := h
              subst h1 h2 h3
              simp [OnCorruptDatabase_frame]
            · split at h
              · simp only [Prod.mk.injEq] at h
                obtain ⟨h1, h2, h3⟩ := h
                subst h1 h2 h3
                simp [OnCorruptDatabase_frame]
              · simp only [Prod.mk.injEq] at h
                obtain ⟨h1, h2, h3⟩ := h
                subst h1 h2 h3
                simp
    · simp only [Prod.mk.injEq] at h
      obtain ⟨h1, h2, h3⟩ := h
      subst h1 h2 h3
      simp [OnCorruptDatabase_frame]

theorem DoUpdate.merge_frame (env : Faults) (pending : List SBAddFullHash) (w : World) (b : Bool)
    (v : Vectors) (w1 : World) (h : DoUpdate.merge env pending w = (b, v, w1)) :
    w1.disk = w.disk
      ∧ w1.store.corruption_callback_ = w.store.corruption_callback_
      ∧ w1.callback_runs
          = w.callback_runs
            + (if (DoUpdate.readFile env w).1 = false ∧ w.store.corruption_callback_ = true
               then 1 else 0)
      ∧ ((DoUpdate.readFile env w).1 = false → b = false) := by
  unfold DoUpdate.merge at h
  split at h
  · rename_i v1 wr hr
    obtain ⟨f1, f2, f3, f4⟩ := DoUpdate.readFile_frame _ _ _ _ _ hr
    simp only [Prod.mk.injEq] at h
    obtain ⟨h1, h2, h3⟩ := h
    subst h1 h2 h3
    simp [hr, f1, f2, f4]
  · rename_i v1 wr hr
    obtain ⟨f1, f2, f3, f4⟩ := DoUpdate.readFile_frame _ _ _ _ _ hr
    simp only at h
    split at h
    · split at h
      · simp only [Prod.mk.injEq] at h
        obtain ⟨h1, h2, h3⟩ := h
        subst h1 h2 h3
        simp [hr, f1, f2, f4]
      · simp only [Prod.mk.injEq] at h
        obtain ⟨h1, h2, h3⟩ := h
        subst h1 h2 h3
        simp [hr, f1, f2, f4]
    · simp only [Prod.mk.injEq] at h
      obtain ⟨h1, h2, h3⟩ := h
      subst h1 h2 h3
      simp [hr, f1, f2, f4]

theorem DoUpdate_frame (P : Vectors → Vectors) (env : Faults) (pending : List SBAddFullHash)
    (r1 : List SBAddPrefix) (r2 : List SBAddFullHash) (w : World) (b : Bool)
    (ap : List SBAddPrefix) (ah : List SBAddFullHash) (w1 : World)
    (h : DoUpdate P env pending r1 r2 w = (b, ap, ah, w1)) :
    w1.callback_runs
        = w.callback_runs
          + (if (DoUpdate.readFile env w).1 = false ∧ w.store.corruption_callback_ = true
             then 1 else 0)
      ∧ ((DoUpdate.readFile env w).1 = false → b = false)
      ∧ (b = false → ap = r1 ∧ ah = r2)
      ∧ (b = false → w1.disk.committed = w.disk.committed
          ∨ (env.delete_old = true ∧ (env.move = false ∨ w.disk.temporary = none)
              ∧ w1.disk.committed = none))
      ∧ (b = true → env.move = true ∧ env.seek_new = true ∧ env.seek_new_again = true
          ∧ (env.delete_old = true ∨ w.disk.committed = none)) := by
  unfold DoUpdate at h
  split at h
  · rename_i v wm hm
    obtain ⟨f1, f2, f3, f4⟩ := DoUpdate.merge_frame _ _ _ _ _ _ hm
    simp only [Prod.mk.injEq] at h
    obtain ⟨h1, h2, h3, h4⟩ := h
    subst h1 h2 h3 h4
    simp [f1, f3]
  · rename_i v wm hm
    obtain ⟨f1, f2, f3, f4⟩ := DoUpdate.merge_frame _ _ _ _ _ _ hm
    have hrt : (DoUpdate.readFile env w).1 = true := by
      cases hb : (DoUpdate.readFile env w).1 with
      | true => rfl
      | false => exact absurd (f4 hb) (by simp)
    have hsn : env.seek_new = true := by
      unfold DoUpdate.merge at hm
      split at hm
      · simp at hm
      · simp only at hm
        split at hm
        · rename_i hr1 hr2
          simp only [FileRewind] at hr1
          split at hr1
          · simp at hr1
          · by_contra hc; simp [hc] at hr1
        · simp at hm
    simp only at h
    split at h
    · rename_i nf2 hr1 hr2
      have hsa : env.seek_new_again = true := by
        simp only [FileRewind] at hr1
        split at hr1
        · simp at hr1
        · by_contra hc; simp [hc] at hr1
      split at h
      · simp only [Prod.mk.injEq] at h
        obtain ⟨h1, h2, h3, h4⟩ := h
        subst h1 h2 h3 h4
        simp [f1, f3, hrt]
      · split at h
        · rename_i hdel
          simp only [Prod.mk.injEq] at h
          obtain ⟨h1, h2, h3, h4⟩ := h
          subst h1 h2 h3 h4
          simp only [f3, hrt, true_and, forall_const, Bool.true_eq_false, false_and, if_false,
            Nat.add_zero, false_implies, and_true, Bool.false_eq_true]
          left
          simp only [file_util.Delete, file_util.PathExists, closeNewFile, f1] at hdel ⊢
          cases hdo : env.delete_old with
          | true => simp [hdo] at hdel
          | false => simp
        · rename_i hdel
          split at h
          · rename_i hmove
            simp only [Prod.mk.injEq] at h
            obtain ⟨h1, h2, h3, h4⟩ := h
            subst h1 h2 h3 h4
            simp only [f3, hrt, true_and, forall_const, Bool.true_eq_false, false_and, if_false,
              Nat.add_zero, false_implies, and_true, Bool.false_eq_true]
            simp only [file_util.Delete, file_util.PathExists, file_util.Move, closeNewFile,
              f1] at hdel hmove ⊢
            cases hdo : env.delete_old <;> cases hmv : env.move <;>
              cases htmp : w.disk.temporary <;> cases hcm : w.disk.committed <;>
              simp [hdo, hmv, htmp, hcm] at hdel hmove ⊢
          · rename_i hmove
            simp only [Prod.mk.injEq] at h
            obtain ⟨h1, h2, h3, h4⟩ := h
            subst h1 h2 h3 h4
            simp only [f3, hrt, true_and, forall_const, Bool.true_eq_false, false_and, if_false,
              Nat.add_zero, false_implies, and_true, Bool.false_eq_true, hsn, hsa]
            simp only [file_util.Delete, file_util.PathExists, file_util.Move, closeNewFile,
              f1] at hdel hmove ⊢
            cases hdo : env.delete_old <;> cases hmv : env.move <;>
              cases htmp : w.disk.temporary <;> cases hcm : w.disk.committed <;>
              simp [hdo, hmv, htmp, hcm] at hdel hmove ⊢
    · simp only [Prod.mk.injEq] at h
      obtain ⟨h1, h2, h3, h4⟩ := h
      subst h1 h2 h3 h4
      simp [f1, f3, hrt]

theorem FinishUpdate_eq (P : Vectors → Vectors) (env : Faults) (pending : List SBAddFullHash)
    (r1 : List SBAddPrefix) (r2 : List SBAddFullHash) (w : World) :
    FinishUpdate P env pending r1 r2 w
      = ((DoUpdate P env pending r1 r2 w).1, (DoUpdate P env pending r1 r2 w).2.1,
         (DoUpdate P env pending r1 r2 w).2.2.1,
         (Close env (DoUpdate P env pending r1 r2 w).2.2.2).2) := by
  unfold FinishUpdate CancelUpdate
  cases hb : (DoUpdate P env pending r1 r2 w).1 <;> simp [hb, Close]

theorem Close_frame (env : Faults) (w : World) :
    (Close env w).2.disk.committed = w.disk.committed
      ∧ (Close env w).2.callback_runs = w.callback_runs
      ∧ (Close env w).2.store.file_ = none ∧ (Close env w).2.store.new_file_ = none := by
  unfold Close closeNewFile
  cases w.store.new_file_ <;> simp

theorem ReadArray_eq {T : Type} [Pod T] (nmemb : Nat) (fp : FILE) :
    ReadArray (T := T) nmemb fp
      = if nmemb ≤ (fp.data.length - fp.pos) / Pod.size T then
          (true, decodeItems nmemb (fp.data.drop fp.pos),
            { fp with pos := fp.pos + nmemb * Pod.size T })
        else
          (false, decodeItems ((fp.data.length - fp.pos) / Pod.size T) (fp.data.drop fp.pos),
            { fp with pos := fp.data.length }) := by
  unfold ReadArray fread
  by_cases h : nmemb ≤ (fp.data.length - fp.pos) / Pod.size T
  · simp [h, decodeItems_length]
  · simp only [h, if_false, decodeItems_length]
    rw [if_pos (by omega)]

theorem ReadToChunkSet_eq (values : ChunkSet) (count : Nat) (fp : FILE) :
    ReadToChunkSet values count fp
      = if count ≤ (fp.data.length - fp.pos) / 4 then
          (true, ChunkSet.insertRange values (decodeItems count (fp.data.drop fp.pos)),
            { fp with pos := fp.pos + count * 4 })
        else (false, values, { fp with pos := fp.data.length }) := by
  unfold ReadToChunkSet ReadToVector
  by_cases h0 : count = 0
  · subst h0
    simp [decodeItems, ChunkSet.insertRange]
  · simp only [h0, if_false, ReadArray_eq, Pod.size]
    by_cases h : count ≤ (fp.data.length - fp.pos) / 4
    · simp [h]
    · simp [h]

theorem BeginUpdate_header (env : Faults) (w : World) (bytes : List Byte)
    (hnew : env.open_new = true) (hopen : env.open_old = true)
    (hfile : w.disk.committed = some bytes) (hlen : 32 ≤ bytes.length) :
    BeginUpdate env w
      = if (headerOf bytes).magic ≠ kFileMagic ∨ (headerOf bytes).version ≠ kFileVersion then
          OnCorruptDatabase { w with store := { w.store with empty_ := false },
                                     disk := { w.disk with temporary := some [] } }
        else if toSizeT (headerOf bytes).add_chunk_count ≤ (bytes.length - 32) / 4 then
          if toSizeT (headerOf bytes).sub_chunk_count
              ≤ (bytes.length - (32 + toSizeT (headerOf bytes).add_chunk_count * 4)) / 4 then
            (true, { w with
              store := { w.store with
                empty_ := false,
                add_chunks_cache_ := ChunkSet.insertRange w.store.add_chunks_cache_
                  (decodeItems (toSizeT (headerOf bytes).add_chunk_count) (bytes.drop 32)),
                sub_chunks_cache_ := ChunkSet.insertRange w.store.sub_chunks_cache_
                  (decodeItems (toSizeT (headerOf bytes).sub_chunk_count)
                    (bytes.drop (32 + toSizeT (headerOf bytes).add_chunk_count * 4))),
                file_ := some { data := bytes,
                                pos := 32 + toSizeT (headerOf bytes).add_chunk_count * 4
                                  + toSizeT (headerOf bytes).sub_chunk_count * 4,
                                room := 0 },
                new_file_ := some { data := [], pos := 0, room := env.room } },
              disk := { w.disk with temporary := some [] } })
          else
            OnCorruptDatabase { w with
              store := { w.store with
                empty_ := false,
                add_chunks_cache_ := ChunkSet.insertRange w.store.add_chunks_cache_
                  (decodeItems (toSizeT (headerOf bytes).add_chunk_count) (bytes.drop 32)) },
              disk := { w.disk with temporary := some [] } }
        else
          OnCorruptDatabase { w with store := { w.store with empty_ := false },
                                     disk := { w.disk with temporary := some [] } } := by
  have hav : 1 ≤ (bytes.length - 0) / 32 := by
    rw [Nat.le_div_iff_mul_le (by decide)]; omega
  unfold BeginUpdate
  simp only [file_util.OpenFileWrite, hnew, if_true, file_util.OpenFileRead, hfile, hopen,
    ReadArray_eq, Pod.size, hav, List.drop_zero, decodeItems, List.headD_cons,
    Option.isNone_some, closeNewFile, Option.map_some', ReadToChunkSet_eq, landed_nil]
  simp only [headerOf, Pod.size]
  by_cases hbad : (Pod.get (List.take 32 bytes) : FileHeader).magic ≠ kFileMagic
      ∨ (Pod.get (List.take 32 bytes) : FileHeader).version ≠ kFileVersion
  · simp only [hbad, if_true]
  · simp only [hbad, if_false, Nat.zero_add, Nat.one_mul, Nat.sub_zero]
    by_cases ha : toSizeT (Pod.get (List.take 32 bytes) : FileHeader).add_chunk_count
        ≤ (bytes.length - 32) / 4
    · simp only [ha, if_true]
      by_cases hs : toSizeT (Pod.get (List.take 32 bytes) : FileHeader).sub_chunk_count
          ≤ (bytes.length - (32 + toSizeT (Pod.get (List.take 32 bytes)
              : FileHeader).add_chunk_count * 4)) / 4
      · simp only [hs, if_true]
      · simp only [hs, if_false]
    · simp only [ha, if_false]

/-- C7. Magic and version check. When the temporary file is created and the
committed file is opened and holds a whole header, a magic other than
`0x600D71FE` or a version other than 7 makes `BeginUpdate` return false; the
corruption callback runs exactly once when one is registered (and nothing
runs when none is); both known-chunk-id sets are as before the call, so no
chunk id of the file went into them; and the store, which holds no stream
when `BeginUpdate` is called, holds none afterwards. -/
theorem bad_magic_or_version (env : Faults) (w : World) (bytes : List Byte)
    (hnew : env.open_new = true) (hopen : env.open_old = true)
    (hfile : w.disk.committed = some bytes) (hlen : 32 ≤ bytes.length)
    (hf : w.store.file_ = none) (hn : w.store.new_file_ = none)
    (hbad : (headerOf bytes).magic ≠ kFileMagic ∨ (headerOf bytes).version ≠ kFileVersion) :
    (BeginUpdate env w).1 = false
      ∧ (BeginUpdate env w).2.callback_runs
          = w.callback_runs + (if w.store.corruption_callback_ then 1 else 0)
      ∧ (BeginUpdate env w).2.store.add_chunks_cache_ = w.store.add_chunks_cache_
      ∧ (BeginUpdate env w).2.store.sub_chunks_cache_ = w.store.sub_chunks_cache_
      ∧ (BeginUpdate env w).2.store.file_ = none
      ∧ (BeginUpdate env w).2.store.new_file_ = none := by
  rw [BeginUpdate_header env w bytes hnew hopen hfile hlen, if_pos hbad]
  obtain ⟨c1, c2, _, c4⟩ := OnCorruptDatabase_frame
    { w with store := { w.store with empty_ := false },
             disk := { w.disk with temporary := some [] } }
  refine ⟨c1, ?_, ?_, ?_, ?_, ?_⟩
  · rw [c4]
  · rw [c2]
  · rw [c2]
  · rw [c2]; exact hf
  · rw [c2]; exact hn

/-- The magic check (C7) on a committed file whose magic has one byte
changed. -/
theorem bad_magic_or_version_witness :
    (BeginUpdate sampleEnv sampleFlipped).1 = false
      ∧ (BeginUpdate sampleEnv sampleFlipped).2.callback_runs
          = sampleFlipped.callback_runs
            + (if sampleFlipped.store.corruption_callback_ then 1 else 0)
      ∧ (BeginUpdate sampleEnv sampleFlipped).2.store.add_chunks_cache_
          = sampleFlipped.store.add_chunks_cache_
      ∧ (BeginUpdate sampleEnv sampleFlipped).2.store.sub_chunks_cache_
          = sampleFlipped.store.sub_chunks_cache_
      ∧ (BeginUpdate sampleEnv sampleFlipped).2.store.file_ = none
      ∧ (BeginUpdate sampleEnv sampleFlipped).2.store.new_file_ = none :=
  bad_magic_or_version sampleEnv sampleFlipped sampleFlippedBytes rfl rfl rfl (by decide!)
    rfl rfl (by decide!)

/-- C8 as stated fails. `sampleOverclaimBytes` has a valid magic and version and
claims five add prefixes, yet holds no record at all; `BeginUpdate` succeeds on
it and the corruption callback, though registered, does not run. -/
theorem begin_update_overclaim_counterexample :
    (headerOf sampleOverclaimBytes).magic = kFileMagic
      ∧ (headerOf sampleOverclaimBytes).version = kFileVersion
      ∧ (headerOf sampleOverclaimBytes).add_prefix_count = 5
      ∧ sampleOverclaimBytes.length = 32
      ∧ sampleOverclaim.store.corruption_callback_ = true
      ∧ (BeginUpdate sampleEnv sampleOverclaim).1 = true
      ∧ (BeginUpdate sampleEnv sampleOverclaim).2.callback_runs = sampleOverclaim.callback_runs := by
  decide!

theorem leValue_lt (bs : List Byte) : leValue bs < 256 ^ bs.length := by
  induction bs with
  | nil => simp [leValue]
  | cons b bs ih =>
    have hb := b.isLt
    simp only [leValue, List.length_cons, pow_succ]
    omega

theorem getInt32_isInt32 (bs : List Byte) : isInt32 (getInt32 bs) := by
  have h := leValue_lt (bs.take 4)
  have hl : (bs.take 4).length ≤ 4 := by simp
  have hp : 256 ^ (bs.take 4).length ≤ 256 ^ 4 := Nat.pow_le_pow_right (by decide) hl
  have h4 : leValue (bs.take 4) < 4294967296 := by
    have : (256 : Nat) ^ 4 = 4294967296 := by norm_num
    omega
  unfold getInt32 isInt32
  simp only
  split <;> omega

theorem toSizeT_of_nonneg (x : Int) (h0 : 0 ≤ x) (h : isInt32 x) : toSizeT x = x.toNat := by
  unfold toSizeT
  unfold isInt32 at h
  omega

/-- C8, amended. When the temporary file is created and the committed file is
opened and holds a header with the valid magic and version, `BeginUpdate` reads
the two chunk-id arrays only. If the add and sub chunk counts (non-negative)
together claim more chunk ids than the file holds after the header,
`BeginUpdate` fails and the corruption callback runs exactly once when one is
registered; if they do not, `BeginUpdate` succeeds and the callback does not
run, whatever the four record counts claim. -/
theorem begin_update_chunk_counts (env : Faults) (w : World) (bytes : List Byte)
    (hnew : env.open_new = true) (hopen : env.open_old = true)
    (hfile : w.disk.committed = some bytes) (hlen : 32 ≤ bytes.length)
    (hmagic : (headerOf bytes).magic = kFileMagic)
    (hver : (headerOf bytes).version = kFileVersion)
    (ha : 0 ≤ (headerOf bytes).add_chunk_count) (hs : 0 ≤ (headerOf bytes).sub_chunk_count) :
    ((bytes.length - 32) / 4
          < (headerOf bytes).add_chunk_count.toNat + (headerOf bytes).sub_chunk_count.toNat →
        (BeginUpdate env w).1 = false
          ∧ (BeginUpdate env w).2.callback_runs
              = w.callback_runs + (if w.store.corruption_callback_ then 1 else 0))
      ∧ ((headerOf bytes).add_chunk_count.toNat + (headerOf bytes).sub_chunk_count.toNat
          ≤ (bytes.length - 32) / 4 →
        (BeginUpdate env w).1 = true ∧ (BeginUpdate env w).2.callback_runs = w.callback_runs) := by
  have hgood : ¬ ((headerOf bytes).magic ≠ kFileMagic ∨ (headerOf bytes).version ≠ kFileVersion) := by
    simp [hmagic, hver]
  have ea : toSizeT (headerOf bytes).add_chunk_count = (headerOf bytes).add_chunk_count.toNat :=
    toSizeT_of_nonneg _ ha (getInt32_isInt32 _)
  have es : toSizeT (headerOf bytes).sub_chunk_count = (headerOf bytes).sub_chunk_count.toNat :=
    toSizeT_of_nonneg _ hs (getInt32_isInt32 _)
  rw [BeginUpdate_header env w bytes hnew hopen hfile hlen, if_neg hgood, ea, es]
  constructor
  · intro hover
    by_cases h1 : (headerOf bytes).add_chunk_count.toNat ≤ (bytes.length - 32) / 4
    · have h2 : ¬ (headerOf bytes).sub_chunk_count.toNat
          ≤ (bytes.length - (32 + (headerOf bytes).add_chunk_count.toNat * 4)) / 4 := by
        omega
      rw [if_pos h1, if_neg h2]
      exact ⟨(OnCorruptDatabase_frame _).1, (OnCorruptDatabase_frame _).2.2.2⟩
    · rw [if_neg h1]
      exact ⟨(OnCorruptDatabase_frame _).1, (OnCorruptDatabase_frame _).2.2.2⟩
  · intro hfit
    have h1 : (headerOf bytes).add_chunk_count.toNat ≤ (bytes.length - 32) / 4 := by omega
    have h2 : (headerOf bytes).sub_chunk_count.toNat
        ≤ (bytes.length - (32 + (headerOf bytes).add_chunk_count.toNat * 4)) / 4 := by
      omega
    rw [if_pos h1, if_pos h2]
    exact ⟨rfl, rfl⟩

/-- The chunk-count check (C8, amended) on a header that claims three add
chunk ids and holds none. -/
theorem begin_update_chunk_counts_witness :
    (BeginUpdate sampleEnv sampleShortChunks).1 = false
      ∧ (BeginUpdate sampleEnv sampleShortChunks).2.callback_runs
          = sampleShortChunks.callback_runs
            + (if sampleShortChunks.store.corruption_callback_ then 1 else 0) :=
  (begin_update_chunk_counts sampleEnv sampleShortChunks sampleShortChunksBytes rfl rfl rfl
    (by decide!) (by decide!) (by decide!) (by decide!) (by decide!)).1 (by decide!)

/-! ## Short reads -/

theorem ReadToVectorAndDelete_fst {T : Type} [Pod T] [HasChunkId T] (values : List T)
    (count : Nat) (fp : FILE) (D : HashSet) :
    (ReadToVectorAndDelete values count fp D).1
        = decide (count ≤ (fp.data.length - fp.pos) / Pod.size T)
      ∧ ((ReadToVectorAndDelete values count fp D).1 = true →
          (ReadToVectorAndDelete values count fp D).2.2
            = { fp with pos := fp.pos + count * Pod.size T }) := by
  unfold ReadToVectorAndDelete ReadToVector
  by_cases h0 : count = 0
  · subst h0; simp
  · simp only [h0, if_false, ReadArray_eq]
    by_cases h : count ≤ (fp.data.length - fp.pos) / Pod.size T
    · simp [h]
    · simp [h]

theorem readVectors_short (v : Vectors) (c1 c2 c3 c4 : Int) (fp : FILE) (D E : HashSet)
    (h : fp.data.length - fp.pos
      < 8 * toSizeT c1 + 12 * toSizeT c2 + 40 * toSizeT c3 + 40 * toSizeT c4) :
    (readVectors v c1 c2 c3 c4 fp D E).1 = false := by
  unfold readVectors
  split
  · rfl
  · rename_i l1 f1 h1
    obtain ⟨a1, b1⟩ := ReadToVectorAndDelete_fst v.add_prefixes (toSizeT c1) fp D
    rw [h1] at a1 b1
    simp only [true_implies, Pod.size] at a1 b1
    have a1 := of_decide_eq_true a1.symm
    simp only
    split
    · rfl
    · rename_i l2 f2 h2
      obtain ⟨a2, b2⟩ := ReadToVectorAndDelete_fst v.sub_prefixes (toSizeT c2) f1 E
      rw [h2] at a2 b2
      simp only [true_implies, Pod.size] at a2 b2
      have a2 := of_decide_eq_true a2.symm
      split
      · rfl
      · rename_i l3 f3 h3
        obtain ⟨a3, b3⟩ := ReadToVectorAndDelete_fst v.add_full_hashes (toSizeT c3) f2 D
        rw [h3] at a3 b3
        simp only [true_implies, Pod.size] at a3 b3
        have a3 := of_decide_eq_true a3.symm
        split
        · rfl
        · rename_i l4 f4 h4
          obtain ⟨a4, b4⟩ := ReadToVectorAndDelete_fst v.sub_full_hashes (toSizeT c4) f3 E
          rw [h4] at a4 b4
          simp only [true_implies, Pod.size] at a4 b4
          have a4 := of_decide_eq_true a4.symm
          exfalso
          subst b1 b2 b3
          simp only at a2 a3 a4
          rw [Nat.le_div_iff_mul_le (by decide)] at a1 a2 a3 a4
          omega

theorem DoUpdate.readFile_corrupt (env : Faults) (w : World) (f : FILE)
    (he : w.store.empty_ = false) (hf : w.store.file_ = some f)
    (h : env.seek_old = false ∨ f.data.length < 32
      ∨ (headerOf f.data).magic ≠ kFileMagic ∨ (headerOf f.data).version ≠ kFileVersion
      ∨ f.data.length < 32 + 4 * toSizeT (headerOf f.data).add_chunk_count
          + 4 * toSizeT (headerOf f.data).sub_chunk_count
          + 8 * toSizeT (headerOf f.data).add_prefix_count
          + 12 * toSizeT (headerOf f.data).sub_prefix_count
          + 40 * toSizeT (headerOf f.data).add_hash_count
          + 40 * toSizeT (headerOf f.data).sub_hash_count) :
    (DoUpdate.readFile env w).1 = false := by
  unfold DoUpdate.readFile
  simp only [he, hf, FileRewind, Bool.false_eq_true, if_false]
  cases hs : env.seek_old with
  | false => simp
  | true =>
    simp only [if_true, ReadArray_eq, Pod.size, Nat.sub_zero, List.drop_zero]
    by_cases hl : 1 ≤ f.data.length / 32
    · simp only [hl, if_true, decodeItems, List.headD_cons]
      have hl32 : 32 ≤ f.data.length := by
        rw [Nat.le_div_iff_mul_le (by decide)] at hl; omega
      rw [show (Pod.get (List.take (Pod.size FileHeader) f.data) : FileHeader) = headerOf f.data
        from rfl]
      by_cases hbad : (headerOf f.data).magic ≠ kFileMagic
          ∨ (headerOf f.data).version ≠ kFileVersion
      · simp only [hbad, if_true]
      · simp only [hbad, if_false, ReadToChunkSet_eq, Nat.zero_add, Nat.one_mul]
        by_cases ha : toSizeT (headerOf f.data).add_chunk_count ≤ (f.data.length - 32) / 4
        · simp only [ha, if_true]
          by_cases hsb : toSizeT (headerOf f.data).sub_chunk_count
              ≤ (f.data.length - (32 + toSizeT (headerOf f.data).add_chunk_count * 4)) / 4
          · simp only [hsb, if_true]
            have hshort := readVectors_short
              { add_prefixes := [], sub_prefixes := [], add_full_hashes := [],
                sub_full_hashes := [] }
              (headerOf f.data).add_prefix_count (headerOf f.data).sub_prefix_count
              (headerOf f.data).add_hash_count (headerOf f.data).sub_hash_count
              { data := f.data,
                pos := 32 + toSizeT (headerOf f.data).add_chunk_count * 4
                  + toSizeT (headerOf f.data).sub_chunk_count * 4,
                room := f.room }
              w.store.add_del_cache_ w.store.sub_del_cache_
              (by
                simp only
                rw [Nat.le_div_iff_mul_le (by decide)] at ha hsb
                rcases h with h | h | h | h | h
                · simp [hs] at h
                · omega
                · exact absurd (Or.inl h) hbad
                · exact absurd (Or.inr h) hbad
                · omega)
            split
            · rfl
            · rename_i heq
              rw [heq] at hshort
              simp at hshort
          · simp only [hsb, if_false]
        · simp only [ha, if_false]
    · simp only [hl, if_false]

theorem DoUpdate_merge_false (P : Vectors → Vectors) (env : Faults)
    (pending : List SBAddFullHash) (r1 : List SBAddPrefix) (r2 : List SBAddFullHash) (w : World)
    (h : (DoUpdate.merge env pending w).1 = false) :
    (DoUpdate P env pending r1 r2 w).1 = false := by
  unfold DoUpdate
  split
  · rfl
  · rename_i heq
    rw [heq] at h
    simp at h

/-- C10. Absent committed file means empty store. Let the temporary file be
created, on a store that holds no stream and no known chunk id (as
`BeginUpdate` requires). If the committed file does not exist, `BeginUpdate`
returns true, marks the session as starting from an empty store, keeps the
stream of the temporary file and none of the committed file, leaves both
known-chunk-id sets empty and does not run the corruption callback. If the
committed file exists but cannot be opened, `BeginUpdate` returns false and
the callback runs once when one is registered. -/
theorem absent_committed_file (env : Faults) (w : World)
    (hnew : env.open_new = true)
    (hf : w.store.file_ = none) (hA : w.store.add_chunks_cache_ = [])
    (hS : w.store.sub_chunks_cache_ = []) :
    (w.disk.committed = none →
        (BeginUpdate env w).1 = true
          ∧ (BeginUpdate env w).2.store.empty_ = true
          ∧ (BeginUpdate env w).2.store.file_ = none
          ∧ (BeginUpdate env w).2.store.new_file_
              = some { data := [], pos := 0, room := env.room }
          ∧ (BeginUpdate env w).2.store.add_chunks_cache_ = []
          ∧ (BeginUpdate env w).2.store.sub_chunks_cache_ = []
          ∧ (BeginUpdate env w).2.callback_runs = w.callback_runs)
      ∧ (w.disk.committed ≠ none → env.open_old = false →
          (BeginUpdate env w).1 = false
            ∧ (BeginUpdate env w).2.callback_runs
                = w.callback_runs + (if w.store.corruption_callback_ then 1 else 0)) := by
  constructor
  · intro hc
    unfold BeginUpdate
    simp [file_util.OpenFileWrite, hnew, file_util.OpenFileRead, hc, file_util.PathExists, hf,
      hA, hS]
  · intro hc ho
    obtain ⟨bytes, hb⟩ := Option.ne_none_iff_exists'.1 hc
    unfold BeginUpdate
    simp only [file_util.OpenFileWrite, hnew, if_true, file_util.OpenFileRead, hb, ho,
      Bool.false_eq_true, if_false, file_util.PathExists, Option.isSome_some,
      Option.isNone_none]
    exact ⟨(OnCorruptDatabase_frame _).1, (OnCorruptDatabase_frame _).2.2.2⟩

/-- An absent committed file (C10): `BeginUpdate` on a store without committed
file, and on one whose committed file cannot be opened. -/
theorem absent_committed_file_witness :
    ((BeginUpdate sampleEnv sampleFresh).1 = true
        ∧ (BeginUpdate sampleEnv sampleFresh).2.store.empty_ = true
        ∧ (BeginUpdate sampleEnv sampleFresh).2.store.file_ = none
        ∧ (BeginUpdate sampleEnv sampleFresh).2.store.new_file_
            = some { data := [], pos := 0, room := sampleEnv.room }
        ∧ (BeginUpdate sampleEnv sampleFresh).2.store.add_chunks_cache_ = []
        ∧ (BeginUpdate sampleEnv sampleFresh).2.store.sub_chunks_cache_ = []
        ∧ (BeginUpdate sampleEnv sampleFresh).2.callback_runs = sampleFresh.callback_runs)
      ∧ ((BeginUpdate sampleEnvNoOpen sampleClosed).1 = false
        ∧ (BeginUpdate sampleEnvNoOpen sampleClosed).2.callback_runs
            = sampleClosed.callback_runs
              + (if sampleClosed.store.corruption_callback_ then 1 else 0)) :=
  ⟨(absent_committed_file sampleEnv sampleFresh rfl rfl rfl rfl).1 rfl,
   (absent_committed_file sampleEnvNoOpen sampleClosed rfl rfl rfl rfl).2 (by decide) rfl⟩

/-! ## FinishChunk -/

theorem WriteArray_fst {T : Type} [Pod T] [LawfulPod T] (items : List T) (fp : FILE) :
    (WriteArray items fp).1 = decide (items.length * Pod.size T ≤ fp.room) := by
  unfold WriteArray fwrite
  simp only
  have hs : 0 < Pod.size T := LawfulPod.size_pos
  by_cases h : items.length * Pod.size T ≤ fp.room
  · have hk : min items.length (fp.room / Pod.size T) = items.length :=
      Nat.min_eq_left ((Nat.le_div_iff_mul_le hs).2 h)
    simp [hk, h]
  · have hk : min items.length (fp.room / Pod.size T) ≠ items.length := by
      intro hk
      have : items.length ≤ fp.room / Pod.size T := by
        rw [← hk]; exact Nat.min_le_right _ _
      exact h ((Nat.le_div_iff_mul_le hs).1 this)
    simp [hk, h]

theorem WriteVector_fst {T : Type} [Pod T] [LawfulPod T] (items : List T) (fp : FILE) :
    (WriteVector items fp).1 = decide (items.length * Pod.size T ≤ fp.room) := by
  unfold WriteVector
  cases items with
  | nil => simp
  | cons x xs => simpa using WriteArray_fst (x :: xs) fp

/-- C13. `FinishChunk` with all four pending buffers empty returns true and
leaves the whole state as it was: nothing is written to the temporary file,
`chunks_written_` and every other field of the session are unchanged. -/
theorem finish_chunk_empty_noop (w : World)
    (h1 : w.store.add_prefixes_ = []) (h2 : w.store.sub_prefixes_ = [])
    (h3 : w.store.add_hashes_ = []) (h4 : w.store.sub_hashes_ = []) :
    FinishChunk w = (true, w) := by
  unfold FinishChunk
  simp [h1, h2, h3, h4]

/-- The no-op of C13 on the session `BeginUpdate` has just opened. -/
theorem finish_chunk_empty_noop_witness : FinishChunk sampleOpen = (true, sampleOpen) :=
  finish_chunk_empty_noop sampleOpen (by decide!) (by decide!) (by decide!) (by decide!)

theorem FinishChunk_false_frame (w : World) (b : Bool) (w1 : World)
    (h : FinishChunk w = (b, w1)) (hb : b = false) :
    w1.store.add_prefixes_ = w.store.add_prefixes_
      ∧ w1.store.sub_prefixes_ = w.store.sub_prefixes_
      ∧ w1.store.add_hashes_ = w.store.add_hashes_
      ∧ w1.store.sub_hashes_ = w.store.sub_hashes_
      ∧ w1.store.chunks_written_ = w.store.chunks_written_ := by
  subst hb
  unfold FinishChunk at h
  simp only at h
  split at h
  · simp at h
  · split at h
    · simp only [Prod.mk.injEq, true_and] at h; subst h; simp
    · split at h
      · simp only [Prod.mk.injEq, true_and] at h; subst h; simp
      · split at h
        · simp only [Prod.mk.injEq, true_and] at h; subst h; simp
        · split at h
          · simp only [Prod.mk.injEq, true_and] at h; subst h; simp
          · split at h
            · simp only [Prod.mk.injEq, true_and] at h; subst h; simp
            · split at h
              · simp only [Prod.mk.injEq, true_and] at h; subst h; simp
              · simp [ClearChunkBuffers] at h

theorem chunkBytes_length (c : Vectors) :
    (chunkBytes c).length = 16 + 8 * c.add_prefixes.length + 12 * c.sub_prefixes.length
      + 40 * c.add_full_hashes.length + 40 * c.sub_full_hashes.length := by
  simp only [chunkBytes, List.length_append, encodeItems_length, Pod.size, List.length_cons,
    List.length_nil]
  omega

theorem Vectors.nonEmpty_iff (c : Vectors) :
    c.nonEmpty = true ↔ ¬ (c.add_prefixes.length = 0 ∧ c.sub_prefixes.length = 0
      ∧ c.add_full_hashes.length = 0 ∧ c.sub_full_hashes.length = 0) := by
  unfold Vectors.nonEmpty
  exact decide_eq_true_iff

theorem FinishChunk_ok (w : World) (nf : FILE) (hnf : w.store.new_file_ = some nf)
    (hne : (pendingBuffers w.store).nonEmpty = true) (hp : nf.pos ≤ nf.data.length)
    (hroom : (chunkBytes (pendingBuffers w.store)).length ≤ nf.room) :
    FinishChunk w
      = (true, { w with store := { w.store with
          new_file_ := some (nf.write (chunkBytes (pendingBuffers w.store))),
          chunks_written_ := w.store.chunks_written_ + 1,
          add_prefixes_ := [], sub_prefixes_ := [], add_hashes_ := [], sub_hashes_ := [] } }) := by
  rw [chunkBytes_length] at hroom
  rw [Vectors.nonEmpty_iff] at hne
  simp only [pendingBuffers] at hroom hne
  unfold FinishChunk
  simp only [hne, if_false, hnf]
  have e0 : (⟨toInt32 w.store.add_prefixes_.length, toInt32 w.store.sub_prefixes_.length,
      toInt32 w.store.add_hashes_.length, toInt32 w.store.sub_hashes_.length⟩ : ChunkHeader)
      = chunkHeaderOf (pendingBuffers w.store) := rfl
  rw [e0]
  rw [WriteArray_ok [chunkHeaderOf (pendingBuffers w.store)] nf (by simp [Pod.size]; omega)]
  simp only
  have p1 := FILE.write_pos_le nf (encodeItems [chunkHeaderOf (pendingBuffers w.store)]) hp
  rw [WriteVector_ok w.store.add_prefixes_ _ p1
    (by simp only [FILE.write_room, encodeItems_length, Pod.size, List.length_cons,
          List.length_nil]; omega)]
  simp only [FILE.write_write _ _ _ hp]
  have p2 := FILE.write_pos_le nf (encodeItems [chunkHeaderOf (pendingBuffers w.store)]
    ++ encodeItems w.store.add_prefixes_) hp
  rw [WriteVector_ok w.store.sub_prefixes_ _ p2
    (by simp only [FILE.write_room, encodeItems_length, Pod.size, List.length_cons,
          List.length_nil, List.length_append]; omega)]
  simp only [FILE.write_write _ _ _ hp]
  have p3 := FILE.write_pos_le nf ((encodeItems [chunkHeaderOf (pendingBuffers w.store)]
    ++ encodeItems w.store.add_prefixes_) ++ encodeItems w.store.sub_prefixes_) hp
  rw [WriteVector_ok w.store.add_hashes_ _ p3
    (by simp only [FILE.write_room, encodeItems_length, Pod.size, List.length_cons,
          List.length_nil, List.length_append]; omega)]
  simp only [FILE.write_write _ _ _ hp]
  have p4 := FILE.write_pos_le nf (((encodeItems [chunkHeaderOf (pendingBuffers w.store)]
    ++ encodeItems w.store.add_prefixes_) ++ encodeItems w.store.sub_prefixes_)
    ++ encodeItems w.store.add_hashes_) hp
  rw [WriteVector_ok w.store.sub_hashes_ _ p4
    (by simp only [FILE.write_room, encodeItems_length, Pod.size, List.length_cons,
          List.length_nil, List.length_append]; omega)]
  simp only [FILE.write_write _ _ _ hp, ClearChunkBuffers, chunkBytes, pendingBuffers,
    List.append_assoc]

theorem WriteArray_room {T : Type} [Pod T] [LawfulPod T] (items : List T) (fp fp1 : FILE)
    (h : WriteArray items fp = (true, fp1)) :
    items.length * Pod.size T ≤ fp.room ∧ fp1.room = fp.room - items.length * Pod.size T := by
  have a := WriteArray_fst items fp
  rw [h] at a
  have e := WriteArray_true _ _ _ h
  refine ⟨of_decide_eq_true a.symm, ?_⟩
  rw [e, FILE.write_room, encodeItems_length]

theorem WriteVector_room {T : Type} [Pod T] [LawfulPod T] (items : List T) (fp fp1 : FILE)
    (h : WriteVector items fp = (true, fp1)) :
    items.length * Pod.size T ≤ fp.room ∧ fp1.room = fp.room - items.length * Pod.size T := by
  unfold WriteVector at h
  cases items with
  | nil =>
    simp only [List.isEmpty_nil, if_true, Prod.mk.injEq, true_and] at h
    subst h; simp
  | cons x xs =>
    simp only [List.isEmpty_cons, Bool.false_eq_true, if_false] at h
    exact WriteArray_room _ _ _ h

theorem FinishChunk_short (w : World) (nf : FILE) (hnf : w.store.new_file_ = some nf)
    (hne : (pendingBuffers w.store).nonEmpty = true)
    (hroom : nf.room < (chunkBytes (pendingBuffers w.store)).length) :
    (FinishChunk w).1 = false := by
  rw [chunkBytes_length] at hroom
  rw [Vectors.nonEmpty_iff] at hne
  simp only [pendingBuffers] at hroom hne
  unfold FinishChunk
  simp only [hne, if_false, hnf]
  split
  · rfl
  · rename_i f1 h1
    obtain ⟨a1, b1⟩ := WriteArray_room _ _ _ h1
    split
    · rfl
    · rename_i f2 h2
      obtain ⟨a2, b2⟩ := WriteVector_room _ _ _ h2
      split
      · rfl
      · rename_i f3 h3
        obtain ⟨a3, b3⟩ := WriteVector_room _ _ _ h3
        split
        · rfl
        · rename_i f4 h4
          obtain ⟨a4, b4⟩ := WriteVector_room _ _ _ h4
          split
          · rfl
          · rename_i f5 h5
            obtain ⟨a5, b5⟩ := WriteVector_room _ _ _ h5
            exfalso
            simp only [Pod.size, List.length_cons, List.length_nil] at a1 b1 a2 b2 a3 b3 a4 b4 a5
            omega

theorem fwrite_full {T : Type} [Pod T] [LawfulPod T] (items : List T) (fp : FILE)
    (h : items.length * Pod.size T ≤ fp.room) :
    (fwrite items fp).1 = items.length
      ∧ (fwrite items fp).2.room = fp.room - items.length * Pod.size T := by
  have hs : 0 < Pod.size T := LawfulPod.size_pos
  have hk : min items.length (fp.room / Pod.size T) = items.length :=
    Nat.min_eq_left ((Nat.le_div_iff_mul_le hs).2 h)
  unfold fwrite
  simp only [hk, List.take_length, FILE.write_room, encodeItems_length]
  exact ⟨trivial, trivial⟩

theorem chunkWrites_full (c : Vectors) (fp : FILE)
    (h : (chunkBytes c).length ≤ fp.room) : ∀ p ∈ chunkWrites c fp, p.1 = p.2 := by
  rw [chunkBytes_length] at h
  unfold chunkWrites
  split
  · obtain ⟨a0, b0⟩ := fwrite_full [chunkHeaderOf c] fp (by simp [Pod.size]; omega)
    obtain ⟨a1, b1⟩ := fwrite_full c.add_prefixes (fwrite [chunkHeaderOf c] fp).2
      (by rw [b0]; simp [Pod.size]; omega)
    obtain ⟨a2, b2⟩ := fwrite_full c.sub_prefixes
      (fwrite c.add_prefixes (fwrite [chunkHeaderOf c] fp).2).2
      (by rw [b1, b0]; simp [Pod.size]; omega)
    obtain ⟨a3, b3⟩ := fwrite_full c.add_full_hashes
      (fwrite c.sub_prefixes (fwrite c.add_prefixes (fwrite [chunkHeaderOf c] fp).2).2).2
      (by rw [b2, b1, b0]; simp [Pod.size]; omega)
    obtain ⟨a4, _⟩ := fwrite_full c.sub_full_hashes
      (fwrite c.add_full_hashes
        (fwrite c.sub_prefixes (fwrite c.add_prefixes (fwrite [chunkHeaderOf c] fp).2).2).2).2
      (by rw [b3, b2, b1, b0]; simp [Pod.size]; omega)
    intro p hp
    simp only [List.mem_cons, List.mem_singleton, List.not_mem_nil, or_false] at hp
    rcases hp with rfl | rfl | rfl | rfl | rfl
    · simpa using a0
    · exact a1
    · exact a2
    · exact a3
    · exact a4
  · intro p hp; simp at hp

/-- A short write fails the chunk: when one of the `fwrite` calls of
`FinishChunk` takes fewer items than it was asked to write, the call returns
false. -/
theorem FinishChunk_short_write (w : World) (nf : FILE) (hnf : w.store.new_file_ = some nf)
    (hshort : ∃ p ∈ chunkWrites (pendingBuffers w.store) nf, p.1 < p.2) :
    (FinishChunk w).1 = false := by
  obtain ⟨p, hp, hlt⟩ := hshort
  have hne : (pendingBuffers w.store).nonEmpty = true := by
    cases hc : (pendingBuffers w.store).nonEmpty
    · simp [chunkWrites, hc] at hp
    · rfl
  refine FinishChunk_short w nf hnf hne ?_
  by_contra hroom
  have := chunkWrites_full _ nf (Nat.le_of_not_lt hroom) p hp
  omega

/-- C14. Failed chunk write keeps caller state. Whenever `FinishChunk` returns
false, the four pending buffers and `chunks_written_` are exactly as before
the call; and when one of the writes of the chunk, the `fwrite` of the header
or of one of the four arrays, comes back short (the buffered stream took fewer
items than asked), `FinishChunk` returns false, with the buffers and the
counter as before. -/
theorem failed_chunk_write (w : World) :
    ((FinishChunk w).1 = false →
        (FinishChunk w).2.store.add_prefixes_ = w.store.add_prefixes_
          ∧ (FinishChunk w).2.store.sub_prefixes_ = w.store.sub_prefixes_
          ∧ (FinishChunk w).2.store.add_hashes_ = w.store.add_hashes_
          ∧ (FinishChunk w).2.store.sub_hashes_ = w.store.sub_hashes_
          ∧ (FinishChunk w).2.store.chunks_written_ = w.store.chunks_written_)
      ∧ (∀ nf, w.store.new_file_ = some nf →
          (∃ p ∈ chunkWrites (pendingBuffers w.store) nf, p.1 < p.2) →
          (FinishChunk w).1 = false
            ∧ (FinishChunk w).2.store.add_prefixes_ = w.store.add_prefixes_
            ∧ (FinishChunk w).2.store.sub_prefixes_ = w.store.sub_prefixes_
            ∧ (FinishChunk w).2.store.add_hashes_ = w.store.add_hashes_
            ∧ (FinishChunk w).2.store.sub_hashes_ = w.store.sub_hashes_
            ∧ (FinishChunk w).2.store.chunks_written_ = w.store.chunks_written_) :=
  ⟨fun h => FinishChunk_false_frame w (FinishChunk w).1 (FinishChunk w).2 rfl h,
   fun nf hnf hshort =>
    ⟨FinishChunk_short_write w nf hnf hshort,
     FinishChunk_false_frame w (FinishChunk w).1 (FinishChunk w).2 rfl
       (FinishChunk_short_write w nf hnf hshort)⟩⟩

set_option maxRecDepth 100000 in
/-- A failed chunk write (C14) on `sampleFullDevice`: the stream takes the chunk
header and 102 of the 4096 add full hashes, the `fwrite` of the add full
hashes comes back short, `FinishChunk` returns false and the caller's buffers
and chunk counter are as before. -/
theorem failed_chunk_write_witness :
    (fwrite sampleFullDevice.store.add_hashes_
        (fwrite [chunkHeaderOf (pendingBuffers sampleFullDevice.store)]
          (FILE.mk [] 0 4096)).2).1 = 102
      ∧ (FinishChunk sampleFullDevice).1 = false
      ∧ (FinishChunk sampleFullDevice).2.store.add_prefixes_
          = sampleFullDevice.store.add_prefixes_
      ∧ (FinishChunk sampleFullDevice).2.store.sub_prefixes_
          = sampleFullDevice.store.sub_prefixes_
      ∧ (FinishChunk sampleFullDevice).2.store.add_hashes_
          = sampleFullDevice.store.add_hashes_
      ∧ (FinishChunk sampleFullDevice).2.store.sub_hashes_
          = sampleFullDevice.store.sub_hashes_
      ∧ (FinishChunk sampleFullDevice).2.store.chunks_written_
          = sampleFullDevice.store.chunks_written_ :=
  ⟨by decide!,
   (failed_chunk_write sampleFullDevice).2 (FILE.mk [] 0 4096) (by decide!)
     ⟨(102, 4096), by decide!, by decide!⟩⟩

theorem chunksBytes_append (a b : List Vectors) :
    chunksBytes (a ++ b) = chunksBytes a ++ chunksBytes b := by
  induction a with
  | nil => rfl
  | cons c cs ih => simp [chunksBytes, ih]

theorem Vectors.survivors_nil (v : Vectors) : Vectors.survivors [] [] v = v := by
  cases v
  simp [Vectors.survivors, SafeBrowsing.keepLive, HashSet.count]

theorem Vectors.append_nil (v : Vectors) : Vectors.append v Vectors.nil = v := by
  cases v; simp [Vectors.append, Vectors.nil]

theorem Vectors.nil_append (v : Vectors) : Vectors.append Vectors.nil v = v := by
  cases v; simp [Vectors.append, Vectors.nil]

theorem Vectors.append_assoc (a b c : Vectors) :
    Vectors.append (Vectors.append a b) c = Vectors.append a (Vectors.append b c) := by
  simp [Vectors.append]

theorem Vectors.concat_append (a b : List Vectors) :
    Vectors.concat (a ++ b) = Vectors.append (Vectors.concat a) (Vectors.concat b) := by
  induction a with
  | nil => simp [Vectors.concat, Vectors.nil_append]
  | cons c cs ih => simp [Vectors.concat, ih, Vectors.append_assoc]

theorem Vectors.eq_nil_of_not_nonEmpty (c : Vectors) (h : c.nonEmpty = false) :
    c = Vectors.nil := by
  have h' : ¬ (c.nonEmpty = true) := by simp [h]
  rw [Vectors.nonEmpty_iff] at h'
  simp only [not_not, List.length_eq_zero] at h'
  cases c
  simp only [Vectors.nil, Vectors.mk.injEq]
  exact h'

theorem Vectors.concat_filter_nonEmpty (l : List Vectors) :
    Vectors.concat (l.filter Vectors.nonEmpty) = Vectors.concat l := by
  induction l with
  | nil => rfl
  | cons c cs ih =>
    cases hc : c.nonEmpty with
    | true => simp [List.filter_cons, hc, Vectors.concat, ih]
    | false =>
      simp only [List.filter_cons, hc, Bool.false_eq_true, if_false, Vectors.concat, ih]
      rw [Vectors.eq_nil_of_not_nonEmpty c hc, Vectors.nil_append]

theorem fillBuffers_pending (c : Vectors) (s : SafeBrowsingStoreFile)
    (h : pendingBuffers s = Vectors.nil) : pendingBuffers (fillBuffers c s) = c := by
  simp only [pendingBuffers, Vectors.nil, Vectors.mk.injEq] at h
  obtain ⟨h1, h2, h3, h4⟩ := h
  cases c
  simp [pendingBuffers, fillBuffers, h1, h2, h3, h4]

theorem fillBuffers_nil (s : SafeBrowsingStoreFile) : fillBuffers Vectors.nil s = s := by
  cases s
  simp [fillBuffers, Vectors.nil]

theorem FinishChunk_step (w w1 : World) (prev : List Vectors) (c : Vectors)
    (hst : TempAtEnd w prev)
    (h : FinishChunk { w with store := fillBuffers c w.store } = (true, w1)) :
    TempAtEnd w1 (prev ++ [c].filter Vectors.nonEmpty) := by
  obtain ⟨⟨nf, hnf, hdata, hpos⟩, hcount, hbuf⟩ := hst
  have hpend : pendingBuffers (fillBuffers c w.store) = c := fillBuffers_pending c _ hbuf
  cases hc : c.nonEmpty with
  | false =>
    have hnil := Vectors.eq_nil_of_not_nonEmpty c hc
    subst hnil
    rw [fillBuffers_nil] at h
    have hw : FinishChunk w = (true, w) := by
      simp only [pendingBuffers, Vectors.nil, Vectors.mk.injEq] at hbuf
      unfold FinishChunk
      simp [hbuf.1, hbuf.2.1, hbuf.2.2.1, hbuf.2.2.2]
    rw [hw] at h
    simp only [Prod.mk.injEq, true_and] at h
    subst h
    simp only [List.filter_cons, hc, Bool.false_eq_true, if_false, List.filter_nil,
      List.append_nil]
    exact ⟨⟨nf, hnf, hdata, hpos⟩, hcount, hbuf⟩
  | true =>
    have hnf' : ({ w with store := fillBuffers c w.store } : World).store.new_file_ = some nf := by
      simp [fillBuffers, hnf]
    have hne : (pendingBuffers ({ w with store := fillBuffers c w.store } : World).store).nonEmpty
        = true := by
      simp only [hpend, hc]
    have hroom : (chunkBytes (pendingBuffers
        ({ w with store := fillBuffers c w.store } : World).store)).length ≤ nf.room := by
      by_contra hlt
      have := FinishChunk_short _ nf hnf' hne (by omega)
      rw [h] at this
      simp at this
    have hok := FinishChunk_ok _ nf hnf' hne (by omega) hroom
    rw [hok] at h
    simp only [Prod.mk.injEq, true_and] at h
    subst h
    simp only [hpend, List.filter_cons, hc, if_true, List.filter_nil]
    refine ⟨⟨nf.write (chunkBytes c), rfl, ?_, ?_⟩, ?_, ?_⟩
    · rw [FILE.write_split nf nf.data [] (chunkBytes c) (by simp) hpos]
      simp [hdata, chunksBytes_append, chunksBytes]
    · rw [FILE.write_split nf nf.data [] (chunkBytes c) (by simp) hpos]
      simp
    · simp [fillBuffers, hcount]
    · simp [pendingBuffers, Vectors.nil]

theorem finishChunks_spec (calls : List Vectors) :
    ∀ (w w1 : World) (prev : List Vectors), TempAtEnd w prev →
      finishChunks calls w = (true, w1) →
      TempAtEnd w1 (prev ++ calls.filter Vectors.nonEmpty) := by
  induction calls with
  | nil =>
    intro w w1 prev hst h
    simp only [finishChunks, Prod.mk.injEq, true_and] at h
    subst h
    simpa using hst
  | cons c cs ih =>
    intro w w1 prev hst h
    simp only [finishChunks] at h
    split at h
    · simp at h
    · rename_i w2 h2
      have hst2 := FinishChunk_step w w2 prev c hst h2
      have := ih w2 w1 _ hst2 h
      have e : prev ++ (c :: cs).filter Vectors.nonEmpty
          = prev ++ [c].filter Vectors.nonEmpty ++ cs.filter Vectors.nonEmpty := by
        cases hc : c.nonEmpty <;> simp [List.filter_cons, hc]
      rw [e]
      exact this

/-- C12. Round trip of the temporary chunk file. Take an open session between
two chunks, whose temporary file holds the chunk records `prev` (none right
after `BeginUpdate`), and a sequence `calls` of chunks handed to `FinishChunk`
one after the other, all calls returning true (records fit their machine
types, fewer than `2^31` per buffer). Then `chunks_written_` is the number of
chunk records in the temporary file, one more for each call with a non-empty
buffer; the file is the sequence of those records, each a header with the four
buffer lengths followed by the four buffers; and the chunk loop of `DoUpdate`,
run with empty deletion sets from the start of the file, succeeds and appends
to the working vectors exactly the buffers, kind by kind, in call order. -/
theorem chunk_file_round_trip (calls prev : List Vectors) (w w1 : World) (v : Vectors)
    (hst : TempAtEnd w prev)
    (hprev : ∀ c ∈ prev, Vectors.WF c) (hcalls : ∀ c ∈ calls, Vectors.WF c)
    (hrun : finishChunks calls w = (true, w1)) :
    w1.store.chunks_written_ = prev.length + (calls.filter Vectors.nonEmpty).length
      ∧ ∃ nf1, w1.store.new_file_ = some nf1
          ∧ nf1.data = chunksBytes (prev ++ calls.filter Vectors.nonEmpty)
          ∧ (DoUpdate.readChunks [] [] w1.store.chunks_written_ v { nf1 with pos := 0 }).1 = true
          ∧ (DoUpdate.readChunks [] [] w1.store.chunks_written_ v { nf1 with pos := 0 }).2.1
              = Vectors.append v (Vectors.append (Vectors.concat prev) (Vectors.concat calls)) := by
  obtain ⟨⟨nf1, hnf1, hdata, _⟩, hcount, _⟩ := finishChunks_spec calls w w1 prev hst hrun
  refine ⟨by simpa using hcount, nf1, hnf1, hdata, ?_⟩
  have hwf : ∀ c ∈ prev ++ calls.filter Vectors.nonEmpty, Vectors.WF c := by
    intro c hc
    rcases List.mem_append.1 hc with h | h
    · exact hprev c h
    · exact hcalls c (List.mem_of_mem_filter h)
  have hrest : FILE.rest { nf1 with pos := 0 }
      = chunksBytes (prev ++ calls.filter Vectors.nonEmpty) ++ [] := by
    simp [FILE.rest, hdata]
  obtain ⟨fp1, hread⟩ := DoUpdate.readChunks_ok [] [] (prev ++ calls.filter Vectors.nonEmpty) v
    { nf1 with pos := 0 } [] hrest hwf
  rw [hcount, hread]
  simp [Vectors.survivors_nil, Vectors.concat_append, Vectors.concat_filter_nonEmpty]

set_option maxRecDepth 8000 in
/-- The round trip of C12 on the session `BeginUpdate` has just opened and the
four chunks of `sampleCalls`, one of them empty. -/
theorem chunk_file_round_trip_witness :
    (finishChunks sampleCalls sampleOpen).2.store.chunks_written_
        = ([] : List Vectors).length + (sampleCalls.filter Vectors.nonEmpty).length
      ∧ ∃ nf1, (finishChunks sampleCalls sampleOpen).2.store.new_file_ = some nf1
          ∧ nf1.data = chunksBytes ([] ++ sampleCalls.filter Vectors.nonEmpty)
          ∧ (DoUpdate.readChunks [] [] (finishChunks sampleCalls sampleOpen).2.store.chunks_written_
              Vectors.nil { nf1 with pos := 0 }).1 = true
          ∧ (DoUpdate.readChunks [] [] (finishChunks sampleCalls sampleOpen).2.store.chunks_written_
              Vectors.nil { nf1 with pos := 0 }).2.1
              = Vectors.append Vectors.nil
                  (Vectors.append (Vectors.concat []) (Vectors.concat sampleCalls)) :=
  chunk_file_round_trip sampleCalls [] sampleOpen (finishChunks sampleCalls sampleOpen).2
    Vectors.nil
    ⟨⟨{ data := [], pos := 0, room := 4096 }, by decide!, rfl, rfl⟩, by decide!, by decide!⟩
    (by decide) (by decide!) (by decide!)

/-! ## Short reads return no partial data -/

theorem ReadToVector_eq {T : Type} [Pod T] (values : List T) (count : Nat) (fp : FILE) :
    ReadToVector values count fp
      = if count ≤ (fp.data.length - fp.pos) / Pod.size T then
          (true, values ++ decodeItems count (fp.data.drop fp.pos),
            { fp with pos := fp.pos + count * Pod.size T })
        else (false, values, { fp with pos := fp.data.length }) := by
  unfold ReadToVector
  by_cases h0 : count = 0
  · subst h0
    simp [decodeItems]
  · simp only [h0, if_false, ReadArray_eq]
    by_cases h : count ≤ (fp.data.length - fp.pos) / Pod.size T
    · simp [h]
    · simp [h]

theorem ReadToVectorAndDelete_zero {T : Type} [Pod T] [HasChunkId T] (values : List T)
    (fp : FILE) (D : HashSet) : ReadToVectorAndDelete values 0 fp D = (true, values, fp) := by
  unfold ReadToVectorAndDelete
  simp only [ReadToVector, if_true]
  rw [RemoveDeleted_eq _ _ _ (Nat.le_refl _)]
  simp

/-- C20. `RemoveDeleted` is the in-place form of a stable filter on a suffix.
For every vector `v`, offset not above its length and deletion set `D`, the
copy-down loop followed by the erase gives the list `take offset v ++ filter
(chunk id not in D) (drop offset v)`: the first `offset` elements are those of
`v`, deleted or not, and what follows is exactly the elements of the rest of
`v` whose chunk id is not in `D`, in their original order. -/
theorem remove_deleted_stable_filter {T : Type} [HasChunkId T] (v : List T) (offset : Nat)
    (D : HashSet) (h : offset ≤ v.length) :
    RemoveDeleted v offset D = stableFilterFrom v offset D
      ∧ (RemoveDeleted v offset D).take offset = v.take offset
      ∧ (RemoveDeleted v offset D).drop offset
          = (v.drop offset).filter (fun x => decide (HasChunkId.chunk_id x ∉ D)) := by
  have hf : (fun x : T => decide (HashSet.count D (HasChunkId.chunk_id x) = 0))
      = (fun x : T => decide (HasChunkId.chunk_id x ∉ D)) := by
    funext x
    by_cases hx : HasChunkId.chunk_id x ∈ D <;> simp [HashSet.count, hx]
  have he := RemoveDeleted_eq v offset D h
  rw [hf] at he
  have hl : (v.take offset).length = offset := by simp [h]
  refine ⟨he, ?_, ?_⟩
  · rw [he, List.take_left' hl]
  · rw [he, List.drop_left' hl]

/-- The stable filter of C20 on five add prefixes, from offset 2, with chunks 1
and 3 deleted: the two first elements stay although they belong to chunk 1. -/
theorem remove_deleted_stable_filter_witness :
    RemoveDeleted ([⟨1, 10⟩, ⟨1, 11⟩, ⟨3, 12⟩, ⟨2, 13⟩, ⟨1, 14⟩] : List SBAddPrefix) 2 [1, 3]
        = stableFilterFrom ([⟨1, 10⟩, ⟨1, 11⟩, ⟨3, 12⟩, ⟨2, 13⟩, ⟨1, 14⟩] : List SBAddPrefix) 2
            [1, 3]
      ∧ (RemoveDeleted ([⟨1, 10⟩, ⟨1, 11⟩, ⟨3, 12⟩, ⟨2, 13⟩, ⟨1, 14⟩] : List SBAddPrefix) 2
          [1, 3]).take 2
          = ([⟨1, 10⟩, ⟨1, 11⟩, ⟨3, 12⟩, ⟨2, 13⟩, ⟨1, 14⟩] : List SBAddPrefix).take 2
      ∧ (RemoveDeleted ([⟨1, 10⟩, ⟨1, 11⟩, ⟨3, 12⟩, ⟨2, 13⟩, ⟨1, 14⟩] : List SBAddPrefix) 2
          [1, 3]).drop 2
          = (([⟨1, 10⟩, ⟨1, 11⟩, ⟨3, 12⟩, ⟨2, 13⟩, ⟨1, 14⟩] : List SBAddPrefix).drop 2).filter
              (fun x => decide (HasChunkId.chunk_id x ∉ ([1, 3] : HashSet))) :=
  remove_deleted_stable_filter ([⟨1, 10⟩, ⟨1, 11⟩, ⟨3, 12⟩, ⟨2, 13⟩, ⟨1, 14⟩] : List SBAddPrefix)
    2 [1, 3] (by decide)

/-! ## The committed file is self-consistent -/

theorem toInt32_of_lt (n : Nat) (h : n < 2147483648) : toInt32 n = (n : Int) := by
  unfold toInt32
  simp only
  have : n % 4294967296 = n := Nat.mod_eq_of_lt (by omega)
  rw [this, if_pos h]

theorem headerOf_committedBytes (A S : ChunkSet) (v : Vectors) (tail : List Byte) :
    headerOf (committedBytes A S v ++ tail) = committedHeader A S v := by
  have hl : (Pod.put (committedHeader A S v)).length = 32 :=
    LawfulPod.put_length (committedHeader A S v)
  unfold headerOf committedBytes
  simp only [encodeItems, List.append_nil, List.append_assoc]
  rw [List.take_left' hl]
  exact LawfulPod.get_put _ (committedHeader_wf A S v)

theorem drop_committedBytes (A S : ChunkSet) (v : Vectors) (tail : List Byte) :
    (committedBytes A S v ++ tail).drop 32
      = encodeItems (T := Int) A ++ (encodeItems (T := Int) S ++ (encodeItems v.add_prefixes
          ++ (encodeItems v.sub_prefixes ++ (encodeItems v.add_full_hashes
          ++ (encodeItems v.sub_full_hashes ++ tail))))) := by
  have hl : (Pod.put (committedHeader A S v)).length = 32 :=
    LawfulPod.put_length (committedHeader A S v)
  unfold committedBytes
  simp only [encodeItems, List.append_nil, List.append_assoc]
  rw [List.drop_left' hl]

/-- Self-consistency of the committed file when the last flush lands. Whenever
`FinishUpdate` succeeds and the flush at the close of the temporary stream
lands every byte, whatever the sub-cancellation primitive does, a committed
file is left; its first 32 bytes decode to a header with the magic and the
version constants; the bytes after the header are, in this order, the array of
the add
known-chunk-id set `A`, the array of the sub known-chunk-id set `S`, and the
arrays of add prefixes, sub prefixes, add full hashes and sub full hashes of
`v` (then the leftover bytes of the temporary file), where `A` and `S` are the
sets kept by the update, `v` is the processed merge and its add prefixes and
add full hashes are the results handed to the caller; and the six counts of
the header are, in that same order, the sizes of these six arrays stored into
an `int32`, that is the sizes themselves for arrays shorter than `2^31`. -/
theorem committed_file_self_consistent (P : Vectors → Vectors) (env : Faults)
    (pending : List SBAddFullHash) (r1 : List SBAddPrefix) (r2 : List SBAddFullHash) (w : World)
    (ap : List SBAddPrefix) (ah : List SBAddFullHash) (w1 : World)
    (hflush : env.flush_new = none)
    (h : FinishUpdate P env pending r1 r2 w = (true, ap, ah, w1)) :
    ∃ (bytes tail : List Byte) (A S : ChunkSet) (v : Vectors) (v3 : Vectors) (wm : World),
      w1.disk.committed = some bytes
      ∧ DoUpdate.merge env pending w = (true, v3, wm) ∧ v = P v3
      ∧ A = DeleteChunksFromSet wm.store.add_del_cache_ wm.store.add_chunks_cache_
      ∧ S = DeleteChunksFromSet wm.store.sub_del_cache_ wm.store.sub_chunks_cache_
      ∧ v.add_prefixes = ap ∧ v.add_full_hashes = ah
      ∧ (headerOf bytes).magic = kFileMagic ∧ (headerOf bytes).version = kFileVersion
      ∧ bytes.drop 32
          = encodeItems (T := Int) A ++ (encodeItems (T := Int) S ++ (encodeItems v.add_prefixes
              ++ (encodeItems v.sub_prefixes ++ (encodeItems v.add_full_hashes
              ++ (encodeItems v.sub_full_hashes ++ tail)))))
      ∧ (headerOf bytes).add_chunk_count = toInt32 A.length
      ∧ (headerOf bytes).sub_chunk_count = toInt32 S.length
      ∧ (headerOf bytes).add_prefix_count = toInt32 v.add_prefixes.length
      ∧ (headerOf bytes).sub_prefix_count = toInt32 v.sub_prefixes.length
      ∧ (headerOf bytes).add_hash_count = toInt32 v.add_full_hashes.length
      ∧ (headerOf bytes).sub_hash_count = toInt32 v.sub_full_hashes.length
      ∧ (A.length < 2147483648 → (headerOf bytes).add_chunk_count = (A.length : Int))
      ∧ (S.length < 2147483648 → (headerOf bytes).sub_chunk_count = (S.length : Int))
      ∧ (v.add_prefixes.length < 2147483648 →
          (headerOf bytes).add_prefix_count = (v.add_prefixes.length : Int))
      ∧ (v.sub_prefixes.length < 2147483648 →
          (headerOf bytes).sub_prefix_count = (v.sub_prefixes.length : Int))
      ∧ (v.add_full_hashes.length < 2147483648 →
          (headerOf bytes).add_hash_count = (v.add_full_hashes.length : Int))
      ∧ (v.sub_full_hashes.length < 2147483648 →
          (headerOf bytes).sub_hash_count = (v.sub_full_hashes.length : Int)) := by
  obtain ⟨wd, hd, hc⟩ := FinishUpdate_true _ _ _ _ _ _ _ _ _ h
  obtain ⟨v3, wm, nf, hm, hnf, hap, hah, _, _, hnone, _, hdisk⟩ := DoUpdate_true _ _ _ _ _ _ _ _ _ hd
  have hfile : w1.disk.committed = some
      (committedBytes
          (DeleteChunksFromSet wm.store.add_del_cache_ wm.store.add_chunks_cache_)
          (DeleteChunksFromSet wm.store.sub_del_cache_ wm.store.sub_chunks_cache_)
          (P v3)
        ++ nf.data.drop (committedBytes
          (DeleteChunksFromSet wm.store.add_del_cache_ wm.store.add_chunks_cache_)
          (DeleteChunksFromSet wm.store.sub_del_cache_ wm.store.sub_chunks_cache_)
          (P v3)).length) := by
    rw [hc]
    simp only [Close, closeNewFile, hnone, hdisk, hflush, landed_none]
  refine ⟨_, _, _, _, _, v3, wm, hfile, hm, rfl, rfl, rfl, hap.symm, hah.symm, ?_, ?_,
    drop_committedBytes _ _ _ _, ?_, ?_, ?_, ?_, ?_, ?_, ?_, ?_, ?_, ?_, ?_, ?_⟩
  all_goals rw [headerOf_committedBytes]
  all_goals first
    | rfl
    | (intro hlt; exact toInt32_of_lt _ hlt)

/-- The committed file left by the successful `FinishUpdate` of `sampleSession`,
in which the last flush lands, is self-consistent. -/
theorem committed_file_self_consistent_witness :
    ∃ (bytes tail : List Byte) (A S : ChunkSet) (v : Vectors) (v3 : Vectors) (wm : World),
      (FinishUpdate SBProcessSubs sampleEnv samplePending [] [] sampleSession).2.2.2.disk.committed
        = some bytes
      ∧ DoUpdate.merge sampleEnv samplePending sampleSession = (true, v3, wm)
      ∧ v = SBProcessSubs v3
      ∧ A = DeleteChunksFromSet wm.store.add_del_cache_ wm.store.add_chunks_cache_
      ∧ S = DeleteChunksFromSet wm.store.sub_del_cache_ wm.store.sub_chunks_cache_
      ∧ v.add_prefixes
          = (FinishUpdate SBProcessSubs sampleEnv samplePending [] [] sampleSession).2.1
      ∧ v.add_full_hashes
          = (FinishUpdate SBProcessSubs sampleEnv samplePending [] [] sampleSession).2.2.1
      ∧ (headerOf bytes).magic = kFileMagic ∧ (headerOf bytes).version = kFileVersion
      ∧ bytes.drop 32
          = encodeItems (T := Int) A ++ (encodeItems (T := Int) S ++ (encodeItems v.add_prefixes
              ++ (encodeItems v.sub_prefixes ++ (encodeItems v.add_full_hashes
              ++ (encodeItems v.sub_full_hashes ++ tail)))))
      ∧ (headerOf bytes).add_chunk_count = toInt32 A.length
      ∧ (headerOf bytes).sub_chunk_count = toInt32 S.length
      ∧ (headerOf bytes).add_prefix_count = toInt32 v.add_prefixes.length
      ∧ (headerOf bytes).sub_prefix_count = toInt32 v.sub_prefixes.length
      ∧ (headerOf bytes).add_hash_count = toInt32 v.add_full_hashes.length
      ∧ (headerOf bytes).sub_hash_count = toInt32 v.sub_full_hashes.length
      ∧ (A.length < 2147483648 → (headerOf bytes).add_chunk_count = (A.length : Int))
      ∧ (S.length < 2147483648 → (headerOf bytes).sub_chunk_count = (S.length : Int))
      ∧ (v.add_prefixes.length < 2147483648 →
          (headerOf bytes).add_prefix_count = (v.add_prefixes.length : Int))
      ∧ (v.sub_prefixes.length < 2147483648 →
          (headerOf bytes).sub_prefix_count = (v.sub_prefixes.length : Int))
      ∧ (v.add_full_hashes.length < 2147483648 →
          (headerOf bytes).add_hash_count = (v.add_full_hashes.length : Int))
      ∧ (v.sub_full_hashes.length < 2147483648 →
          (headerOf bytes).sub_hash_count = (v.sub_full_hashes.length : Int)) :=
  committed_file_self_consistent SBProcessSubs sampleEnv samplePending [] [] sampleSession
    (FinishUpdate SBProcessSubs sampleEnv samplePending [] [] sampleSession).2.1
    (FinishUpdate SBProcessSubs sampleEnv samplePending [] [] sampleSession).2.2.1
    (FinishUpdate SBProcessSubs sampleEnv samplePending [] [] sampleSession).2.2.2
    rfl (by decide!)

/-! ## How a session ends, and Delete -/

theorem Close_closed (env : Faults) (w : World) : SessionClosed (Close env w).2.store := by
  simp [Close, ClearUpdateBuffers, ClearChunkBuffers, SessionClosed]

/-- C18. Every session ends Closed. After `FinishUpdate` returns, whatever its
result, its arguments, the faults of the environment and the state it was
called in, and after `CancelUpdate` returns, the store holds neither the
handle of the committed file nor that of the temporary file, and the
known-chunk-id sets, the deletion sets, the four pending buffers and the chunk
counter are cleared; `CancelUpdate` always returns true and leaves the
committed file as it was. -/
theorem every_session_ends_closed (P : Vectors → Vectors) (env : Faults)
    (pending : List SBAddFullHash) (r1 : List SBAddPrefix) (r2 : List SBAddFullHash)
    (w : World) :
    SessionClosed (FinishUpdate P env pending r1 r2 w).2.2.2.store
      ∧ SessionClosed (CancelUpdate env w).2.store
      ∧ (CancelUpdate env w).1 = true
      ∧ (CancelUpdate env w).2.disk.committed = w.disk.committed := by
  refine ⟨?_, Close_closed env w, rfl, (Close_frame env w).1⟩
  rw [FinishUpdate_eq]
  exact Close_closed _ _

/-- C19. `Delete`. For every state of the store and the disk and every outcome
of the two removals, `Delete` returns true exactly when the removal of the
committed file succeeded or no committed file exists, and the removal of the
temporary file succeeded or no temporary file exists; when it returns true
neither file exists afterwards; when the removal of an existing committed file
fails it returns false at once, the temporary file being left as it was after
the close; and when the removal of an existing temporary file fails it returns
false with that file still there. -/
theorem delete_result (env : Faults) (w : World) :
    ((Delete env w).1 = true
        ↔ (env.delete_old = true ∨ w.disk.committed = none)
          ∧ (env.delete_new = true ∨ w.disk.temporary = none))
      ∧ ((Delete env w).1 = true →
          (Delete env w).2.disk.committed = none ∧ (Delete env w).2.disk.temporary = none)
      ∧ (env.delete_old = false → w.disk.committed ≠ none →
          (Delete env w).1 = false ∧ (Delete env w).2.disk = (Close env w).2.disk
            ∧ (Delete env w).2.disk.committed = w.disk.committed)
      ∧ (env.delete_new = false → w.disk.temporary ≠ none →
          (Delete env w).1 = false ∧ (Delete env w).2.disk.temporary ≠ none) := by
  obtain ⟨st, ⟨c, t⟩, n⟩ := w
  unfold Delete file_util.Delete file_util.PathExists
  simp only [Close]
  cases h1 : env.delete_old <;> cases h2 : env.delete_new
    <;> cases c <;> cases t <;> cases h5 : st.new_file_
    <;> simp [closeNewFile]

/-- The outcomes of `Delete` (C19): on a store with both files when the removal
of the committed file fails, and on `sampleClosed` when nothing fails. -/
theorem delete_result_witness :
    ((Delete { sampleEnv with delete_old := false }
          { sampleClosed with disk := { committed := some sampleCommitted,
                                         temporary := some [] } }).1 = false
        ∧ (Delete { sampleEnv with delete_old := false }
          { sampleClosed with disk := { committed := some sampleCommitted,
                                         temporary := some [] } }).2.disk.committed
            = some sampleCommitted)
      ∧ ((Delete sampleEnv sampleClosed).1 = true
        ∧ (Delete sampleEnv sampleClosed).2.disk.committed = none
        ∧ (Delete sampleEnv sampleClosed).2.disk.temporary = none) :=
  ⟨⟨((delete_result { sampleEnv with delete_old := false }
        { sampleClosed with disk := { committed := some sampleCommitted,
                                       temporary := some [] } }).2.2.1 rfl (by simp)).1,
    ((delete_result { sampleEnv with delete_old := false }
        { sampleClosed with disk := { committed := some sampleCommitted,
                                       temporary := some [] } }).2.2.1 rfl (by simp)).2.2⟩,
   ⟨(delete_result sampleEnv sampleClosed).1.2 ⟨Or.inl rfl, Or.inl rfl⟩,
    (delete_result sampleEnv sampleClosed).2.1
      ((delete_result sampleEnv sampleClosed).1.2 ⟨Or.inl rfl, Or.inl rfl⟩)⟩⟩

/-! ## A failed BeginUpdate -/

theorem OnCorruptDatabase_store (w w1 : World) (b : Bool) (h : OnCorruptDatabase w = (b, w1)) :
    w1.store = w.store := by
  have := (OnCorruptDatabase_frame w).2.1
  rw [h] at this
  exact this

theorem BeginUpdate_false_frame (env : Faults) (w w1 : World) (hc : SessionClosed w.store)
    (h : BeginUpdate env w = (false, w1)) :
    w1.store.file_ = none ∧ w1.store.new_file_ = none
      ∧ w1.store.sub_chunks_cache_ = []
      ∧ w1.store.add_del_cache_ = [] ∧ w1.store.sub_del_cache_ = []
      ∧ w1.store.add_prefixes_ = [] ∧ w1.store.sub_prefixes_ = []
      ∧ w1.store.add_hashes_ = [] ∧ w1.store.sub_hashes_ = []
      ∧ w1.store.chunks_written_ = 0 := by
  obtain ⟨c1, c2, c3, c4, c5, c6, c7, c8, c9, c10, c11⟩ := hc
  unfold BeginUpdate at h
  simp only at h
  split at h
  · simp only [Prod.mk.injEq, true_and] at h
    subst h
    exact ⟨c1, c2, c4, c5, c6, c7, c8, c9, c10, c11⟩
  · split at h
    · split at h
      · rw [OnCorruptDatabase_store _ _ _ h]
        exact ⟨c1, c2, c4, c5, c6, c7, c8, c9, c10, c11⟩
      · simp at h
    · split at h
      · rw [OnCorruptDatabase_store _ _ _ h]
        exact ⟨c1, c2, c4, c5, c6, c7, c8, c9, c10, c11⟩
      · split at h
        · rw [OnCorruptDatabase_store _ _ _ h]
          exact ⟨c1, c2, c4, c5, c6, c7, c8, c9, c10, c11⟩
        · split at h
          · rw [OnCorruptDatabase_store _ _ _ h]
            exact ⟨c1, c2, c4, c5, c6, c7, c8, c9, c10, c11⟩
          · split at h
            · rename_i hr
              rw [OnCorruptDatabase_store _ _ _ h]
              rw [ReadToChunkSet_eq] at hr
              split at hr
              · simp at hr
              · simp only [Prod.mk.injEq, true_and] at hr
                refine ⟨c1, c2, ?_, c5, c6, c7, c8, c9, c10, c11⟩
                simp only
                rw [← hr.1]
                exact c4
            · simp at h

set_option maxRecDepth 8000 in
/-- C17 fails in the code. `sampleCut` is a closed store, in the state
`BeginUpdate` requires, over a committed file whose header announces one add
chunk id and one sub chunk id and which ends after the add chunk id. On it
`BeginUpdate` returns false at the short read of the sub chunk-id array, and
the add known-chunk-id set then holds the id 7 read just before: the store is
not in the state `BeginUpdate` requires. -/
theorem begin_update_failure_keeps_add_chunks :
    SessionClosed sampleCut.store
      ∧ (BeginUpdate sampleEnv sampleCut).1 = false
      ∧ (BeginUpdate sampleEnv sampleCut).2.store.add_chunks_cache_ = [7]
      ∧ (BeginUpdate sampleEnv sampleCut).2.store.file_ = none
      ∧ (BeginUpdate sampleEnv sampleCut).2.store.new_file_ = none
      ∧ ¬ SessionClosed (BeginUpdate sampleEnv sampleCut).2.store := by
  decide!

/-! ## An empty session -/

theorem ChunkSet.insert_mem (x : Int) (s : ChunkSet) (hok : ChunkSet.ok s) (hx : x ∈ s) :
    ChunkSet.insert x s = s := by
  induction s with
  | nil => simp at hx
  | cons y ys ih =>
    unfold ChunkSet.ok at hok
    rw [List.pairwise_cons] at hok
    rcases List.mem_cons.mp hx with rfl | hmem
    · simp [ChunkSet.insert]
    · have hlt : y < x := hok.1 x hmem
      have h1 : ¬ x < y := by omega
      have h2 : ¬ x = y := by omega
      simp only [ChunkSet.insert, h1, h2, if_false]
      rw [ih hok.2 hmem]

theorem ChunkSet.insertRange_subset (l : List Int) (s : ChunkSet) (hok : ChunkSet.ok s)
    (hl : ∀ x ∈ l, x ∈ s) : ChunkSet.insertRange s l = s := by
  induction l with
  | nil => rfl
  | cons x xs ih =>
    simp only [ChunkSet.insertRange, List.foldl_cons]
    rw [ChunkSet.insert_mem x s hok (hl x (List.mem_cons_self _ _))]
    exact ih (fun y hy => hl y (List.mem_cons_of_mem _ hy))

theorem BeginUpdate_ok (env : Faults) (w : World) (A S : ChunkSet) (items : Vectors)
    (tail : List Byte)
    (hnew : env.open_new = true) (hopen : env.open_old = true)
    (hfile : w.disk.committed = some (committedBytes A S items ++ tail))
    (hcA : w.store.add_chunks_cache_ = []) (hcS : w.store.sub_chunks_cache_ = [])
    (okA : ChunkSet.ok A) (okS : ChunkSet.ok S)
    (wA : ∀ x ∈ A, isInt32 x) (wS : ∀ x ∈ S, isInt32 x)
    (lA : A.length < 2147483648) (lS : S.length < 2147483648) :
    BeginUpdate env w
      = (true, { w with
          store := { w.store with
            empty_ := false, add_chunks_cache_ := A, sub_chunks_cache_ := S,
            file_ := some { data := committedBytes A S items ++ tail,
                            pos := 32 + A.length * 4 + S.length * 4, room := 0 },
            new_file_ := some { data := [], pos := 0, room := env.room } },
          disk := { w.disk with temporary := some [] } }) := by
  have hlen : (committedBytes A S items ++ tail).length
      = 32 + 4 * A.length + 4 * S.length + 8 * items.add_prefixes.length
        + 12 * items.sub_prefixes.length + 40 * items.add_full_hashes.length
        + 40 * items.sub_full_hashes.length + tail.length := by
    rw [List.length_append, committedBytes_length]
  rw [BeginUpdate_header env w _ hnew hopen hfile (by omega), headerOf_committedBytes]
  have hm : ¬ ((committedHeader A S items).magic ≠ kFileMagic
      ∨ (committedHeader A S items).version ≠ kFileVersion) := by
    simp [committedHeader]
  have eA : toSizeT (committedHeader A S items).add_chunk_count = A.length :=
    toSizeT_toInt32 _ lA
  have eS : toSizeT (committedHeader A S items).sub_chunk_count = S.length :=
    toSizeT_toInt32 _ lS
  have h1 : A.length ≤ ((committedBytes A S items ++ tail).length - 32) / 4 := by
    rw [Nat.le_div_iff_mul_le (by decide)]; omega
  have h2 : S.length ≤ ((committedBytes A S items ++ tail).length - (32 + A.length * 4)) / 4 := by
    rw [Nat.le_div_iff_mul_le (by decide)]; omega
  have dA : decodeItems A.length ((committedBytes A S items ++ tail).drop 32) = A := by
    rw [drop_committedBytes]
    exact decodeItems_encodeItems A _ wA
  have dS : decodeItems S.length ((committedBytes A S items ++ tail).drop (32 + A.length * 4))
      = S := by
    rw [← List.drop_drop, drop_committedBytes]
    have hla : (encodeItems (T := Int) A).length = A.length * 4 := by
      rw [encodeItems_length]; simp [Pod.size]
    rw [List.drop_left' hla]
    exact decodeItems_encodeItems S _ wS
  have iA := ChunkSet.insertRange_sorted A [] (by simpa using okA)
  have iS := ChunkSet.insertRange_sorted S [] (by simpa using okS)
  simp only [List.nil_append] at iA iS
  simp only [hm, if_false, eA, eS, h1, h2, if_true, dA, dS, hcA, hcS, iA, iS]

theorem DoUpdate.merge_no_chunks (env : Faults) (w : World) (f nf : FILE) (A S : ChunkSet)
    (items : Vectors) (tail : List Byte)
    (hempty : w.store.empty_ = false) (hfile : w.store.file_ = some f)
    (hseek : env.seek_old = true)
    (hdata : f.data = committedBytes A S items ++ tail)
    (wA : ∀ x ∈ A, isInt32 x) (wS : ∀ x ∈ S, isInt32 x) (hwf : Vectors.WF items)
    (lA : A.length < 2147483648) (lS : S.length < 2147483648)
    (hnf : w.store.new_file_ = some nf) (hseek2 : env.seek_new = true)
    (hcw : w.store.chunks_written_ = 0) :
    DoUpdate.merge env [] w
      = (true, Vectors.survivors w.store.add_del_cache_ w.store.sub_del_cache_ items,
         { w with store := { w.store with
             add_chunks_cache_ := ChunkSet.insertRange w.store.add_chunks_cache_ A,
             sub_chunks_cache_ := ChunkSet.insertRange w.store.sub_chunks_cache_ S,
             file_ := none, new_file_ := some { nf with pos := 0 } } }) := by
  obtain ⟨w1, w2, w3, w4, l1, l2, l3, l4⟩ := hwf
  unfold DoUpdate.merge
  rw [DoUpdate.readFile_ok env w f A S items tail hempty hfile hseek hdata wA wS w1 w2 w3 w4
    lA lS l1 l2 l3 l4]
  simp [hnf, FileRewind, hseek2, hcw, DoUpdate.readChunks, DoUpdate.appendPending,
    Vectors.survivors]

theorem DoUpdate_ok_fst (P : Vectors → Vectors) (env : Faults) (pending : List SBAddFullHash)
    (r1 : List SBAddPrefix) (r2 : List SBAddFullHash) (w : World) (v3 : Vectors) (wm : World)
    (nf : FILE) (t : List Byte)
    (hm : DoUpdate.merge env pending w = (true, v3, wm))
    (hnf : wm.store.new_file_ = some nf)
    (hseek : env.seek_new_again = true)
    (hroom : (committedBytes
        (DeleteChunksFromSet wm.store.add_del_cache_ wm.store.add_chunks_cache_)
        (DeleteChunksFromSet wm.store.sub_del_cache_ wm.store.sub_chunks_cache_) (P v3)).length
          ≤ nf.room)
    (hdel : env.delete_old = true ∨ wm.disk.committed = none)
    (hmove : env.move = true) (htmp : wm.disk.temporary = some t) :
    (DoUpdate P env pending r1 r2 w).1 = true := by
  unfold DoUpdate
  rw [hm]
  simp only [hnf, FileRewind, hseek, if_true]
  rw [DoUpdate.writeFile_ok _ _ _ { nf with pos := 0 } (Nat.zero_le _) hroom]
  simp only [closeNewFile, htmp, Option.map_some', file_util.Delete, file_util.PathExists,
    file_util.Move, hmove]
  rcases hdel with hd | hd
  · simp [hd]
  · cases hdo : env.delete_old <;> simp [hd]

theorem Vectors.survivors_none (v : Vectors) : Vectors.survivors [] [] v = v := by
  cases v
  simp [Vectors.survivors, SafeBrowsing.keepLive, HashSet.count]

set_option maxRecDepth 8000 in
/-- C11 as stated fails with the sub-cancellation of the spec. The committed
file of `sampleCancellable` is valid and holds the add prefix `0xAAAA` of chunk
1 and a sub prefix that targets it. `BeginUpdate` followed directly by
`FinishUpdate`, with no pending adds, no finished chunk and empty deletion
sets, succeeds, and the new committed file holds no record at all: the pair
was cancelled, so the content is not the content read. -/
theorem empty_session_counterexample :
    sampleCancellable.disk.committed = some (committedBytes [1] [2] sampleCancellableItems)
      ∧ (BeginUpdate sampleEnv sampleCancellable).1 = true
      ∧ (FinishUpdate SBProcessSubs sampleEnv [] [] []
          (BeginUpdate sampleEnv sampleCancellable).2).1 = true
      ∧ (FinishUpdate SBProcessSubs sampleEnv [] [] []
          (BeginUpdate sampleEnv sampleCancellable).2).2.2.2.disk.committed
          = some (committedBytes [1] [2] Vectors.nil)
      ∧ (FinishUpdate SBProcessSubs sampleEnv [] [] []
          (BeginUpdate sampleEnv sampleCancellable).2).2.2.2.disk.committed
          ≠ sampleCancellable.disk.committed := by
  decide!

/-- C11, amended. Take a closed store over a committed file that holds the
known-chunk-id sets `A`, `S` and the records `items` (sets sorted, every field
fitting its machine type, each array shorter than `2^31`), an environment in
which no open, seek, delete or move fails and the temporary stream takes the
result. Then `BeginUpdate` succeeds, and after the caller asks for the
deletion of the add chunks `D` and the sub chunks `E`, `FinishUpdate` with no
pending adds and no finished chunk succeeds, whatever the sub-cancellation
primitive `P` is, and the new committed file holds what the flush at the
close of the temporary stream landed of the layout of `A` without the ids of
`D`, `S` without the ids of `E`, and `P` applied to the records of `items`
whose chunk is not deleted. When that flush does not fail either, the new
committed file is exactly this layout: so the content is the one read with
the deleted chunks removed whenever `P` leaves these records as they are, and
with empty deletion sets it is the content read whenever `P` leaves `items` as
it is. -/
theorem empty_session_content (P : Vectors → Vectors) (env : Faults) (w : World)
    (A S : ChunkSet) (items : Vectors) (tail : List Byte) (D E : HashSet)
    (r1 : List SBAddPrefix) (r2 : List SBAddFullHash)
    (hclosed : SessionClosed w.store)
    (hfile : w.disk.committed = some (committedBytes A S items ++ tail))
    (okA : ChunkSet.ok A) (okS : ChunkSet.ok S)
    (wA : ∀ x ∈ A, isInt32 x) (wS : ∀ x ∈ S, isInt32 x) (hwf : Vectors.WF items)
    (lA : A.length < 2147483648) (lS : S.length < 2147483648)
    (hnew : env.open_new = true) (hopen : env.open_old = true)
    (hseek : env.seek_old = true) (hseek2 : env.seek_new = true)
    (hseek3 : env.seek_new_again = true) (hdel : env.delete_old = true)
    (hmove : env.move = true)
    (hroom : (committedBytes (A.filter (fun c => decide (c ∉ D)))
        (S.filter (fun c => decide (c ∉ E))) (P (Vectors.survivors D E items))).length
          ≤ env.room) :
    (BeginUpdate env w).1 = true
      ∧ (FinishUpdate P env [] r1 r2 (requestDeletions D E (BeginUpdate env w).2)).1 = true
      ∧ (FinishUpdate P env [] r1 r2
          (requestDeletions D E (BeginUpdate env w).2)).2.2.2.disk.committed
          = some (landed env.flush_new (committedBytes (A.filter (fun c => decide (c ∉ D)))
              (S.filter (fun c => decide (c ∉ E))) (P (Vectors.survivors D E items))))
      ∧ (env.flush_new = none →
          (FinishUpdate P env [] r1 r2
            (requestDeletions D E (BeginUpdate env w).2)).2.2.2.disk.committed
            = some (committedBytes (A.filter (fun c => decide (c ∉ D)))
                (S.filter (fun c => decide (c ∉ E))) (P (Vectors.survivors D E items)))
          ∧ (P (Vectors.survivors D E items) = Vectors.survivors D E items →
              (FinishUpdate P env [] r1 r2
                (requestDeletions D E (BeginUpdate env w).2)).2.2.2.disk.committed
                = some (committedBytes (A.filter (fun c => decide (c ∉ D)))
                    (S.filter (fun c => decide (c ∉ E))) (Vectors.survivors D E items)))
          ∧ (D = [] → E = [] → P items = items →
              (FinishUpdate P env [] r1 r2
                (requestDeletions D E (BeginUpdate env w).2)).2.2.2.disk.committed
                = some (committedBytes A S items))) := by
  obtain ⟨c1, c2, c3, c4, c5, c6, c7, c8, c9, c10, c11⟩ := hclosed
  have hb := BeginUpdate_ok env w A S items tail hnew hopen hfile c3 c4 okA okS wA wS lA lS
  have hmerge := DoUpdate.merge_no_chunks env (requestDeletions D E (BeginUpdate env w).2)
    { data := committedBytes A S items ++ tail, pos := 32 + A.length * 4 + S.length * 4,
      room := 0 }
    { data := [], pos := 0, room := env.room } A S items tail
    (by rw [hb]; rfl) (by rw [hb]; rfl) hseek rfl wA wS hwf lA lS (by rw [hb]; rfl) hseek2
    (by rw [hb]; exact c11)
  have eA : (requestDeletions D E (BeginUpdate env w).2).store.add_chunks_cache_ = A := by
    rw [hb]; rfl
  have eS : (requestDeletions D E (BeginUpdate env w).2).store.sub_chunks_cache_ = S := by
    rw [hb]; rfl
  have eD : (requestDeletions D E (BeginUpdate env w).2).store.add_del_cache_ = D := rfl
  have eE : (requestDeletions D E (BeginUpdate env w).2).store.sub_del_cache_ = E := rfl
  rw [eA, eS, eD, eE, ChunkSet.insertRange_subset A A okA (fun _ h => h),
    ChunkSet.insertRange_subset S S okS (fun _ h => h)] at hmerge
  have htmp : (requestDeletions D E (BeginUpdate env w).2).disk.temporary = some [] := by
    rw [hb]; rfl
  have hfst := DoUpdate_ok_fst P env [] r1 r2 _ _ _ { data := [], pos := 0, room := env.room }
    [] hmerge rfl hseek3
    (by simpa only [DeleteChunksFromSet_eq_filter, eD, eE] using hroom)
    (Or.inl hdel) hmove htmp
  have hd : DoUpdate P env [] r1 r2 (requestDeletions D E (BeginUpdate env w).2)
      = (true, (DoUpdate P env [] r1 r2 (requestDeletions D E (BeginUpdate env w).2)).2.1,
          (DoUpdate P env [] r1 r2 (requestDeletions D E (BeginUpdate env w).2)).2.2.1,
          (DoUpdate P env [] r1 r2 (requestDeletions D E (BeginUpdate env w).2)).2.2.2) := by
    rw [← hfst]
  obtain ⟨v3, wm, nf, hm, hnf, _, _, _, _, _, _, hdisk⟩ := DoUpdate_true _ _ _ _ _ _ _ _ _ hd
  rw [hmerge] at hm
  simp only [Prod.mk.injEq, true_and] at hm
  obtain ⟨hv, hw⟩ := hm
  subst hv
  subst hw
  simp only [Option.some.injEq] at hnf
  subst hnf
  simp only [eD, eE, DeleteChunksFromSet_eq_filter, List.drop_nil, List.append_nil] at hdisk
  have hcom : (FinishUpdate P env [] r1 r2
      (requestDeletions D E (BeginUpdate env w).2)).2.2.2.disk.committed
      = some (landed env.flush_new (committedBytes (A.filter (fun c => decide (c ∉ D)))
          (S.filter (fun c => decide (c ∉ E))) (P (Vectors.survivors D E items)))) := by
    rw [FinishUpdate_eq]
    simp only
    rw [(Close_frame _ _).1, hdisk]
  refine ⟨by rw [hb], ?_, hcom, ?_⟩
  · rw [FinishUpdate_eq]; exact hfst
  · intro hflush
    rw [hflush, landed_none] at hcom
    refine ⟨hcom, ?_, ?_⟩
    · intro hP
      rw [hcom, hP]
    · intro hD hE hP
      subst hD
      subst hE
      rw [hcom, Vectors.survivors_none, hP]
      simp

set_option maxRecDepth 8000 in
/-- The amended C11 on `sampleClosed`, with the sub-cancellation of the spec
and the deletion of add chunk 1: the empty session succeeds and leaves the
sets `[2]` and `[3]` and the records of `sampleItems` that are not of add
chunk 1, which sub-cancellation leaves as they are. -/
theorem empty_session_content_witness :
    (BeginUpdate sampleEnv sampleClosed).1 = true
      ∧ (FinishUpdate SBProcessSubs sampleEnv [] [] []
          (requestDeletions [1] [] (BeginUpdate sampleEnv sampleClosed).2)).1 = true
      ∧ (FinishUpdate SBProcessSubs sampleEnv [] [] []
          (requestDeletions [1] [] (BeginUpdate sampleEnv sampleClosed).2)).2.2.2.disk.committed
          = some (committedBytes (([1, 2] : ChunkSet).filter (fun c => decide (c ∉ ([1] : HashSet))))
              (([3] : ChunkSet).filter (fun c => decide (c ∉ ([] : HashSet))))
              (Vectors.survivors [1] [] sampleItems)) :=
  ⟨(empty_session_content SBProcessSubs sampleEnv sampleClosed [1, 2] [3] sampleItems [] [1] []
      [] [] (by decide) (by simp [sampleClosed, sampleCommitted, sampleItems]) (by decide)
      (by decide) (by decide) (by decide) (by decide) (by decide) (by decide) rfl rfl rfl rfl
      rfl rfl rfl (by decide!)).1,
   (empty_session_content SBProcessSubs sampleEnv sampleClosed [1, 2] [3] sampleItems [] [1] []
      [] [] (by decide) (by simp [sampleClosed, sampleCommitted, sampleItems]) (by decide)
      (by decide) (by decide) (by decide) (by decide) (by decide) (by decide) rfl rfl rfl rfl
      rfl rfl rfl (by decide!)).2.1,
   ((empty_session_content SBProcessSubs sampleEnv sampleClosed [1, 2] [3] sampleItems [] [1] []
      [] [] (by decide) (by simp [sampleClosed, sampleCommitted, sampleItems]) (by decide)
      (by decide) (by decide) (by decide) (by decide) (by decide) (by decide) rfl rfl rfl rfl
      rfl rfl rfl (by decide!)).2.2.2 rfl).2.1 (by decide!)⟩

/-! ## The result vectors -/

/-- C24. Result vectors are untouched on failure. Whenever `FinishUpdate`
returns false, whatever the state, the faults, the pending adds and the
sub-cancellation primitive, the two result vectors it hands back are exactly
the caller's `add_prefixes_result` and `add_full_hashes_result` as they were
passed in. -/
theorem result_vectors_untouched_on_failure (P : Vectors → Vectors) (env : Faults)
    (pending : List SBAddFullHash) (r1 : List SBAddPrefix) (r2 : List SBAddFullHash)
    (w : World) (h : (FinishUpdate P env pending r1 r2 w).1 = false) :
    (FinishUpdate P env pending r1 r2 w).2.1 = r1
      ∧ (FinishUpdate P env pending r1 r2 w).2.2.1 = r2 := by
  rw [FinishUpdate_eq] at h ⊢
  exact (DoUpdate_frame P env pending r1 r2 w (DoUpdate P env pending r1 r2 w).1
    (DoUpdate P env pending r1 r2 w).2.1 (DoUpdate P env pending r1 r2 w).2.2.1
    (DoUpdate P env pending r1 r2 w).2.2.2 rfl).2.2.1 h

set_option maxRecDepth 8000 in
/-- The result vectors (C24) after the `FinishUpdate` of `sampleSession` whose
final move fails: they still hold what the caller passed in. -/
theorem result_vectors_untouched_on_failure_witness :
    (FinishUpdate SBProcessSubs sampleEnvMoveFails samplePending [⟨9, 99⟩] [⟨9, 999, 0⟩]
        sampleSession).2.1 = [⟨9, 99⟩]
      ∧ (FinishUpdate SBProcessSubs sampleEnvMoveFails samplePending [⟨9, 99⟩] [⟨9, 999, 0⟩]
        sampleSession).2.2.1 = [⟨9, 999, 0⟩] :=
  result_vectors_untouched_on_failure SBProcessSubs sampleEnvMoveFails samplePending [⟨9, 99⟩]
    [⟨9, 999, 0⟩] sampleSession (by decide!)

theorem DoUpdate_results_indep (P : Vectors → Vectors) (env : Faults)
    (pending : List SBAddFullHash) (r1 s1 : List SBAddPrefix) (r2 s2 : List SBAddFullHash)
    (w : World) :
    (DoUpdate P env pending r1 r2 w).1 = (DoUpdate P env pending s1 s2 w).1
      ∧ (DoUpdate P env pending r1 r2 w).2.2.2 = (DoUpdate P env pending s1 s2 w).2.2.2
      ∧ ((DoUpdate P env pending r1 r2 w).1 = true →
          (DoUpdate P env pending r1 r2 w).2.1 = (DoUpdate P env pending s1 s2 w).2.1
            ∧ (DoUpdate P env pending r1 r2 w).2.2.1
                = (DoUpdate P env pending s1 s2 w).2.2.1) := by
  unfold DoUpdate
  rcases DoUpdate.merge env pending w with ⟨_ | _, v, wm⟩
  · simp
  · simp only
    rcases FileRewind env.seek_new_again wm.store.new_file_ with ⟨_ | _, _ | nf⟩
    · simp
    · simp
    · simp
    · simp only
      rcases DoUpdate.writeFile
        (DeleteChunksFromSet wm.store.add_del_cache_ wm.store.add_chunks_cache_)
        (DeleteChunksFromSet wm.store.sub_del_cache_ wm.store.sub_chunks_cache_) (P v) nf
        with ⟨_ | _, nf3⟩
      · simp
      · simp only
        split
        · simp
        · split <;> simp

theorem committedBytes_arrays (A S : ChunkSet) (v : Vectors) (tail : List Byte) :
    (committedBytes A S v ++ tail).drop (32 + 4 * A.length + 4 * S.length)
        = encodeItems v.add_prefixes ++ (encodeItems v.sub_prefixes
            ++ (encodeItems v.add_full_hashes ++ (encodeItems v.sub_full_hashes ++ tail)))
      ∧ (committedBytes A S v ++ tail).drop (32 + 4 * A.length + 4 * S.length
            + 8 * v.add_prefixes.length + 12 * v.sub_prefixes.length)
        = encodeItems v.add_full_hashes ++ (encodeItems v.sub_full_hashes ++ tail) := by
  have hA : (encodeItems (T := Int) A).length = 4 * A.length := by
    rw [encodeItems_length]; simp [Pod.size, Nat.mul_comm]
  have hS : (encodeItems (T := Int) S).length = 4 * S.length := by
    rw [encodeItems_length]; simp [Pod.size, Nat.mul_comm]
  have h1 : (encodeItems v.add_prefixes).length = 8 * v.add_prefixes.length := by
    rw [encodeItems_length]; simp [Pod.size, Nat.mul_comm]
  have h2 : (encodeItems v.sub_prefixes).length = 12 * v.sub_prefixes.length := by
    rw [encodeItems_length]; simp [Pod.size, Nat.mul_comm]
  have e1 : (committedBytes A S v ++ tail).drop (32 + 4 * A.length + 4 * S.length)
      = encodeItems v.add_prefixes ++ (encodeItems v.sub_prefixes
          ++ (encodeItems v.add_full_hashes ++ (encodeItems v.sub_full_hashes ++ tail))) := by
    rw [Nat.add_assoc, ← List.drop_drop, drop_committedBytes, ← List.drop_drop,
      List.drop_left' hA, List.drop_left' hS]
  refine ⟨e1, ?_⟩
  rw [Nat.add_assoc (32 + 4 * A.length + 4 * S.length), ← List.drop_drop, e1, ← List.drop_drop,
    List.drop_left' h1, List.drop_left' h2]

/-- The returned lists are what the stream took, and what is committed when
the last flush lands. Whenever `FinishUpdate` succeeds and the flush at the
close of the temporary stream lands every byte, whatever the sub-cancellation
primitive does, the new committed file is the layout of two chunk-id sets and
four record arrays whose add-prefix array is the returned `add_prefixes_result` and whose add-full-hash array is
the returned `add_full_hashes_result`: the header counts of these two arrays
are the lengths of the returned lists, the bytes at the place of each array
are the records of the returned list in order, and reading the array back
gives the returned list element for element when its fields fit their machine
types and it is shorter than `2^31`. What the two result vectors held before
the call has no part in it: with any other contents the call returns the same
result, the same lists and leaves the same state. -/
theorem returned_lists_are_committed (P : Vectors → Vectors) (env : Faults)
    (pending : List SBAddFullHash) (r1 : List SBAddPrefix) (r2 : List SBAddFullHash) (w : World)
    (ap : List SBAddPrefix) (ah : List SBAddFullHash) (w1 : World)
    (hflush : env.flush_new = none)
    (h : FinishUpdate P env pending r1 r2 w = (true, ap, ah, w1)) :
    (∃ (bytes tail : List Byte) (A S : ChunkSet) (sp : List SBSubPrefix)
        (sh : List SBSubFullHash),
      w1.disk.committed = some bytes
      ∧ bytes = committedBytes A S
          { add_prefixes := ap, sub_prefixes := sp, add_full_hashes := ah,
            sub_full_hashes := sh } ++ tail
      ∧ (headerOf bytes).add_chunk_count = toInt32 A.length
      ∧ (headerOf bytes).sub_chunk_count = toInt32 S.length
      ∧ (headerOf bytes).add_prefix_count = toInt32 ap.length
      ∧ (headerOf bytes).sub_prefix_count = toInt32 sp.length
      ∧ (headerOf bytes).add_hash_count = toInt32 ah.length
      ∧ (bytes.drop (32 + 4 * A.length + 4 * S.length)).take (8 * ap.length) = encodeItems ap
      ∧ (bytes.drop (32 + 4 * A.length + 4 * S.length + 8 * ap.length
            + 12 * sp.length)).take (40 * ah.length) = encodeItems ah
      ∧ ((∀ r ∈ ap, Pod.wf r) → ap.length < 2147483648 →
          decodeItems (toSizeT (headerOf bytes).add_prefix_count)
            (bytes.drop (32 + 4 * A.length + 4 * S.length)) = ap)
      ∧ ((∀ r ∈ ah, Pod.wf r) → ah.length < 2147483648 →
          decodeItems (toSizeT (headerOf bytes).add_hash_count)
            (bytes.drop (32 + 4 * A.length + 4 * S.length + 8 * ap.length
              + 12 * sp.length)) = ah))
      ∧ ∀ (s1 : List SBAddPrefix) (s2 : List SBAddFullHash),
          FinishUpdate P env pending s1 s2 w = (true, ap, ah, w1) := by
  constructor
  · obtain ⟨wd, hd, hc⟩ := FinishUpdate_true _ _ _ _ _ _ _ _ _ h
    obtain ⟨v3, wm, nf, hm, hnf, hap, hah, _, _, hnone, _, hdisk⟩ :=
      DoUpdate_true _ _ _ _ _ _ _ _ _ hd
    have hfile : w1.disk.committed = some
        (committedBytes
            (DeleteChunksFromSet wm.store.add_del_cache_ wm.store.add_chunks_cache_)
            (DeleteChunksFromSet wm.store.sub_del_cache_ wm.store.sub_chunks_cache_)
            { add_prefixes := ap, sub_prefixes := (P v3).sub_prefixes, add_full_hashes := ah,
              sub_full_hashes := (P v3).sub_full_hashes }
          ++ nf.data.drop (committedBytes
            (DeleteChunksFromSet wm.store.add_del_cache_ wm.store.add_chunks_cache_)
            (DeleteChunksFromSet wm.store.sub_del_cache_ wm.store.sub_chunks_cache_)
            (P v3)).length) := by
      rw [hc, hap, hah]
      simp only [Close, closeNewFile, hnone, hdisk, hflush, landed_none]
    have harr := committedBytes_arrays
      (DeleteChunksFromSet wm.store.add_del_cache_ wm.store.add_chunks_cache_)
      (DeleteChunksFromSet wm.store.sub_del_cache_ wm.store.sub_chunks_cache_)
      { add_prefixes := ap, sub_prefixes := (P v3).sub_prefixes, add_full_hashes := ah,
        sub_full_hashes := (P v3).sub_full_hashes }
      (nf.data.drop (committedBytes
        (DeleteChunksFromSet wm.store.add_del_cache_ wm.store.add_chunks_cache_)
        (DeleteChunksFromSet wm.store.sub_del_cache_ wm.store.sub_chunks_cache_)
        (P v3)).length)
    simp only at harr
    have l1 : (encodeItems ap).length = 8 * ap.length := by
      rw [encodeItems_length]; simp [Pod.size, Nat.mul_comm]
    have l3 : (encodeItems ah).length = 40 * ah.length := by
      rw [encodeItems_length]; simp [Pod.size, Nat.mul_comm]
    refine ⟨_, _, _, _, _, _, hfile, rfl, ?_, ?_, ?_, ?_, ?_, ?_, ?_, ?_, ?_⟩
    · rw [headerOf_committedBytes]; rfl
    · rw [headerOf_committedBytes]; rfl
    · rw [headerOf_committedBytes]; rfl
    · rw [headerOf_committedBytes]; rfl
    · rw [headerOf_committedBytes]; rfl
    · rw [harr.1, List.take_left' l1]
    · rw [harr.2, List.take_left' l3]
    · intro hw hl
      rw [headerOf_committedBytes, harr.1]
      simp only [committedHeader]
      rw [toSizeT_toInt32 _ hl]
      exact decodeItems_encodeItems ap _ hw
    · intro hw hl
      rw [headerOf_committedBytes, harr.2]
      simp only [committedHeader]
      rw [toSizeT_toInt32 _ hl]
      exact decodeItems_encodeItems ah _ hw
  · intro s1 s2
    have hi := DoUpdate_results_indep P env pending r1 s1 r2 s2 w
    rw [FinishUpdate_eq] at h ⊢
    simp only [Prod.mk.injEq] at h ⊢
    obtain ⟨h1, h2, h3, h4⟩ := h
    obtain ⟨i1, i2, i3⟩ := hi
    obtain ⟨j1, j2⟩ := i3 h1
    exact ⟨i1 ▸ h1, j1 ▸ h2, j2 ▸ h3, i2 ▸ h4⟩

set_option maxRecDepth 8000 in
/-- The returned lists of `sampleFinished`, the successful
`FinishUpdate` of `sampleSession` called with result vectors that already hold
a record each: the same call with empty result vectors gives the same outcome,
and the two returned lists are the arrays found in the new committed file. -/
theorem returned_lists_are_committed_witness :
    FinishUpdate SBProcessSubs sampleEnv samplePending [] [] sampleSession
        = (true, sampleFinished.2.1, sampleFinished.2.2.1, sampleFinished.2.2.2)
      ∧ ∃ (bytes : List Byte) (A S : ChunkSet) (sp : List SBSubPrefix),
          sampleFinished.2.2.2.disk.committed = some bytes
          ∧ (bytes.drop (32 + 4 * A.length + 4 * S.length)).take
              (8 * sampleFinished.2.1.length) = encodeItems sampleFinished.2.1
          ∧ (bytes.drop (32 + 4 * A.length + 4 * S.length + 8 * sampleFinished.2.1.length
                + 12 * sp.length)).take (40 * sampleFinished.2.2.1.length)
              = encodeItems sampleFinished.2.2.1 :=
  ⟨(returned_lists_are_committed SBProcessSubs sampleEnv samplePending [⟨9, 99⟩] [⟨9, 999, 0⟩]
      sampleSession sampleFinished.2.1 sampleFinished.2.2.1 sampleFinished.2.2.2
      rfl (by decide!)).2 [] [],
   match (returned_lists_are_committed SBProcessSubs sampleEnv samplePending [⟨9, 99⟩]
      [⟨9, 999, 0⟩] sampleSession sampleFinished.2.1 sampleFinished.2.2.1 sampleFinished.2.2.2
      rfl (by decide!)).1 with
   | ⟨bytes, _, A, S, sp, _, h1, _, _, _, _, _, _, h8, h9, _, _⟩ => ⟨bytes, A, S, sp, h1, h8, h9⟩⟩

/-! ## The magic constant -/

theorem headerOf_magic (bytes : List Byte) : (headerOf bytes).magic = getInt32 (bytes.take 4) := by
  show getInt32 (bytes.take 32) = getInt32 (bytes.take 4)
  unfold getInt32
  simp [List.take_take]

/-- C26. The magic constant is not a byte-wise palindrome. The four bytes of
`kFileMagic = 0x600D71FE` in the opposite order are the bytes of `0xFE710D60`,
as an `int32` a value other than `kFileMagic`. So for every committed file
with a whole header whose magic field holds these four bytes, the header read
has a magic other than `kFileMagic`; `BeginUpdate`, when it can create the
temporary file and open the committed file, returns false; and in a session
over such a file the read of the committed file in `DoUpdate` fails, and so do
`DoUpdate` and `FinishUpdate`. -/
theorem magic_not_palindrome (P : Vectors → Vectors) (env : Faults)
    (pending : List SBAddFullHash) (r1 : List SBAddPrefix) (r2 : List SBAddFullHash)
    (wb wd : World) (bytes : List Byte) (f : FILE)
    (hmagic : bytes.take 4 = (putInt32 kFileMagic).reverse) (hlen : 32 ≤ bytes.length)
    (hnew : env.open_new = true) (hopen : env.open_old = true)
    (hfile : wb.disk.committed = some bytes)
    (he : wd.store.empty_ = false) (hf : wd.store.file_ = some f) (hdata : f.data = bytes) :
    kFileMagic = 0x600D71FE
      ∧ (putInt32 kFileMagic).reverse = putInt32 (toInt32 0xFE710D60)
      ∧ (putInt32 kFileMagic).reverse ≠ putInt32 kFileMagic
      ∧ toInt32 0xFE710D60 ≠ kFileMagic
      ∧ (headerOf bytes).magic = toInt32 0xFE710D60
      ∧ (BeginUpdate env wb).1 = false
      ∧ (DoUpdate.readFile env wd).1 = false
      ∧ (DoUpdate P env pending r1 r2 wd).1 = false
      ∧ (FinishUpdate P env pending r1 r2 wd).1 = false := by
  have hm : (headerOf bytes).magic = toInt32 0xFE710D60 := by
    rw [headerOf_magic, hmagic]; decide
  have hne : toInt32 0xFE710D60 ≠ kFileMagic := by decide
  have hbad : (headerOf bytes).magic ≠ kFileMagic := by rw [hm]; exact hne
  have hread : (DoUpdate.readFile env wd).1 = false :=
    DoUpdate.readFile_corrupt env wd f he hf (Or.inr (Or.inr (Or.inl (by rw [hdata]; exact hbad))))
  have hdo : (DoUpdate P env pending r1 r2 wd).1 = false :=
    (DoUpdate_frame P env pending r1 r2 wd (DoUpdate P env pending r1 r2 wd).1
      (DoUpdate P env pending r1 r2 wd).2.1 (DoUpdate P env pending r1 r2 wd).2.2.1
      (DoUpdate P env pending r1 r2 wd).2.2.2 rfl).2.1 hread
  refine ⟨rfl, by decide, by decide, hne, hm, ?_, hread, hdo, ?_⟩
  · rw [BeginUpdate_header env wb bytes hnew hopen hfile hlen, if_pos (Or.inl hbad)]
    exact (OnCorruptDatabase_frame _).1
  · rw [FinishUpdate_eq]; exact hdo

/-- The magic check (C26) on `sampleSwappedBytes`, a committed file whose magic
has its four bytes in the opposite order: `BeginUpdate` on `sampleSwapped` and
`FinishUpdate` on `sampleSwappedSession` return false. -/
theorem magic_not_palindrome_witness :
    (headerOf sampleSwappedBytes).magic = toInt32 0xFE710D60
      ∧ (BeginUpdate sampleEnv sampleSwapped).1 = false
      ∧ (FinishUpdate SBProcessSubs sampleEnv samplePending [] [] sampleSwappedSession).1
          = false :=
  ⟨(magic_not_palindrome SBProcessSubs sampleEnv samplePending [] [] sampleSwapped
      sampleSwappedSession sampleSwappedBytes { data := sampleSwappedBytes, pos := 44, room := 0 }
      (by decide) (by decide) rfl rfl rfl (by decide!) (by decide!) rfl).2.2.2.2.1,
   (magic_not_palindrome SBProcessSubs sampleEnv samplePending [] [] sampleSwapped
      sampleSwappedSession sampleSwappedBytes { data := sampleSwappedBytes, pos := 44, room := 0 }
      (by decide) (by decide) rfl rfl rfl (by decide!) (by decide!) rfl).2.2.2.2.2.1,
   (magic_not_palindrome SBProcessSubs sampleEnv samplePending [] [] sampleSwapped
      sampleSwappedSession sampleSwappedBytes { data := sampleSwappedBytes, pos := 44, room := 0 }
      (by decide) (by decide) rfl rfl rfl (by decide!) (by decide!) rfl).2.2.2.2.2.2.2.2⟩

/-! ## The deletion filter and chunk boundaries -/

theorem DoUpdate.merge_ok (env : Faults) (pending : List SBAddFullHash) (w : World)
    (A S : ChunkSet) (items : Vectors) (chunks : List Vectors)
    (hso : env.seek_old = true) (hsn : env.seek_new = true)
    (hfile : FileHolds w A S items) (htemp : TempHolds w chunks)
    (wA : ∀ x ∈ A, isInt32 x) (wS : ∀ x ∈ S, isInt32 x)
    (lA : A.length < 2147483648) (lS : S.length < 2147483648)
    (hitems : Vectors.WF items) (hchunks : ∀ c ∈ chunks, Vectors.WF c) :
    ∃ wm, DoUpdate.merge env pending w
        = (true, Vectors.survivors w.store.add_del_cache_ w.store.sub_del_cache_
              (Vectors.append (Vectors.append items (Vectors.concat chunks))
                { add_prefixes := [], sub_prefixes := [], add_full_hashes := pending,
                  sub_full_hashes := [] }), wm)
      ∧ wm.store.add_chunks_cache_
          = (if w.store.empty_ = true then w.store.add_chunks_cache_
             else ChunkSet.insertRange w.store.add_chunks_cache_ A)
      ∧ wm.store.sub_chunks_cache_
          = (if w.store.empty_ = true then w.store.sub_chunks_cache_
             else ChunkSet.insertRange w.store.sub_chunks_cache_ S) := by
  obtain ⟨nf, tail, hnf, hdata, hn⟩ := htemp
  obtain ⟨w1, w2, w3, w4, l1, l2, l3, l4⟩ := hitems
  have hread : ∃ w1 : World, DoUpdate.readFile env w
      = (true, Vectors.survivors w.store.add_del_cache_ w.store.sub_del_cache_ items, w1)
      ∧ w1.store.new_file_ = some nf ∧ w1.store.add_del_cache_ = w.store.add_del_cache_
      ∧ w1.store.sub_del_cache_ = w.store.sub_del_cache_
      ∧ w1.store.chunks_written_ = chunks.length
      ∧ w1.store.add_chunks_cache_
          = (if w.store.empty_ = true then w.store.add_chunks_cache_
             else ChunkSet.insertRange w.store.add_chunks_cache_ A)
      ∧ w1.store.sub_chunks_cache_
          = (if w.store.empty_ = true then w.store.sub_chunks_cache_
             else ChunkSet.insertRange w.store.sub_chunks_cache_ S) := by
    rcases hfile with ⟨he, hi⟩ | ⟨he, f, tl, hf, hd⟩
    · refine ⟨w, ?_, hnf, rfl, rfl, hn, by simp [he], by simp [he]⟩
      simp [DoUpdate.readFile, he, hi, Vectors.survivors, Vectors.nil, keepLive]
    · refine ⟨_, DoUpdate.readFile_ok env w f A S items tl he hf hso hd wA wS w1 w2 w3 w4 lA lS
        l1 l2 l3 l4, hnf, rfl, rfl, hn, by simp [he], by simp [he]⟩
  obtain ⟨wr, hr, hnf1, hd1, he1, hn1, hca, hcs⟩ := hread
  have hrest : FILE.rest { nf with pos := 0 } = chunksBytes chunks ++ tail := by
    simp [FILE.rest, hdata]
  obtain ⟨fp1, hc⟩ := DoUpdate.readChunks_ok w.store.add_del_cache_ w.store.sub_del_cache_ chunks
    (Vectors.survivors w.store.add_del_cache_ w.store.sub_del_cache_ items) _ tail hrest hchunks
  unfold DoUpdate.merge
  simp only [hr, hnf1, FileRewind, hsn, if_true, hd1, he1, hn1, hc, DoUpdate.appendPending_eq]
  refine ⟨_, (Prod.mk.injEq _ _ _ _).mpr ⟨rfl, (Prod.mk.injEq _ _ _ _).mpr ⟨?_, rfl⟩⟩, hca, hcs⟩
  simp [Vectors.survivors, Vectors.append, keepLive_append, keepLive]

theorem mem_keepLive {T : Type} [HasChunkId T] (D : HashSet) (l : List T) (r : T) :
    r ∈ keepLive D l ↔ r ∈ l ∧ HasChunkId.chunk_id r ∉ D := by
  simp only [keepLive, List.mem_filter, decide_eq_true_eq, HashSet.count]
  by_cases h : HasChunkId.chunk_id r ∈ D <;> simp [h]

/-- C25. The deletion filter is keyed by a record's own chunk id only. In a
session whose committed file holds the records `items` and whose temporary
file holds the chunk records `chunks`, the merge stage of `DoUpdate` succeeds
and the working vectors it builds, which are the ones `DoUpdate` passes to
sub-cancellation, hold: an add prefix or add full hash of the sources exactly
when its chunk id is not in the add-deletion set; a sub prefix or sub full
hash of the sources exactly when its own chunk id is not in the sub-deletion
set. In particular a sub prefix or sub full hash whose target `add_chunk_id`
is in the add-deletion set and whose own chunk id is not in the sub-deletion
set is in the working vectors handed to sub-cancellation. -/
theorem deletion_filter_own_chunk_id (env : Faults) (pending : List SBAddFullHash) (w : World)
    (A S : ChunkSet) (items : Vectors) (chunks : List Vectors)
    (hso : env.seek_old = true) (hsn : env.seek_new = true)
    (hfile : FileHolds w A S items) (htemp : TempHolds w chunks)
    (wA : ∀ x ∈ A, isInt32 x) (wS : ∀ x ∈ S, isInt32 x)
    (lA : A.length < 2147483648) (lS : S.length < 2147483648)
    (hitems : Vectors.WF items) (hchunks : ∀ c ∈ chunks, Vectors.WF c) :
    (DoUpdate.merge env pending w).1 = true
      ∧ (∀ a : SBAddPrefix, a ∈ (DoUpdate.merge env pending w).2.1.add_prefixes
          ↔ a ∈ items.add_prefixes ++ (Vectors.concat chunks).add_prefixes
            ∧ a.chunk_id ∉ w.store.add_del_cache_)
      ∧ (∀ a : SBAddFullHash, a ∈ (DoUpdate.merge env pending w).2.1.add_full_hashes
          ↔ a ∈ items.add_full_hashes ++ (Vectors.concat chunks).add_full_hashes ++ pending
            ∧ a.chunk_id ∉ w.store.add_del_cache_)
      ∧ (∀ s : SBSubPrefix, s ∈ (DoUpdate.merge env pending w).2.1.sub_prefixes
          ↔ s ∈ items.sub_prefixes ++ (Vectors.concat chunks).sub_prefixes
            ∧ s.chunk_id ∉ w.store.sub_del_cache_)
      ∧ (∀ s : SBSubFullHash, s ∈ (DoUpdate.merge env pending w).2.1.sub_full_hashes
          ↔ s ∈ items.sub_full_hashes ++ (Vectors.concat chunks).sub_full_hashes
            ∧ s.chunk_id ∉ w.store.sub_del_cache_)
      ∧ (∀ s : SBSubPrefix, s ∈ items.sub_prefixes ++ (Vectors.concat chunks).sub_prefixes →
          s.add_chunk_id ∈ w.store.add_del_cache_ → s.chunk_id ∉ w.store.sub_del_cache_ →
          s ∈ (DoUpdate.merge env pending w).2.1.sub_prefixes)
      ∧ (∀ s : SBSubFullHash,
          s ∈ items.sub_full_hashes ++ (Vectors.concat chunks).sub_full_hashes →
          s.add_chunk_id ∈ w.store.add_del_cache_ → s.chunk_id ∉ w.store.sub_del_cache_ →
          s ∈ (DoUpdate.merge env pending w).2.1.sub_full_hashes)
      ∧ (∀ (P : Vectors → Vectors) (r1 ap : List SBAddPrefix) (r2 ah : List SBAddFullHash)
          (w1 : World), DoUpdate P env pending r1 r2 w = (true, ap, ah, w1) →
          ap = (P (DoUpdate.merge env pending w).2.1).add_prefixes
            ∧ ah = (P (DoUpdate.merge env pending w).2.1).add_full_hashes) := by
  obtain ⟨wm, hm, _, _⟩ := DoUpdate.merge_ok env pending w A S items chunks hso hsn hfile htemp
    wA wS lA lS hitems hchunks
  have h1 : ∀ a : SBAddPrefix, a ∈ (DoUpdate.merge env pending w).2.1.add_prefixes
      ↔ a ∈ items.add_prefixes ++ (Vectors.concat chunks).add_prefixes
        ∧ a.chunk_id ∉ w.store.add_del_cache_ := by
    intro a; rw [hm]
    have := mem_keepLive w.store.add_del_cache_
      (items.add_prefixes ++ (Vectors.concat chunks).add_prefixes ++ []) a
    simpa [Vectors.survivors, Vectors.append] using this
  have h2 : ∀ a : SBAddFullHash, a ∈ (DoUpdate.merge env pending w).2.1.add_full_hashes
      ↔ a ∈ items.add_full_hashes ++ (Vectors.concat chunks).add_full_hashes ++ pending
        ∧ a.chunk_id ∉ w.store.add_del_cache_ := by
    intro a; rw [hm]
    have := mem_keepLive w.store.add_del_cache_
      (items.add_full_hashes ++ (Vectors.concat chunks).add_full_hashes ++ pending) a
    simpa [Vectors.survivors, Vectors.append] using this
  have h3 : ∀ s : SBSubPrefix, s ∈ (DoUpdate.merge env pending w).2.1.sub_prefixes
      ↔ s ∈ items.sub_prefixes ++ (Vectors.concat chunks).sub_prefixes
        ∧ s.chunk_id ∉ w.store.sub_del_cache_ := by
    intro s; rw [hm]
    have := mem_keepLive w.store.sub_del_cache_
      (items.sub_prefixes ++ (Vectors.concat chunks).sub_prefixes ++ []) s
    simpa [Vectors.survivors, Vectors.append] using this
  have h4 : ∀ s : SBSubFullHash, s ∈ (DoUpdate.merge env pending w).2.1.sub_full_hashes
      ↔ s ∈ items.sub_full_hashes ++ (Vectors.concat chunks).sub_full_hashes
        ∧ s.chunk_id ∉ w.store.sub_del_cache_ := by
    intro s; rw [hm]
    have := mem_keepLive w.store.sub_del_cache_
      (items.sub_full_hashes ++ (Vectors.concat chunks).sub_full_hashes ++ []) s
    simpa [Vectors.survivors, Vectors.append] using this
  refine ⟨by rw [hm], h1, h2, h3, h4, fun s hs _ hn => (h3 s).2 ⟨hs, hn⟩,
    fun s hs _ hn => (h4 s).2 ⟨hs, hn⟩, ?_⟩
  intro P r1 ap r2 ah w1 hd
  obtain ⟨v3, wm2, nf, hm2, _, hap, hah, _⟩ := DoUpdate_true _ _ _ _ _ _ _ _ _ hd
  rw [hm2]
  exact ⟨hap, hah⟩

set_option maxRecDepth 8000 in
/-- The deletion filter (C25) on `sampleTargetDeleted`: add chunk 1 is deleted,
no sub chunk is, and the sub prefix and the sub full hash of sub chunk 5 that
target add chunk 1 are in the working vectors after the merge. -/
theorem deletion_filter_own_chunk_id_witness :
    (DoUpdate.merge sampleEnv [] sampleTargetDeleted).1 = true
      ∧ (⟨5, 0xAAAA, 1⟩ : SBSubPrefix)
          ∈ (DoUpdate.merge sampleEnv [] sampleTargetDeleted).2.1.sub_prefixes
      ∧ (⟨5, 5, 1⟩ : SBSubFullHash)
          ∈ (DoUpdate.merge sampleEnv [] sampleTargetDeleted).2.1.sub_full_hashes :=
  ⟨(deletion_filter_own_chunk_id sampleEnv [] sampleTargetDeleted [1, 2] [3] sampleItems
      [sampleSubChunk] rfl rfl
      (Or.inr ⟨by decide!, { data := sampleCommitted, pos := 44, room := 0 }, [],
        by decide!, by decide!⟩)
      ⟨{ data := chunksBytes [sampleSubChunk], pos := 68, room := 4028 }, [],
        by decide!, by decide!, by decide!⟩
      (by decide) (by decide) (by decide) (by decide) (by decide) (by decide)).1,
   (deletion_filter_own_chunk_id sampleEnv [] sampleTargetDeleted [1, 2] [3] sampleItems
      [sampleSubChunk] rfl rfl
      (Or.inr ⟨by decide!, { data := sampleCommitted, pos := 44, room := 0 }, [],
        by decide!, by decide!⟩)
      ⟨{ data := chunksBytes [sampleSubChunk], pos := 68, room := 4028 }, [],
        by decide!, by decide!, by decide!⟩
      (by decide) (by decide) (by decide) (by decide) (by decide) (by decide)).2.2.2.2.2.1 ⟨5, 0xAAAA, 1⟩ (by decide) (by decide!) (by decide!),
   (deletion_filter_own_chunk_id sampleEnv [] sampleTargetDeleted [1, 2] [3] sampleItems
      [sampleSubChunk] rfl rfl
      (Or.inr ⟨by decide!, { data := sampleCommitted, pos := 44, room := 0 }, [],
        by decide!, by decide!⟩)
      ⟨{ data := chunksBytes [sampleSubChunk], pos := 68, room := 4028 }, [],
        by decide!, by decide!, by decide!⟩
      (by decide) (by decide) (by decide) (by decide) (by decide) (by decide)).2.2.2.2.2.2.1 ⟨5, 5, 1⟩ (by decide) (by decide!) (by decide!)⟩

/-! ## Re-reading the chunk-id arrays -/

theorem ChunkSet.mem_insert (x y : Int) (s : ChunkSet) :
    y ∈ ChunkSet.insert x s ↔ y = x ∨ y ∈ s := by
  induction s with
  | nil => simp [ChunkSet.insert]
  | cons z zs ih =>
    simp only [ChunkSet.insert]
    split
    · simp
    · split
      · rename_i hxz
        subst hxz
        simp
      · simp only [List.mem_cons, ih]
        constructor
        · rintro (h | h | h)
          · exact Or.inr (Or.inl h)
          · exact Or.inl h
          · exact Or.inr (Or.inr h)
        · rintro (h | h | h)
          · exact Or.inr (Or.inl h)
          · exact Or.inl h
          · exact Or.inr (Or.inr h)

theorem ChunkSet.mem_insertRange (l : List Int) :
    ∀ (s : ChunkSet) (y : Int), y ∈ ChunkSet.insertRange s l ↔ y ∈ s ∨ y ∈ l := by
  induction l with
  | nil => intro s y; simp [ChunkSet.insertRange]
  | cons x xs ih =>
    intro s y
    have := ih (ChunkSet.insert x s) y
    simp only [ChunkSet.insertRange, List.foldl_cons] at this ⊢
    rw [this, ChunkSet.mem_insert, List.mem_cons]
    constructor
    · rintro ((h | h) | h)
      · exact Or.inr (Or.inl h)
      · exact Or.inl h
      · exact Or.inr (Or.inr h)
    · rintro (h | h | h)
      · exact Or.inl (Or.inr h)
      · exact Or.inl (Or.inl h)
      · exact Or.inr h

theorem OnCorruptDatabase_ne_true (w w1 : World) : OnCorruptDatabase w ≠ (true, w1) := by
  intro h
  have := (OnCorruptDatabase_frame w).1
  rw [h] at this
  simp at this

theorem BeginUpdate_true (env : Faults) (w wb : World) (h : BeginUpdate env w = (true, wb)) :
    (wb.store.empty_ = true ∧ w.disk.committed = none)
      ∨ ∃ bytes, w.disk.committed = some bytes ∧ wb.store.empty_ = false
          ∧ wb.store.file_ = some (FILE.mk bytes
              (32 + toSizeT (headerOf bytes).add_chunk_count * 4
                + toSizeT (headerOf bytes).sub_chunk_count * 4) 0)
          ∧ wb.store.add_chunks_cache_ = ChunkSet.insertRange w.store.add_chunks_cache_
              (decodeItems (toSizeT (headerOf bytes).add_chunk_count) (bytes.drop 32))
          ∧ wb.store.sub_chunks_cache_ = ChunkSet.insertRange w.store.sub_chunks_cache_
              (decodeItems (toSizeT (headerOf bytes).sub_chunk_count)
                (bytes.drop (32 + toSizeT (headerOf bytes).add_chunk_count * 4))) := by
  cases hn : env.open_new with
  | false =>
    unfold BeginUpdate at h
    simp [file_util.OpenFileWrite, hn] at h
  | true =>
    cases hc : w.disk.committed with
    | none =>
      left
      unfold BeginUpdate at h
      simp only [file_util.OpenFileWrite, hn, if_true, file_util.OpenFileRead, hc,
        file_util.PathExists, Option.isSome_none, Bool.false_eq_true, if_false,
        Option.isNone_none, Prod.mk.injEq, true_and] at h
      subst h
      exact ⟨rfl, rfl⟩
    | some bytes =>
      cases ho : env.open_old with
      | false =>
        unfold BeginUpdate at h
        simp only [file_util.OpenFileWrite, hn, if_true, file_util.OpenFileRead, hc, ho,
          Bool.false_eq_true, if_false, file_util.PathExists, Option.isSome_some] at h
        exact absurd h (OnCorruptDatabase_ne_true _ _)
      | true =>
        by_cases hl : 32 ≤ bytes.length
        · right
          rw [BeginUpdate_header env w bytes hn ho hc hl] at h
          refine ⟨bytes, rfl, ?_⟩
          split at h
          · exact absurd h (OnCorruptDatabase_ne_true _ _)
          · split at h
            · split at h
              · simp only [Prod.mk.injEq, true_and] at h
                subst h
                exact ⟨rfl, rfl, rfl, rfl⟩
              · exact absurd h (OnCorruptDatabase_ne_true _ _)
            · exact absurd h (OnCorruptDatabase_ne_true _ _)
        · have hav : ¬ 1 ≤ (bytes.length - 0) / 32 := by
            rw [Nat.le_div_iff_mul_le (by decide)]; omega
          unfold BeginUpdate at h
          simp only [file_util.OpenFileWrite, hn, if_true, file_util.OpenFileRead, hc, ho,
            ReadArray_eq, Pod.size, hav, if_false] at h
          exact absurd h (OnCorruptDatabase_ne_true _ _)

theorem OnCorruptDatabase_snd_store (w : World) : (OnCorruptDatabase w).2.store = w.store :=
  (OnCorruptDatabase_frame w).2.1

theorem DoUpdate.readFile_caches (env : Faults) (w : World) (f : FILE)
    (he : w.store.empty_ = false) (hf : w.store.file_ = some f) :
    ((DoUpdate.readFile env w).2.2.store.add_chunks_cache_ = w.store.add_chunks_cache_
        ∨ (DoUpdate.readFile env w).2.2.store.add_chunks_cache_
            = ChunkSet.insertRange w.store.add_chunks_cache_
                (decodeItems (toSizeT (headerOf f.data).add_chunk_count) (f.data.drop 32)))
      ∧ ((DoUpdate.readFile env w).2.2.store.sub_chunks_cache_ = w.store.sub_chunks_cache_
        ∨ (DoUpdate.readFile env w).2.2.store.sub_chunks_cache_
            = ChunkSet.insertRange w.store.sub_chunks_cache_
                (decodeItems (toSizeT (headerOf f.data).sub_chunk_count)
                  (f.data.drop (32 + toSizeT (headerOf f.data).add_chunk_count * 4)))) := by
  unfold DoUpdate.readFile
  simp only [he, hf, FileRewind, Bool.false_eq_true, if_false]
  cases hs : env.seek_old with
  | false => simp [OnCorruptDatabase_snd_store]
  | true =>
    simp only [if_true, ReadArray_eq, Pod.size, Nat.sub_zero, List.drop_zero]
    by_cases hl : 1 ≤ f.data.length / 32
    · simp only [hl, if_true, decodeItems, List.headD_cons]
      rw [show (Pod.get (List.take (Pod.size FileHeader) f.data) : FileHeader) = headerOf f.data
        from rfl]
      by_cases hbad : (headerOf f.data).magic ≠ kFileMagic
          ∨ (headerOf f.data).version ≠ kFileVersion
      · simp only [hbad, if_true]
        simp [OnCorruptDatabase_snd_store]
      · simp only [hbad, if_false, ReadToChunkSet_eq, Nat.zero_add, Nat.one_mul]
        by_cases ha : toSizeT (headerOf f.data).add_chunk_count ≤ (f.data.length - 32) / 4
        · simp only [ha, if_true]
          by_cases hsb : toSizeT (headerOf f.data).sub_chunk_count
              ≤ (f.data.length - (32 + toSizeT (headerOf f.data).add_chunk_count * 4)) / 4
          · simp only [hsb, if_true]
            split
            · simp [OnCorruptDatabase_snd_store]
            · simp
          · simp only [hsb, if_false]
            simp [OnCorruptDatabase_snd_store]
        · simp only [ha, if_false]
          simp [OnCorruptDatabase_snd_store]
    · simp only [hl, if_false]
      simp [OnCorruptDatabase_snd_store]

/-- C21. Re-reading the chunk-id arrays adds nothing. Let `BeginUpdate` have
succeeded and opened the session `wb`, and let `ws` be the session when
`DoUpdate` runs: it started from the same store (empty or not), its stream of
the committed file holds the same bytes as at `BeginUpdate`, every id that was
in a known-chunk-id set after `BeginUpdate` is still in it (ids may have been
added), and the two sets are sets (strictly sorted, as a `std::set`). Then
after the committed-file block of `DoUpdate`, which re-reads the two chunk-id
arrays into the sets, both known-chunk-id sets are exactly as they were before
it, whether the block succeeds or not. -/
theorem reread_adds_nothing (env0 env : Faults) (w0 wb ws : World)
    (hb : BeginUpdate env0 w0 = (true, wb))
    (hempty : ws.store.empty_ = wb.store.empty_)
    (hsame : ws.store.file_.map FILE.data = wb.store.file_.map FILE.data)
    (hadd : ∀ c ∈ wb.store.add_chunks_cache_, c ∈ ws.store.add_chunks_cache_)
    (hsub : ∀ c ∈ wb.store.sub_chunks_cache_, c ∈ ws.store.sub_chunks_cache_)
    (okA : ChunkSet.ok ws.store.add_chunks_cache_)
    (okS : ChunkSet.ok ws.store.sub_chunks_cache_) :
    (DoUpdate.readFile env ws).2.2.store.add_chunks_cache_ = ws.store.add_chunks_cache_
      ∧ (DoUpdate.readFile env ws).2.2.store.sub_chunks_cache_ = ws.store.sub_chunks_cache_ := by
  rcases BeginUpdate_true env0 w0 wb hb with ⟨he, _⟩ | ⟨bytes, _, he, hf, hca, hcs⟩
  · rw [he] at hempty
    unfold DoUpdate.readFile
    simp [hempty]
  · rw [he] at hempty
    rw [hf] at hsame
    cases hfs : ws.store.file_ with
    | none => rw [hfs] at hsame; simp at hsame
    | some f =>
      rw [hfs] at hsame
      simp only [Option.map_some', Option.some.injEq] at hsame
      obtain ⟨ra, rs⟩ := DoUpdate.readFile_caches env ws f hempty hfs
      rw [hsame] at ra rs
      constructor
      · rcases ra with ra | ra
        · exact ra
        · rw [ra]
          refine ChunkSet.insertRange_subset _ _ okA (fun x hx => hadd x ?_)
          rw [hca, ChunkSet.mem_insertRange]
          exact Or.inr hx
      · rcases rs with rs | rs
        · exact rs
        · rw [rs]
          refine ChunkSet.insertRange_subset _ _ okS (fun x hx => hsub x ?_)
          rw [hcs, ChunkSet.mem_insertRange]
          exact Or.inr hx

set_option maxRecDepth 8000 in
/-- The re-read of C21 in `sampleSession`, opened by `BeginUpdate` on
`sampleClosed`, in which the caller has added add chunk 4 and sub chunk 5 to
the sets read from the file: the sets are `[1, 2, 4]` and `[3, 5]` after the
re-read as before. -/
theorem reread_adds_nothing_witness :
    sampleSession.store.add_chunks_cache_ = [1, 2, 4]
      ∧ sampleSession.store.sub_chunks_cache_ = [3, 5]
      ∧ (DoUpdate.readFile sampleEnv sampleSession).2.2.store.add_chunks_cache_
          = sampleSession.store.add_chunks_cache_
      ∧ (DoUpdate.readFile sampleEnv sampleSession).2.2.store.sub_chunks_cache_
          = sampleSession.store.sub_chunks_cache_ :=
  ⟨by decide!, by decide!,
   reread_adds_nothing sampleEnv sampleEnv sampleClosed sampleOpen sampleSession
     (by decide!) (by decide!) (by decide!) (by decide!) (by decide!) (by decide!) (by decide!)⟩

/-! ## Chunk boundaries -/

theorem FinishChunk_frame (w : World) (b : Bool) (w1 : World) (h : FinishChunk w = (b, w1)) :
    w1.store.empty_ = w.store.empty_ ∧ w1.store.file_ = w.store.file_
      ∧ w1.store.add_chunks_cache_ = w.store.add_chunks_cache_
      ∧ w1.store.sub_chunks_cache_ = w.store.sub_chunks_cache_
      ∧ w1.store.add_del_cache_ = w.store.add_del_cache_
      ∧ w1.store.sub_del_cache_ = w.store.sub_del_cache_
      ∧ w1.disk = w.disk ∧ w1.callback_runs = w.callback_runs := by
  unfold FinishChunk at h
  simp only at h
  split at h
  · simp only [Prod.mk.injEq] at h; obtain ⟨_, h⟩ := h; subst h; simp
  · split at h
    · simp only [Prod.mk.injEq] at h; obtain ⟨_, h⟩ := h; subst h; simp
    · split at h
      · simp only [Prod.mk.injEq] at h; obtain ⟨_, h⟩ := h; subst h; simp
      · split at h
        · simp only [Prod.mk.injEq] at h; obtain ⟨_, h⟩ := h; subst h; simp
        · split at h
          · simp only [Prod.mk.injEq] at h; obtain ⟨_, h⟩ := h; subst h; simp
          · split at h
            · simp only [Prod.mk.injEq] at h; obtain ⟨_, h⟩ := h; subst h; simp
            · split at h
              · simp only [Prod.mk.injEq] at h; obtain ⟨_, h⟩ := h; subst h; simp
              · simp only [ClearChunkBuffers, Prod.mk.injEq] at h
                obtain ⟨_, h⟩ := h; subst h; simp

theorem finishChunks_frame (calls : List Vectors) :
    ∀ (w : World) (b : Bool) (w1 : World), finishChunks calls w = (b, w1) →
      w1.store.empty_ = w.store.empty_ ∧ w1.store.file_ = w.store.file_
        ∧ w1.store.add_chunks_cache_ = w.store.add_chunks_cache_
        ∧ w1.store.sub_chunks_cache_ = w.store.sub_chunks_cache_
        ∧ w1.store.add_del_cache_ = w.store.add_del_cache_
        ∧ w1.store.sub_del_cache_ = w.store.sub_del_cache_
        ∧ w1.disk = w.disk ∧ w1.callback_runs = w.callback_runs := by
  induction calls with
  | nil =>
    intro w b w1 h
    simp only [finishChunks, Prod.mk.injEq] at h
    obtain ⟨_, h⟩ := h
    subst h
    simp
  | cons c cs ih =>
    intro w b w1 h
    simp only [finishChunks] at h
    split at h
    · rename_i w2 h2
      simp only [Prod.mk.injEq] at h
      obtain ⟨_, h⟩ := h
      subst h
      simpa [fillBuffers] using FinishChunk_frame _ _ _ h2
    · rename_i w2 h2
      obtain ⟨a1, a2, a3, a4, a5, a6, a7, a8⟩ := FinishChunk_frame _ _ _ h2
      obtain ⟨b1, b2, b3, b4, b5, b6, b7, b8⟩ := ih w2 b w1 h
      simp only [fillBuffers] at a1 a2 a3 a4 a5 a6 a7 a8
      exact ⟨b1.trans a1, b2.trans a2, b3.trans a3, b4.trans a4, b5.trans a5, b6.trans a6,
        b7.trans a7, b8.trans a8⟩

theorem merge_after_chunks (env : Faults) (pending : List SBAddFullHash) (w wa : World)
    (A S : ChunkSet) (items : Vectors) (prev calls : List Vectors)
    (hso : env.seek_old = true) (hsn : env.seek_new = true)
    (hfile : FileHolds w A S items) (hst : TempAtEnd w prev)
    (wA : ∀ x ∈ A, isInt32 x) (wS : ∀ x ∈ S, isInt32 x)
    (lA : A.length < 2147483648) (lS : S.length < 2147483648)
    (hitems : Vectors.WF items) (hprev : ∀ c ∈ prev, Vectors.WF c)
    (hcalls : ∀ c ∈ calls, Vectors.WF c)
    (hrun : finishChunks calls w = (true, wa)) :
    ∃ wm, DoUpdate.merge env pending wa
        = (true, Vectors.survivors w.store.add_del_cache_ w.store.sub_del_cache_
              (Vectors.append
                (Vectors.append items (Vectors.append (Vectors.concat prev) (Vectors.concat calls)))
                { add_prefixes := [], sub_prefixes := [], add_full_hashes := pending,
                  sub_full_hashes := [] }), wm)
      ∧ wm.store.add_chunks_cache_
          = (if w.store.empty_ = true then w.store.add_chunks_cache_
             else ChunkSet.insertRange w.store.add_chunks_cache_ A)
      ∧ wm.store.sub_chunks_cache_
          = (if w.store.empty_ = true then w.store.sub_chunks_cache_
             else ChunkSet.insertRange w.store.sub_chunks_cache_ S)
      ∧ wm.store.add_del_cache_ = w.store.add_del_cache_
      ∧ wm.store.sub_del_cache_ = w.store.sub_del_cache_ := by
  obtain ⟨⟨nf, hnf, hdata, _⟩, hcount, _⟩ := finishChunks_spec calls w wa prev hst hrun
  obtain ⟨f1, f2, f3, f4, f5, f6, _, _⟩ := finishChunks_frame calls w true wa hrun
  have hfile1 : FileHolds wa A S items := by
    unfold FileHolds at hfile ⊢
    rw [f1, f2]
    exact hfile
  have htemp : TempHolds wa (prev ++ calls.filter Vectors.nonEmpty) :=
    ⟨nf, [], hnf, by simpa using hdata, hcount⟩
  have hwf : ∀ c ∈ prev ++ calls.filter Vectors.nonEmpty, Vectors.WF c := by
    intro c hc
    rcases List.mem_append.1 hc with h | h
    · exact hprev c h
    · exact hcalls c (List.mem_of_mem_filter h)
  obtain ⟨wm, hm, c1, c2⟩ := DoUpdate.merge_ok env pending wa A S items _ hso hsn hfile1 htemp
    wA wS lA lS hitems hwf
  obtain ⟨_, d1, d2, _⟩ := DoUpdate.merge_true _ _ _ _ _ hm
  rw [f5, f6, Vectors.concat_append, Vectors.concat_filter_nonEmpty] at hm
  rw [f1, f3] at c1
  rw [f1, f4] at c2
  exact ⟨wm, hm, c1, c2, d1.trans f5, d2.trans f6⟩

set_option maxRecDepth 8000 in
/-- C3 fails in the code. In `sampleOneRecord` the add known-chunk-id set holds
the id 1 and nothing is deleted, so the set to write is `[1]`, four bytes
after the 32-byte header. With `sampleEnvFlush34` every call `DoUpdate` checks
succeeds and the flush at the close of the temporary stream, whose result is
dropped, lands 34 bytes: `FinishUpdate` returns true, and the new committed
file is 34 bytes long; its header announces one add chunk id and only two
bytes follow, so the id 1, which is not in the deletion set, is not in the
set the file holds. -/
theorem known_chunk_sets_cut_by_flush :
    sampleOneRecord.store.add_chunks_cache_ = [1]
      ∧ sampleOneRecord.store.add_del_cache_ = []
      ∧ (FinishUpdate SBProcessSubs sampleEnvFlush34 [] [] [] sampleOneRecord).1 = true
      ∧ (FinishUpdate SBProcessSubs sampleEnvFlush34 [] [] [] sampleOneRecord).2.2.2.disk.committed
          = some ((committedBytes [1] [] ⟨[⟨1, 7⟩], [], [], []⟩).take 34)
      ∧ ((committedBytes [1] [] ⟨[⟨1, 7⟩], [], [], []⟩).take 34).length = 34
      ∧ (headerOf ((committedBytes [1] [] ⟨[⟨1, 7⟩], [], [], []⟩).take 34)).add_chunk_count = 1
      ∧ (((committedBytes [1] [] ⟨[⟨1, 7⟩], [], [], []⟩).take 34).drop 32).length = 2
      ∧ (ReadToChunkSet [] 1
          { data := (committedBytes [1] [] ⟨[⟨1, 7⟩], [], [], []⟩).take 34, pos := 32,
            room := 0 }).1 = false := by
  decide!

set_option maxRecDepth 8000 in
/-- C16 fails in the code. In `sampleOneRecord` the new content is 44 bytes: the
header, the add chunk id 1 and the add prefix 7 of chunk 1. With
`sampleEnvFlush40` every call `DoUpdate` checks succeeds and the flush at the
close of the temporary stream, whose result is dropped, lands 40 bytes:
`FinishUpdate` returns true, and the committed file it leaves is 40 bytes
long, with the magic and the version, and a header that announces one add
prefix, 8 bytes, while 4 bytes follow the chunk-id array. The header count and
the array that follows it do not agree. -/
theorem committed_file_cut_by_flush :
    (FinishUpdate SBProcessSubs sampleEnvFlush40 [] [] [] sampleOneRecord).1 = true
      ∧ (FinishUpdate SBProcessSubs sampleEnvFlush40 [] [] [] sampleOneRecord).2.2.2.disk.committed
          = some ((committedBytes [1] [] ⟨[⟨1, 7⟩], [], [], []⟩).take 40)
      ∧ ((committedBytes [1] [] ⟨[⟨1, 7⟩], [], [], []⟩).take 40).length = 40
      ∧ (headerOf ((committedBytes [1] [] ⟨[⟨1, 7⟩], [], [], []⟩).take 40)).magic = kFileMagic
      ∧ (headerOf ((committedBytes [1] [] ⟨[⟨1, 7⟩], [], [], []⟩).take 40)).version
          = kFileVersion
      ∧ (headerOf ((committedBytes [1] [] ⟨[⟨1, 7⟩], [], [], []⟩).take 40)).add_chunk_count = 1
      ∧ (headerOf ((committedBytes [1] [] ⟨[⟨1, 7⟩], [], [], []⟩).take 40)).sub_chunk_count = 0
      ∧ (headerOf ((committedBytes [1] [] ⟨[⟨1, 7⟩], [], [], []⟩).take 40)).add_prefix_count = 1
      ∧ (((committedBytes [1] [] ⟨[⟨1, 7⟩], [], [], []⟩).take 40).drop 36).length = 4
      ∧ (DoUpdate.readFile sampleEnv
          { sampleOneRecord with store := { sampleOneRecord.store with
              empty_ := false,
              file_ := some { data := (committedBytes [1] [] ⟨[⟨1, 7⟩], [], [], []⟩).take 40,
                              pos := 0, room := 0 } } }).1 = false := by
  decide!

set_option maxRecDepth 8000 in
/-- C23 fails in the code. With `sampleEnvFlush40`, in which every call
`DoUpdate` checks succeeds and the flush at the close of the temporary stream,
whose result is dropped, lands 40 bytes, `FinishUpdate` on `sampleOneRecord`
returns true and hands back the add-prefix list `[(1, 7)]`; the committed file
it leaves announces one add prefix and holds, at the place of the add-prefix
array, the four bytes of the chunk id 1 and nothing of the prefix 7: the
returned list is not the array in the file. -/
theorem returned_list_cut_by_flush :
    (FinishUpdate SBProcessSubs sampleEnvFlush40 [] [⟨9, 99⟩] [] sampleOneRecord).1 = true
      ∧ (FinishUpdate SBProcessSubs sampleEnvFlush40 [] [⟨9, 99⟩] [] sampleOneRecord).2.1
          = [⟨1, 7⟩]
      ∧ (FinishUpdate SBProcessSubs sampleEnvFlush40 [] [⟨9, 99⟩] []
          sampleOneRecord).2.2.2.disk.committed
          = some ((committedBytes [1] [] ⟨[⟨1, 7⟩], [], [], []⟩).take 40)
      ∧ (headerOf ((committedBytes [1] [] ⟨[⟨1, 7⟩], [], [], []⟩).take 40)).add_prefix_count = 1
      ∧ ((committedBytes [1] [] ⟨[⟨1, 7⟩], [], [], []⟩).take 40).drop 36 = putInt32 1
      ∧ encodeItems ([⟨1, 7⟩] : List SBAddPrefix) = putInt32 1 ++ putInt32 7
      ∧ ((committedBytes [1] [] ⟨[⟨1, 7⟩], [], [], []⟩).take 40).drop 36
          ≠ encodeItems ([⟨1, 7⟩] : List SBAddPrefix) := by
  decide!

/-! ## What is read from a file fits its machine types -/

theorem decodeItems_wf {T : Type} [Pod T] (hget : ∀ bs : List Byte, Pod.wf (Pod.get bs : T))
    (n : Nat) : ∀ (bs : List Byte), ∀ x ∈ (decodeItems n bs : List T), Pod.wf x := by
  induction n with
  | zero => intro bs x hx; simp [decodeItems] at hx
  | succ n ih =>
    intro bs x hx
    simp only [decodeItems, List.mem_cons] at hx
    rcases hx with rfl | hx
    · exact hget _
    · exact ih _ x hx

theorem getAddPrefix_wf (bs : List Byte) : Pod.wf (Pod.get bs : SBAddPrefix) :=
  ⟨getInt32_isInt32 _, getInt32_isInt32 _⟩

theorem getSubPrefix_wf (bs : List Byte) : Pod.wf (Pod.get bs : SBSubPrefix) :=
  ⟨getInt32_isInt32 _, getInt32_isInt32 _, getInt32_isInt32 _⟩

theorem leValue_take32_lt (bs : List Byte) : leValue (bs.take 32) < 2 ^ 256 := by
  have h := leValue_lt (bs.take 32)
  have hl : (bs.take 32).length ≤ 32 := by simp
  have hp : 256 ^ (bs.take 32).length ≤ 256 ^ 32 := Nat.pow_le_pow_right (by decide) hl
  have : (256 : Nat) ^ 32 = 2 ^ 256 := by norm_num
  omega

theorem getAddFullHash_wf (bs : List Byte) : Pod.wf (Pod.get bs : SBAddFullHash) :=
  ⟨getInt32_isInt32 _, leValue_take32_lt _, getInt32_isInt32 _⟩

theorem getSubFullHash_wf (bs : List Byte) : Pod.wf (Pod.get bs : SBSubFullHash) :=
  ⟨getInt32_isInt32 _, leValue_take32_lt _, getInt32_isInt32 _⟩

theorem mem_of_mem_keepLive {T : Type} [HasChunkId T] (D : HashSet) (l : List T) (x : T)
    (h : x ∈ keepLive D l) : x ∈ l := by
  simp only [keepLive, List.mem_filter] at h
  exact h.1

theorem ReadToVectorAndDelete_wf {T : Type} [Pod T] [HasChunkId T]
    (hget : ∀ bs : List Byte, Pod.wf (Pod.get bs : T)) (values : List T)
    (count : Nat) (fp : FILE) (del_set : HashSet) (r : List T) (fp1 : FILE)
    (h : ReadToVectorAndDelete values count fp del_set = (true, r, fp1))
    (hv : ∀ x ∈ values, Pod.wf x) : ∀ x ∈ r, Pod.wf x := by
  unfold ReadToVectorAndDelete at h
  simp only [ReadToVector_eq] at h
  split at h
  · simp at h
  · rename_i values1 f1 h1
    split at h1
    · simp only [Prod.mk.injEq, true_and] at h1 h
      rw [← h.1, ← h1.1, RemoveDeleted_eq _ _ _ (by simp), List.take_left' rfl,
        List.drop_left' rfl]
      intro x hx
      simp only [List.mem_append] at hx
      rcases hx with hx | hx
      · exact hv x hx
      · exact decodeItems_wf hget _ _ x (mem_of_mem_keepLive _ _ _ hx)
    · simp at h1

theorem readVectors_typed (v : Vectors) (c1 c2 c3 c4 : Int) (fp : FILE)
    (add_del sub_del : HashSet) (v1 : Vectors) (fp1 : FILE)
    (h : readVectors v c1 c2 c3 c4 fp add_del sub_del = (true, v1, fp1))
    (hv : Vectors.Typed v) : Vectors.Typed v1 := by
  obtain ⟨t1, t2, t3, t4⟩ := hv
  unfold readVectors at h
  split at h
  · simp at h
  · rename_i l1 f1 h1
    have e1 := ReadToVectorAndDelete_wf getAddPrefix_wf _ _ _ _ _ _ h1 t1
    simp only at h
    split at h
    · simp at h
    · rename_i l2 f2 h2
      have e2 := ReadToVectorAndDelete_wf getSubPrefix_wf _ _ _ _ _ _ h2 t2
      split at h
      · simp at h
      · rename_i l3 f3 h3
        have e3 := ReadToVectorAndDelete_wf getAddFullHash_wf _ _ _ _ _ _ h3 t3
        split at h
        · simp at h
        · rename_i l4 f4 h4
          have e4 := ReadToVectorAndDelete_wf getSubFullHash_wf _ _ _ _ _ _ h4 t4
          simp only [Prod.mk.injEq, true_and] at h
          rw [← h.1]
          exact ⟨e1, e2, e3, e4⟩

theorem DoUpdate.readChunks_typed (D E : HashSet) (n : Nat) :
    ∀ (v : Vectors) (fp : FILE) (v1 : Vectors) (fp1 : FILE),
      Vectors.Typed v → DoUpdate.readChunks D E n v fp = (true, v1, fp1) →
      Vectors.Typed v1 := by
  induction n with
  | zero =>
    intro v fp v1 fp1 hl h
    simp only [DoUpdate.readChunks, Prod.mk.injEq, true_and] at h
    rw [← h.1]; exact hl
  | succ n ih =>
    intro v fp v1 fp1 hl h
    simp only [DoUpdate.readChunks] at h
    split at h
    · simp at h
    · split at h
      · simp at h
      · rename_i v2 f2 h2
        exact ih v2 f2 v1 fp1 (readVectors_typed _ _ _ _ _ _ _ _ _ _ h2 hl) h

theorem ChunkSet.insertRange_int32 (l : List Int) (s : ChunkSet)
    (hs : ∀ x ∈ s, isInt32 x) (hl : ∀ x ∈ l, isInt32 x) :
    ∀ x ∈ ChunkSet.insertRange s l, isInt32 x := by
  intro x hx
  rw [ChunkSet.mem_insertRange] at hx
  exact hx.elim (hs x) (hl x)

theorem ReadToChunkSet_int32 (values : ChunkSet) (count : Nat) (fp : FILE) (b : Bool)
    (r : ChunkSet) (fp1 : FILE) (h : ReadToChunkSet values count fp = (b, r, fp1))
    (hv : ∀ x ∈ values, isInt32 x) : ∀ x ∈ r, isInt32 x := by
  rw [ReadToChunkSet_eq] at h
  split at h
  · simp only [Prod.mk.injEq] at h
    rw [← h.2.1]
    exact ChunkSet.insertRange_int32 _ _ hv
      (decodeItems_wf (T := Int) (fun bs => getInt32_isInt32 bs) _ _)
  · simp only [Prod.mk.injEq] at h
    rw [← h.2.1]; exact hv

theorem DoUpdate.readFile_typed (env : Faults) (w : World) (v : Vectors) (w1 : World)
    (h : DoUpdate.readFile env w = (true, v, w1))
    (hA : ∀ x ∈ w.store.add_chunks_cache_, isInt32 x)
    (hS : ∀ x ∈ w.store.sub_chunks_cache_, isInt32 x) :
    Vectors.Typed v
      ∧ (∀ x ∈ w1.store.add_chunks_cache_, isInt32 x)
      ∧ (∀ x ∈ w1.store.sub_chunks_cache_, isInt32 x) := by
  have hnil : Vectors.Typed (Vectors.mk [] [] [] []) := by simp [Vectors.Typed]
  unfold DoUpdate.readFile at h
  simp only at h
  split at h
  · simp only [Prod.mk.injEq, true_and] at h
    obtain ⟨hv, hw⟩ := h
    subst hv hw
    exact ⟨hnil, hA, hS⟩
  · split at h
    · split at h
      · simp at h
      · split at h
        · simp at h
        · split at h
          · simp at h
          · rename_i adds fp2 hadd
            have iA := ReadToChunkSet_int32 _ _ _ _ _ _ hadd hA
            split at h
            · simp at h
            · rename_i subs fp3 hsub
              have iS := ReadToChunkSet_int32 _ _ _ _ _ _ hsub hS
              split at h
              · simp at h
              · rename_i hv
                simp only [Prod.mk.injEq, true_and] at h
                obtain ⟨hv1, hw⟩ := h
                subst hv1 hw
                exact ⟨readVectors_typed _ _ _ _ _ _ _ _ _ _ hv hnil, iA, iS⟩
    · simp at h

theorem DoUpdate.merge_typed (env : Faults) (pending : List SBAddFullHash) (w : World)
    (v : Vectors) (wm : World) (h : DoUpdate.merge env pending w = (true, v, wm))
    (hpend : ∀ r ∈ pending, Pod.wf r)
    (hA : ∀ x ∈ w.store.add_chunks_cache_, isInt32 x)
    (hS : ∀ x ∈ w.store.sub_chunks_cache_, isInt32 x) :
    Vectors.Typed v
      ∧ (∀ x ∈ wm.store.add_chunks_cache_, isInt32 x)
      ∧ (∀ x ∈ wm.store.sub_chunks_cache_, isInt32 x) := by
  unfold DoUpdate.merge at h
  split at h
  · simp at h
  · rename_i v1 w1 h1
    obtain ⟨ht, iA, iS⟩ := DoUpdate.readFile_typed _ _ _ _ h1 hA hS
    simp only at h
    split at h
    · split at h
      · simp at h
      · rename_i v2 nf1 h2
        simp only [Prod.mk.injEq, true_and] at h
        obtain ⟨hv, hw⟩ := h
        subst hv hw
        obtain ⟨a1, a2, a3, a4⟩ := DoUpdate.readChunks_typed _ _ _ _ _ _ _ ht h2
        refine ⟨⟨a1, a2, ?_, a4⟩, iA, iS⟩
        intro r hr
        simp only [DoUpdate.appendPending_eq, List.mem_append] at hr
        exact hr.elim (a3 r) (fun hk => hpend r (mem_of_mem_keepLive _ _ _ hk))
    · simp at h

theorem OnlyRemoves.typed (P : Vectors → Vectors) (hP : OnlyRemoves P) (v : Vectors)
    (h : Vectors.Typed v) : Vectors.Typed (P v) := by
  obtain ⟨p1, p2, p3, p4⟩ := hP v
  obtain ⟨t1, t2, t3, t4⟩ := h
  exact ⟨fun r hr => t1 r (p1 r hr), fun r hr => t2 r (p2 r hr), fun r hr => t3 r (p3 r hr),
    fun r hr => t4 r (p4 r hr)⟩

theorem OnlyRemoves.live (P : Vectors → Vectors) (hP : OnlyRemoves P) (D E : HashSet)
    (v : Vectors) (h : Vectors.Live D E v) : Vectors.Live D E (P v) := by
  obtain ⟨p1, p2, p3, p4⟩ := hP v
  obtain ⟨t1, t2, t3, t4⟩ := h
  exact ⟨fun r hr => t1 r (p1 r hr), fun r hr => t2 r (p2 r hr), fun r hr => t3 r (p3 r hr),
    fun r hr => t4 r (p4 r hr)⟩

theorem DeleteChunksFromSet_int32 (D : HashSet) (l : ChunkSet) (h : ∀ x ∈ l, isInt32 x) :
    ∀ x ∈ DeleteChunksFromSet D l, isInt32 x := by
  intro x hx
  rw [DeleteChunksFromSet_eq_filter, List.mem_filter] at hx
  exact h x hx.1

/-! ## What a later session reads from the new committed file -/

theorem landed_cases (flush : Option Nat) (N tail : List Byte) :
    (∃ t, landed flush (N ++ tail) = N ++ t)
      ∨ (∃ k, k < N.length ∧ landed flush (N ++ tail) = N.take k) := by
  cases flush with
  | none => exact Or.inl ⟨tail, rfl⟩
  | some k =>
    by_cases hk : N.length ≤ k
    · refine Or.inl ⟨tail.take (k - N.length), ?_⟩
      simp only [landed, List.take_append_eq_append_take, List.take_of_length_le hk]
    · refine Or.inr ⟨k, by omega, ?_⟩
      simp only [landed]
      exact List.take_append_of_le_length (by omega)

theorem DoUpdate.readFile_landed (flush : Option Nat) (A S : ChunkSet) (v : Vectors)
    (tail : List Byte)
    (wA : ∀ x ∈ A, isInt32 x) (wS : ∀ x ∈ S, isInt32 x) (ht : Vectors.Typed v)
    (lA : A.length < 2147483648) (lS : S.length < 2147483648)
    (l1 : v.add_prefixes.length < 2147483648) (l2 : v.sub_prefixes.length < 2147483648)
    (l3 : v.add_full_hashes.length < 2147483648) (l4 : v.sub_full_hashes.length < 2147483648)
    (env : Faults) (w : World) (f : FILE) (items : Vectors) (w1 : World)
    (he : w.store.empty_ = false) (hf : w.store.file_ = some f)
    (hdata : f.data = landed flush (committedBytes A S v ++ tail))
    (h : DoUpdate.readFile env w = (true, items, w1)) :
    items = Vectors.survivors w.store.add_del_cache_ w.store.sub_del_cache_ v := by
  have hso : env.seek_old = true := by
    by_contra hc
    have := DoUpdate.readFile_corrupt env w f he hf (Or.inl (by simpa using hc))
    rw [h] at this
    simp at this
  obtain ⟨t1, t2, t3, t4⟩ := ht
  rcases landed_cases flush (committedBytes A S v) tail with ⟨t, e⟩ | ⟨k, hk, e⟩
  · rw [e] at hdata
    have := DoUpdate.readFile_ok env w f A S v t he hf hso hdata wA wS t1 t2 t3 t4 lA lS l1 l2 l3 l4
    rw [h] at this
    simp only [Prod.mk.injEq, true_and] at this
    rw [this.1]
    rfl
  · rw [e] at hdata
    have hlen : f.data.length = k := by
      rw [hdata, List.length_take]; omega
    exfalso
    have hfalse : (DoUpdate.readFile env w).1 = false := by
      refine DoUpdate.readFile_corrupt env w f he hf ?_
      by_cases h32 : k < 32
      · exact Or.inr (Or.inl (by omega))
      · refine Or.inr (Or.inr (Or.inr (Or.inr ?_)))
        have hh : headerOf f.data = committedHeader A S v := by
          have := headerOf_committedBytes A S v []
          rw [List.append_nil] at this
          rw [← this, hdata]
          unfold headerOf
          rw [List.take_take, Nat.min_eq_left (by omega)]
        rw [hh, hlen]
        simp only [committedHeader, toSizeT_toInt32 _ lA, toSizeT_toInt32 _ lS,
          toSizeT_toInt32 _ l1, toSizeT_toInt32 _ l2, toSizeT_toInt32 _ l3, toSizeT_toInt32 _ l4]
        rw [committedBytes_length] at hk
        exact hk
    rw [h] at hfalse
    simp at hfalse

theorem Vectors.survivors_live (D E D1 E1 : HashSet) (v : Vectors) (h : Vectors.Live D E v) :
    Vectors.Live D E (Vectors.survivors D1 E1 v) := by
  obtain ⟨a1, a2, a3, a4⟩ := h
  exact ⟨fun r hr => a1 r (mem_of_mem_keepLive _ _ _ hr),
    fun r hr => a2 r (mem_of_mem_keepLive _ _ _ hr),
    fun r hr => a3 r (mem_of_mem_keepLive _ _ _ hr),
    fun r hr => a4 r (mem_of_mem_keepLive _ _ _ hr)⟩

/-- What a successful `FinishUpdate` leaves, for a sub-cancellation primitive
that only removes records, when the pending adds and the chunk ids the session
holds are machine values. -/
theorem FinishUpdate_leaves (P : Vectors → Vectors) (env : Faults)
    (pending : List SBAddFullHash) (r1 : List SBAddPrefix) (r2 : List SBAddFullHash) (w : World)
    (ap : List SBAddPrefix) (ah : List SBAddFullHash) (w1 : World)
    (hP : OnlyRemoves P) (hpend : ∀ r ∈ pending, Pod.wf r)
    (hA : ∀ x ∈ w.store.add_chunks_cache_, isInt32 x)
    (hS : ∀ x ∈ w.store.sub_chunks_cache_, isInt32 x)
    (h : FinishUpdate P env pending r1 r2 w = (true, ap, ah, w1)) :
    ∃ v3 wm tail, DoUpdate.merge env pending w = (true, v3, wm)
      ∧ ap = (P v3).add_prefixes ∧ ah = (P v3).add_full_hashes
      ∧ Vectors.Live w.store.add_del_cache_ w.store.sub_del_cache_ (P v3)
      ∧ Vectors.Typed (P v3)
      ∧ w1.disk.committed = some (landed env.flush_new
          (committedBytes
              (DeleteChunksFromSet w.store.add_del_cache_ wm.store.add_chunks_cache_)
              (DeleteChunksFromSet w.store.sub_del_cache_ wm.store.sub_chunks_cache_) (P v3)
            ++ tail))
      ∧ ((DeleteChunksFromSet w.store.add_del_cache_ wm.store.add_chunks_cache_).length
            < 2147483648 →
          (DeleteChunksFromSet w.store.sub_del_cache_ wm.store.sub_chunks_cache_).length
            < 2147483648 →
          (P v3).add_prefixes.length < 2147483648 → (P v3).sub_prefixes.length < 2147483648 →
          (P v3).add_full_hashes.length < 2147483648 →
          (P v3).sub_full_hashes.length < 2147483648 →
          ∀ (envr : Faults) (wr : World) (f : FILE) (items : Vectors) (wr1 : World),
            wr.store.empty_ = false → wr.store.file_ = some f →
            w1.disk.committed = some f.data →
            DoUpdate.readFile envr wr = (true, items, wr1) →
            items = Vectors.survivors wr.store.add_del_cache_ wr.store.sub_del_cache_ (P v3)) := by
  obtain ⟨wd, hd, hc⟩ := FinishUpdate_true _ _ _ _ _ _ _ _ _ h
  obtain ⟨v3, wm, nf, hm, hnf, hap, hah, _, _, hnone, _, hdisk⟩ := DoUpdate_true _ _ _ _ _ _ _ _ _ hd
  obtain ⟨hl, hda, hds, _, _, _⟩ := DoUpdate.merge_true _ _ _ _ _ hm
  obtain ⟨ht, iA, iS⟩ := DoUpdate.merge_typed _ _ _ _ _ hm hpend hA hS
  have hfile : w1.disk.committed = some (landed env.flush_new
      (committedBytes
          (DeleteChunksFromSet w.store.add_del_cache_ wm.store.add_chunks_cache_)
          (DeleteChunksFromSet w.store.sub_del_cache_ wm.store.sub_chunks_cache_) (P v3)
        ++ nf.data.drop (committedBytes
          (DeleteChunksFromSet w.store.add_del_cache_ wm.store.add_chunks_cache_)
          (DeleteChunksFromSet w.store.sub_del_cache_ wm.store.sub_chunks_cache_)
          (P v3)).length)) := by
    rw [hc]
    simp only [Close, closeNewFile, hnone, hdisk, hda, hds]
  refine ⟨v3, wm, _, hm, hap, hah, OnlyRemoves.live P hP _ _ _ hl, OnlyRemoves.typed P hP _ ht,
    hfile, ?_⟩
  intro lA lS l1 l2 l3 l4 envr wr f items wr1 he hf hcom hr
  rw [hfile, Option.some.injEq] at hcom
  exact DoUpdate.readFile_landed env.flush_new _ _ _ _
    (DeleteChunksFromSet_int32 _ _ iA) (DeleteChunksFromSet_int32 _ _ iS)
    (OnlyRemoves.typed P hP _ ht) lA lS l1 l2 l3 l4 envr wr f items wr1 he hf hcom.symm hr

/-! ## Deleted and cancelled records in the output -/

end SafeBrowsing
